import Mathlib

/-!
The labelled, typed argument parser of goldcmd.

A shallow embedding of `command_parser.go` and `subcommand_handler.go`.

Modelling conventions.

* A Go `string` is the list of its characters (`Str`).  The parser only ever
  compares single bytes of a token with the ASCII bytes `'-'` and `'='`; in
  UTF-8 text these bytes occur exactly as those characters, so cutting a token
  at a byte offset found by these scans is cutting the character list at the
  same place.
* A Go `map[string]T` that is only read and written by key is a function
  `Str → Option T`; `menu`, which `helpString` iterates over, is a list of
  entries with distinct keys.
* A method with a pointer receiver that mutates its receiver returns the new
  receiver; a Go `error` result is an `Option GoError` (`none` is `nil`).
* A Go run-time panic (index or slice out of range) is the result `none` of a
  function into `Option`.
* The standard-library functions the package calls but does not define
  (`unicode.IsLetter`, `unicode.IsDigit`, `strconv.ParseFloat` and the type
  `float64`) are the fields of a `Stdlib` parameter; `strconv.Atoi` is
  modelled concretely for a 64-bit `int`.
-/

namespace Goldcmd

/-- A Go string, as the list of its characters. -/
abbrev Str := List Char

/-- A Go `error` value that is not `nil`: one made by `errors.New`, or the
error `strconv.Atoi` / `strconv.ParseFloat` returns for an input. -/
inductive GoError where
  | errorsNew (msg : Str)
  | strconvError (input : Str)
deriving DecidableEq

/-- The standard-library functions used by the package.  `IsLetter` is
`unicode.IsLetter`, `IsDigit` is `unicode.IsDigit`, `ParseFloat s` is
`strconv.ParseFloat(s, 64)` (`none` when it returns an error), `zero` is the
float constant `0.0`.  The hyphen is not a letter, and `ParseFloat` returns an
error for the empty string. -/
structure Stdlib where
  float64 : Type
  ParseFloat : Str → Option float64
  IsLetter : Char → Bool
  IsDigit : Char → Bool
  zero : float64
  isLetter_hyphen : IsLetter '-' = false
  parseFloat_empty : ParseFloat [] = none

/-- The standard library restricted to ASCII letters and digits, with integers
standing for floats and no string accepted by `ParseFloat`; it is used to
evaluate the model on concrete ASCII inputs. -/
def asciiStdlib : Stdlib where
  float64 := Int
  ParseFloat := fun _ => none
  IsLetter := Char.isAlpha
  IsDigit := Char.isDigit
  zero := 0
  isLetter_hyphen := by decide
  parseFloat_empty := rfl

/-! ## strconv.Atoi and strconv.Itoa -/

/-- The width of a Go `int`. -/
def intSize : Nat := 64

/-- The value of a decimal digit, `ch - '0'` when it is at most 9. -/
def digitVal (ch : Char) : Option Nat :=
  if 48 ≤ ch.toNat ∧ ch.toNat ≤ 57 then some (ch.toNat - 48) else none

/-- The digit loop of `strconv.Atoi`: `n = n*10 + int(ch)` for every byte, a
syntax error at the first byte that is not a decimal digit. -/
def parseDigits : Str → Nat → Option Nat
  | [], n => some n
  | ch :: rest, n =>
    match digitVal ch with
    | some d => parseDigits rest (n * 10 + d)
    | none => none

/-- The function `strconv.Atoi` for a 64-bit `int`: an optional sign, at least
one decimal digit, nothing else, and a value that fits the type; `none` stands
for a non-nil error. -/
def Atoi (s : Str) : Option Int :=
  match s with
  | [] => none
  | c :: rest =>
    let neg := decide (c = '-')
    let ds := if c = '-' ∨ c = '+' then rest else s
    if ds.length < 1 then none
    else
      match parseDigits ds 0 with
      | none => none
      | some n =>
        if neg then (if n ≤ 2 ^ (intSize - 1) then some (-(n : Int)) else none)
        else (if n < 2 ^ (intSize - 1) then some (n : Int) else none)

/-- The function `strconv.Itoa`: the decimal representation of an integer. -/
def Itoa (m : Int) : Str :=
  if m < 0 then '-' :: Nat.toDigits 10 m.natAbs else Nat.toDigits 10 m.natAbs

/-! ## command_parser.go -/

/-- Write `m[k] = v` on a map read by key. -/
def mapPut {V : Type} (m : Str → Option V) (k : Str) (v : V) : Str → Option V :=
  fun x => if x = k then some v else m x

/-- Write `menu[k] = v`: the entry of an existing key is replaced, a new key
gets a new entry. -/
def menuPut (m : List (Str × List Str)) (k : Str) (v : List Str) : List (Str × List Str) :=
  if m.any (fun e => decide (e.1 = k)) then m.map (fun e => if e.1 = k then (k, v) else e)
  else m ++ [(k, v)]

/-- The struct `commandParser`. -/
structure commandParser (F : Type) where
  allLabels : List Str
  intLabels : List (List Str)
  strLabels : List (List Str)
  floatLabels : List (List Str)
  boolLabels : List (List Str)
  intValues : Str → Option Int
  strValues : Str → Option Str
  floatValues : Str → Option F
  boolValues : Str → Option Bool
  menu : List (Str × List Str)

/-- The function `newCommandParser`. -/
def newCommandParser (F : Type) : commandParser F where
  allLabels := []
  intLabels := []
  strLabels := []
  floatLabels := []
  boolLabels := []
  intValues := fun _ => none
  strValues := fun _ => none
  floatValues := fun _ => none
  boolValues := fun _ => none
  menu := []

/-- The loop of `hasAlias` over the labels not yet visited. -/
def hasAliasLoop (newAlias : Str) : List Str → Bool
  | [] => false
  | label :: rest => if newAlias = label then true else hasAliasLoop newAlias rest

/-- The method `hasAlias`. -/
def hasAlias {F : Type} (cp : commandParser F) (newAlias : Str) : Bool :=
  hasAliasLoop newAlias cp.allLabels

/-- The method `addLabel`; the list behind the pointer `typeLabels` is passed
in and its new value is the second component of the result. -/
def addLabel {F : Type} (cp : commandParser F) (aliases : List Str) (doc : Str)
    (typeLabels : List (List Str)) : commandParser F × List (List Str) :=
  ({ cp with allLabels := cp.allLabels ++ aliases, menu := menuPut cp.menu doc aliases },
   typeLabels ++ [aliases])

/-- The method `addIntArg`. -/
def addIntArg {F : Type} (cp : commandParser F) (aliases : List Str) (doc : Str) :
    commandParser F :=
  let r := addLabel cp aliases doc cp.intLabels
  { r.1 with intLabels := r.2 }

/-- The method `addStrArg`. -/
def addStrArg {F : Type} (cp : commandParser F) (aliases : List Str) (doc : Str) :
    commandParser F :=
  let r := addLabel cp aliases doc cp.strLabels
  { r.1 with strLabels := r.2 }

/-- The method `addFloatArg`. -/
def addFloatArg {F : Type} (cp : commandParser F) (aliases : List Str) (doc : Str) :
    commandParser F :=
  let r := addLabel cp aliases doc cp.floatLabels
  { r.1 with floatLabels := r.2 }

/-- The method `addBoolArg`. -/
def addBoolArg {F : Type} (cp : commandParser F) (aliases : List Str) (doc : Str) :
    commandParser F :=
  let r := addLabel cp aliases doc cp.boolLabels
  { r.1 with boolLabels := r.2 }

/-- The method `setIntArg`. -/
def setIntArg {F : Type} (cp : commandParser F) : List Str → Int → commandParser F
  | [], _ => cp
  | alias_ :: rest, value =>
    setIntArg { cp with intValues := mapPut cp.intValues alias_ value } rest value

/-- The method `setStrArg`. -/
def setStrArg {F : Type} (cp : commandParser F) : List Str → Str → commandParser F
  | [], _ => cp
  | alias_ :: rest, value =>
    setStrArg { cp with strValues := mapPut cp.strValues alias_ value } rest value

/-- The method `setFloatArg`. -/
def setFloatArg {F : Type} (cp : commandParser F) : List Str → F → commandParser F
  | [], _ => cp
  | alias_ :: rest, value =>
    setFloatArg { cp with floatValues := mapPut cp.floatValues alias_ value } rest value

/-- The method `setBoolArg`. -/
def setBoolArg {F : Type} (cp : commandParser F) : List Str → Bool → commandParser F
  | [], _ => cp
  | alias_ :: rest, value =>
    setBoolArg { cp with boolValues := mapPut cp.boolValues alias_ value } rest value

/-- The inner loop of `strInStrList`: is `s` an element of the row. -/
def strInRow (s : Str) : List Str → Bool
  | [] => false
  | elm :: rest => if s = elm then true else strInRow s rest

/-- The outer loop of `strInStrList` from row number `n` on. -/
def strInStrListFrom (s : Str) : List (List Str) → Nat → Int
  | [], _ => -1
  | row :: rest, n => if strInRow s row then (n : Int) else strInStrListFrom s rest (n + 1)

/-- The function `strInStrList`: the first row holding `s`, or -1. -/
def strInStrList (s : Str) (l : List (List Str)) : Int :=
  strInStrListFrom s l 0

/-- The row `l[row]` of a group list, for a row number returned by
`strInStrList`. -/
def rowAt (l : List (List Str)) (row : Int) : List Str :=
  l.getD row.toNat []

/-- The method `tryToUseFlag`: the new receiver and the returned error. -/
def tryToUseFlag (L : Stdlib) (cp : commandParser L.float64) (alias_ possibleValue : Str) :
    commandParser L.float64 × Option GoError :=
  if strInStrList alias_ cp.intLabels ≥ 0 then
    match Atoi possibleValue with
    | some val => (setIntArg cp (rowAt cp.intLabels (strInStrList alias_ cp.intLabels)) val, none)
    | none => (cp, some (GoError.strconvError possibleValue))
  else if strInStrList alias_ cp.strLabels ≥ 0 then
    (setStrArg cp (rowAt cp.strLabels (strInStrList alias_ cp.strLabels)) possibleValue, none)
  else if strInStrList alias_ cp.floatLabels ≥ 0 then
    match L.ParseFloat possibleValue with
    | some val =>
      (setFloatArg cp (rowAt cp.floatLabels (strInStrList alias_ cp.floatLabels)) val, none)
    | none => (cp, some (GoError.strconvError possibleValue))
  else if strInStrList alias_ cp.boolLabels ≥ 0 then
    if possibleValue = "true".toList then
      (setBoolArg cp (rowAt cp.boolLabels (strInStrList alias_ cp.boolLabels)) true, none)
    else if possibleValue = "false".toList then
      (setBoolArg cp (rowAt cp.boolLabels (strInStrList alias_ cp.boolLabels)) false, none)
    else
      (setBoolArg cp (rowAt cp.boolLabels (strInStrList alias_ cp.boolLabels)) true, none)
  else
    (cp, some (GoError.errorsNew
      ("The label \"".toList ++ alias_ ++ "\" was not found to be a supported type.".toList)))

/-- The dash scan `for arg[start] == '-' && start < len(arg) { start += 1 }`
over the bytes of `arg` from `start` on.  The byte `arg[start]` is read before
`start` is compared with the length, so the scan panics when it reaches the
end of the token. -/
def dashScan : Str → Nat → Option Nat
  | [], _ => none
  | c :: rest, start => if c = '-' then dashScan rest (start + 1) else some start

/-- The scan `for end < len(arg) && arg[end] != '=' { end += 1 }` over the bytes
of `arg` from `end` on. -/
def eqScan : Str → Nat → Nat
  | [], e => e
  | c :: rest, e => if c ≠ '=' then eqScan rest (e + 1) else e

/-- The slice expression `s[lo:hi]`, which panics unless `lo ≤ hi ≤ len(s)`. -/
def slice (s : Str) (lo hi : Nat) : Option Str :=
  if lo ≤ hi ∧ hi ≤ s.length then some ((s.take hi).drop lo) else none

/-- The slice expression `s[lo:]`, which panics unless `lo ≤ len(s)`. -/
def sliceFrom (s : Str) (lo : Nat) : Option Str :=
  if lo ≤ s.length then some (s.drop lo) else none

/-- The loop of `parseFlags` with the cursor `k` at the head of the list: the
list is `args[k:]`, advancing `k` by one or two drops one or two tokens. -/
def parseLoop (L : Stdlib) : List Str → commandParser L.float64 → Option (commandParser L.float64)
  | [], cp => some cp
  | arg :: rest, cp =>
    match dashScan arg 0 with
    | none => none
    | some start =>
      if start = 1 ∨ start = 2 then
        match slice arg start (eqScan arg 0) with
        | none => none
        | some label =>
          if eqScan arg 0 < arg.length - 1 then
            match sliceFrom arg (eqScan arg 0 + 1) with
            | none => none
            | some value => parseLoop L rest (tryToUseFlag L cp label value).1
          else
            match rest with
            | next :: rest2 =>
              if (tryToUseFlag L cp label next).2 = none then
                parseLoop L rest2 (tryToUseFlag L cp label next).1
              else
                parseLoop L (next :: rest2) (tryToUseFlag L cp label next).1
            | [] => parseLoop L [] (tryToUseFlag L cp label []).1
      else parseLoop L rest cp

/-- The method `commandParser.parseFlags`: the cursor starts at `k = 2`. -/
def commandParser.parseFlags (L : Stdlib) (cp : commandParser L.float64) (args : List Str) :
    Option (commandParser L.float64) :=
  parseLoop L (args.drop 2) cp

/-! ## subcommand_handler.go -/

/-- The struct `subcommandExample`. -/
structure subcommandExample where
  documentation : Str
  command : Str
  output : Str

/-- The struct `SubcommandHandler`; the callback `handle` is not part of the
argument set and is left out. -/
structure SubcommandHandler (F : Type) where
  name : Str
  documentation : Str
  examples : List subcommandExample
  argparser : commandParser F
  paramparser : commandParser F

/-- The loop of `aliasIsValid` over the runes not yet visited; `i` is the byte
offset of the next rune. -/
def aliasIsValidLoop (L : Stdlib) : Str → Nat → Bool
  | [], _ => true
  | c :: rest, i =>
    if i = 0 then
      if !L.IsLetter c then false
      else
        if !L.IsLetter c && !L.IsDigit c && c != '_' && c != '-' then false
        else aliasIsValidLoop L rest (i + c.utf8Size)
    else aliasIsValidLoop L rest (i + c.utf8Size)

/-- The function `aliasIsValid`. -/
def aliasIsValid (L : Stdlib) (name : Str) : Bool :=
  if name.length = 0 then false else aliasIsValidLoop L name 0

/-- The function `NewSubcommandHandler`. -/
def NewSubcommandHandler (L : Stdlib) (name doc : Str) :
    Except GoError (SubcommandHandler L.float64) :=
  if !aliasIsValid L name then
    Except.error (GoError.errorsNew ("flag name \"".toList ++ name ++ "\" is not valid".toList))
  else
    Except.ok
      { name := name
        documentation := doc
        examples := []
        argparser := newCommandParser L.float64
        paramparser := newCommandParser L.float64 }

/-- The first loop of `checkAliasesAllowed`. -/
def allAliasesValid (L : Stdlib) : List Str → Bool
  | [] => true
  | alias_ :: rest => if !aliasIsValid L alias_ then false else allAliasesValid L rest

/-- The second loop of `checkAliasesAllowed`. -/
def noAliasInUse {F : Type} (h : SubcommandHandler F) : List Str → Bool
  | [] => true
  | alias_ :: rest =>
    if hasAlias h.argparser alias_ || hasAlias h.paramparser alias_ then false
    else noAliasInUse h rest

/-- The method `checkAliasesAllowed`. -/
def checkAliasesAllowed (L : Stdlib) (h : SubcommandHandler L.float64) (aliases : List Str) :
    Bool :=
  if !allAliasesValid L aliases then false
  else if !noAliasInUse h aliases then false
  else true

/-- The error `errors.New("invalid label value")`. -/
def invalidLabelValue : GoError := GoError.errorsNew "invalid label value".toList

/-- The method `AddIntArg`. -/
def AddIntArg (L : Stdlib) (h : SubcommandHandler L.float64) (aliases : List Str) (doc : Str) :
    SubcommandHandler L.float64 × Option GoError :=
  if !checkAliasesAllowed L h aliases then (h, some invalidLabelValue)
  else ({ h with argparser := addIntArg h.argparser aliases doc }, none)

/-- The method `AddFloatArg`. -/
def AddFloatArg (L : Stdlib) (h : SubcommandHandler L.float64) (aliases : List Str) (doc : Str) :
    SubcommandHandler L.float64 × Option GoError :=
  if !checkAliasesAllowed L h aliases then (h, some invalidLabelValue)
  else ({ h with argparser := addFloatArg h.argparser aliases doc }, none)

/-- The method `AddStrArg`. -/
def AddStrArg (L : Stdlib) (h : SubcommandHandler L.float64) (aliases : List Str) (doc : Str) :
    SubcommandHandler L.float64 × Option GoError :=
  if !checkAliasesAllowed L h aliases then (h, some invalidLabelValue)
  else ({ h with argparser := addStrArg h.argparser aliases doc }, none)

/-- The method `AddBoolArg`. -/
def AddBoolArg (L : Stdlib) (h : SubcommandHandler L.float64) (aliases : List Str) (doc : Str) :
    SubcommandHandler L.float64 × Option GoError :=
  if !checkAliasesAllowed L h aliases then (h, some invalidLabelValue)
  else ({ h with argparser := addBoolArg h.argparser aliases doc }, none)

/-- The method `AddIntParamWithDefault`. -/
def AddIntParamWithDefault (L : Stdlib) (h : SubcommandHandler L.float64) (aliases : List Str)
    (doc : Str) (deflt : Int) : SubcommandHandler L.float64 × Option GoError :=
  if !checkAliasesAllowed L h aliases then (h, some invalidLabelValue)
  else ({ h with paramparser := setIntArg (addIntArg h.paramparser aliases doc) aliases deflt },
        none)

/-- The method `AddFloatParamWithDefault`. -/
def AddFloatParamWithDefault (L : Stdlib) (h : SubcommandHandler L.float64)
    (aliases : List Str) (doc : Str) (deflt : L.float64) :
    SubcommandHandler L.float64 × Option GoError :=
  if !checkAliasesAllowed L h aliases then (h, some invalidLabelValue)
  else ({ h with
            paramparser := setFloatArg (addFloatArg h.paramparser aliases doc) aliases deflt },
        none)

/-- The method `AddStrParamWithDefault`. -/
def AddStrParamWithDefault (L : Stdlib) (h : SubcommandHandler L.float64) (aliases : List Str)
    (doc : Str) (deflt : Str) : SubcommandHandler L.float64 × Option GoError :=
  if !checkAliasesAllowed L h aliases then (h, some invalidLabelValue)
  else ({ h with paramparser := setStrArg (addStrArg h.paramparser aliases doc) aliases deflt },
        none)

/-- The method `AddBoolParamWithDefault`. -/
def AddBoolParamWithDefault (L : Stdlib) (h : SubcommandHandler L.float64)
    (aliases : List Str) (doc : Str) (deflt : Bool) :
    SubcommandHandler L.float64 × Option GoError :=
  if !checkAliasesAllowed L h aliases then (h, some invalidLabelValue)
  else ({ h with paramparser := setBoolArg (addBoolArg h.paramparser aliases doc) aliases deflt },
        none)

/-- The error `errors.New("key not available")`. -/
def keyNotAvailable : GoError := GoError.errorsNew "key not available".toList

/-- The method `GetInt`. -/
def GetInt {F : Type} (h : SubcommandHandler F) (key : Str) : Int × Option GoError :=
  match h.argparser.intValues key with
  | some val => (val, none)
  | none =>
    match h.paramparser.intValues key with
    | some val => (val, none)
    | none => (0, some keyNotAvailable)

/-- The method `GetStr`. -/
def GetStr {F : Type} (h : SubcommandHandler F) (key : Str) : Str × Option GoError :=
  match h.argparser.strValues key with
  | some val => (val, none)
  | none =>
    match h.paramparser.strValues key with
    | some val => (val, none)
    | none => ([], some keyNotAvailable)

/-- The method `GetFloat`. -/
def GetFloat (L : Stdlib) (h : SubcommandHandler L.float64) (key : Str) :
    L.float64 × Option GoError :=
  match h.argparser.floatValues key with
  | some val => (val, none)
  | none =>
    match h.paramparser.floatValues key with
    | some val => (val, none)
    | none => (L.zero, some keyNotAvailable)

/-- The method `GetBool`. -/
def GetBool {F : Type} (h : SubcommandHandler F) (key : Str) : Bool × Option GoError :=
  match h.argparser.boolValues key with
  | some val => (val, none)
  | none =>
    match h.paramparser.boolValues key with
    | some val => (val, none)
    | none => (false, some keyNotAvailable)

/-- The method `SubcommandHandler.parseFlags`: the required registry parses
first, then the parameter registry; a panic in either aborts the call. -/
def SubcommandHandler.parseFlags (L : Stdlib) (h : SubcommandHandler L.float64)
    (args : List Str) : Option (SubcommandHandler L.float64) :=
  match h.argparser.parseFlags L args with
  | none => none
  | some ap =>
    match commandParser.parseFlags L h.paramparser args with
    | none => none
    | some pp => some { h with argparser := ap, paramparser := pp }

/-! ## Views used to state properties for all four types at once -/

/-- The four value types of a flag. -/
inductive ValueType where
  | int
  | str
  | float
  | bool
deriving DecidableEq

/-- The Go type of the values of a value type. -/
@[reducible] def Val (F : Type) : ValueType → Type
  | ValueType.int => Int
  | ValueType.str => Str
  | ValueType.float => F
  | ValueType.bool => Bool

/-- The group list of a value type. -/
def commandParser.labels {F : Type} (cp : commandParser F) : ValueType → List (List Str)
  | ValueType.int => cp.intLabels
  | ValueType.str => cp.strLabels
  | ValueType.float => cp.floatLabels
  | ValueType.bool => cp.boolLabels

/-- The value map of a value type. -/
def commandParser.values {F : Type} (cp : commandParser F) :
    (T : ValueType) → Str → Option (Val F T)
  | ValueType.int => cp.intValues
  | ValueType.str => cp.strValues
  | ValueType.float => cp.floatValues
  | ValueType.bool => cp.boolValues

/-- The coercion `tryToUseFlag` applies to a value string for a group of the
given type: `Atoi`, the string itself, `ParseFloat`, or the boolean rule
(everything but "false" is true). -/
def coerce (L : Stdlib) : (T : ValueType) → Str → Option (Val L.float64 T)
  | ValueType.int, s => Atoi s
  | ValueType.str, s => some s
  | ValueType.float, s => L.ParseFloat s
  | ValueType.bool, s => some (decide (s ≠ "false".toList))

/-- The typed getter of a value type, as the looked-up value when the getter
returns a nil error and `none` when it returns "key not available". -/
def getValue (L : Stdlib) (h : SubcommandHandler L.float64) (T : ValueType) (key : Str) :
    Option (Val L.float64 T) :=
  match T with
  | ValueType.int => if (GetInt h key).2 = none then some (GetInt h key).1 else none
  | ValueType.str => if (GetStr h key).2 = none then some (GetStr h key).1 else none
  | ValueType.float => if (GetFloat L h key).2 = none then some (GetFloat L h key).1 else none
  | ValueType.bool => if (GetBool h key).2 = none then some (GetBool h key).1 else none

/-- One call of an `Add*Arg` or `Add*ParamWithDefault` method, with its
arguments. -/
inductive AddCall (F : Type) where
  | intArg (aliases : List Str) (doc : Str)
  | floatArg (aliases : List Str) (doc : Str)
  | strArg (aliases : List Str) (doc : Str)
  | boolArg (aliases : List Str) (doc : Str)
  | intParam (aliases : List Str) (doc : Str) (deflt : Int)
  | floatParam (aliases : List Str) (doc : Str) (deflt : F)
  | strParam (aliases : List Str) (doc : Str) (deflt : Str)
  | boolParam (aliases : List Str) (doc : Str) (deflt : Bool)

/-- The alias list passed to a call. -/
def AddCall.aliases {F : Type} : AddCall F → List Str
  | AddCall.intArg a _ => a
  | AddCall.floatArg a _ => a
  | AddCall.strArg a _ => a
  | AddCall.boolArg a _ => a
  | AddCall.intParam a _ _ => a
  | AddCall.floatParam a _ _ => a
  | AddCall.strParam a _ _ => a
  | AddCall.boolParam a _ _ => a

/-- Run a call on a handler: the handler afterwards and the returned error. -/
def AddCall.run (L : Stdlib) (c : AddCall L.float64) (h : SubcommandHandler L.float64) :
    SubcommandHandler L.float64 × Option GoError :=
  match c with
  | AddCall.intArg a d => AddIntArg L h a d
  | AddCall.floatArg a d => AddFloatArg L h a d
  | AddCall.strArg a d => AddStrArg L h a d
  | AddCall.boolArg a d => AddBoolArg L h a d
  | AddCall.intParam a d v => AddIntParamWithDefault L h a d v
  | AddCall.floatParam a d v => AddFloatParamWithDefault L h a d v
  | AddCall.strParam a d v => AddStrParamWithDefault L h a d v
  | AddCall.boolParam a d v => AddBoolParamWithDefault L h a d v

/-- Run a sequence of calls, successful or rejected, one after the other. -/
def runCalls (L : Stdlib) :
    List (AddCall L.float64) → SubcommandHandler L.float64 → SubcommandHandler L.float64
  | [], h => h
  | c :: rest, h => runCalls L rest (c.run L h).1

/-- The handler states reachable from `NewSubcommandHandler` by successful
`Add*Arg` / `Add*ParamWithDefault` calls and completed `parseFlags` calls. -/
inductive Reachable (L : Stdlib) : SubcommandHandler L.float64 → Prop where
  | new (name doc : Str) (h : SubcommandHandler L.float64) :
      NewSubcommandHandler L name doc = Except.ok h → Reachable L h
  | add (c : AddCall L.float64) (h : SubcommandHandler L.float64) :
      Reachable L h → (c.run L h).2 = none → Reachable L (c.run L h).1
  | parse (args : List Str) (h h2 : SubcommandHandler L.float64) :
      Reachable L h → h.parseFlags L args = some h2 → Reachable L h2

/-- The registry of a handler: the required registry (`false`) or the parameter
registry (`true`). -/
def SubcommandHandler.registry {F : Type} (h : SubcommandHandler F) : Bool → commandParser F
  | false => h.argparser
  | true => h.paramparser

/-- The first group of a group list that holds the alias. -/
def firstGroup (l : List (List Str)) (s : Str) : Option (List Str) :=
  l.find? (fun g => decide (s ∈ g))

/-- The binding of a label: the first type, in the order integer, string,
float, boolean, whose group list holds the label, with the first group of that
list that holds it. -/
def resolve {F : Type} (cp : commandParser F) (s : Str) : Option (ValueType × List Str) :=
  match firstGroup cp.intLabels s with
  | some g => some (ValueType.int, g)
  | none =>
    match firstGroup cp.strLabels s with
    | some g => some (ValueType.str, g)
    | none =>
      match firstGroup cp.floatLabels s with
      | some g => some (ValueType.float, g)
      | none =>
        match firstGroup cp.boolLabels s with
        | some g => some (ValueType.bool, g)
        | none => none

/-- The `set*Arg` method of a value type. -/
def setArg {F : Type} (cp : commandParser F) :
    (T : ValueType) → List Str → Val F T → commandParser F
  | ValueType.int, g, v => setIntArg cp g v
  | ValueType.str, g, v => setStrArg cp g v
  | ValueType.float, g, v => setFloatArg cp g v
  | ValueType.bool, g, v => setBoolArg cp g v

/-- The effect of one flag on a registry, as the specification words it: the
label is resolved to a group, the value is coerced to the type of the group
and written to every alias of the group; an unknown label or a value that
does not coerce changes nothing. -/
def bind (L : Stdlib) (cp : commandParser L.float64) (label value : Str) :
    commandParser L.float64 :=
  match resolve cp label with
  | none => cp
  | some (T, g) =>
    match coerce L T value with
    | some x => setArg cp T g x
    | none => cp

/-- A flag token: a run of dashes followed by the label. -/
def flagToken (dashes : Nat) (label : Str) : Str :=
  List.replicate dashes '-' ++ label

/-- A flag token with an inline value: dashes, label, `=`, value. -/
def flagTokenEq (dashes : Nat) (label value : Str) : Str :=
  List.replicate dashes '-' ++ label ++ '=' :: value

/-- A label that the dash scan and the `=` scan read back unchanged: it does
not start with a dash and holds no `=`. -/
def plainLabel (label : Str) : Prop :=
  label.head? ≠ some '-' ∧ '=' ∉ label

/-- The four ways of writing a flag with a value. -/
inductive FlagSyntax where
  | dashSpace
  | dashDashSpace
  | dashEq
  | dashDashEq

/-- The tokens of one flag `x` with value `val` in a syntax: `-x val`,
`--x val`, `-x=val` or `--x=val`. -/
def renderFlag : FlagSyntax → Str → Str → List Str
  | FlagSyntax.dashSpace, x, val => ["-".toList ++ x, val]
  | FlagSyntax.dashDashSpace, x, val => ["--".toList ++ x, val]
  | FlagSyntax.dashEq, x, val => ["-".toList ++ x ++ "=".toList ++ val]
  | FlagSyntax.dashDashEq, x, val => ["--".toList ++ x ++ "=".toList ++ val]

/-- The tokens of a sequence of flags, each written in its own syntax. -/
def renderFlags : List (FlagSyntax × Str × Str) → List Str
  | [] => []
  | (syn, x, val) :: rest => renderFlag syn x val ++ renderFlags rest

/-- The flags of a sequence bound one after the other, left to right. -/
def bindAll (L : Stdlib) :
    List (Str × Str) → commandParser L.float64 → commandParser L.float64
  | [], cp => cp
  | (x, val) :: rest, cp => bindAll L rest (bind L cp x val)

/-- The registry `sampleCommandParser()` of the tests, with the further integer
alias "x" that `TestBasicParseFlags` adds. -/
def sampleCommandParser : commandParser asciiStdlib.float64 :=
  addIntArg
    (addBoolArg
      (addFloatArg
        (addStrArg
          (addIntArg (newCommandParser asciiStdlib.float64) ["a".toList, "b".toList]
            "some int arg documentation".toList)
          ["c".toList] "some string arg documentation".toList)
        ["d".toList, "e".toList, "f".toList] "some float arg documentation".toList)
      ["g".toList, "h".toList] "some bool arg documentation".toList)
    ["x".toList] "another int arg".toList

/-- A registry whose only group is the integer group of the given aliases. -/
def intRegistry (aliases : List Str) : commandParser asciiStdlib.float64 :=
  addIntArg (newCommandParser asciiStdlib.float64) aliases "an int arg".toList

/-- A registry whose only group is the boolean group of the given aliases. -/
def boolRegistry (aliases : List Str) : commandParser asciiStdlib.float64 :=
  addBoolArg (newCommandParser asciiStdlib.float64) aliases "a bool arg".toList

/-- The naming rule of the specification: the first character is a letter and
every other character is a letter, a digit, `_` or `-`. -/
def namingRule (L : Stdlib) : Str → Bool
  | [] => false
  | c :: rest =>
    L.IsLetter c && rest.all (fun d => L.IsLetter d || L.IsDigit d || d == '_' || d == '-')

/-- The handler `NewSubcommandHandler("sub", "a subcommand")` returns. -/
def emptyHandler : SubcommandHandler asciiStdlib.float64 where
  name := "sub".toList
  documentation := "a subcommand".toList
  examples := []
  argparser := newCommandParser asciiStdlib.float64
  paramparser := newCommandParser asciiStdlib.float64

/-- The `add*Arg` method of a value type. -/
def addArg {F : Type} (cp : commandParser F) : ValueType → List Str → Str → commandParser F
  | ValueType.int, a, d => addIntArg cp a d
  | ValueType.str, a, d => addStrArg cp a d
  | ValueType.float, a, d => addFloatArg cp a d
  | ValueType.bool, a, d => addBoolArg cp a d

/-- The consistency of one registry: every alias of a group is a known label,
every key of a value map is an alias of a group of that type, two different
groups share no alias, and the aliases of one group have the same entry. -/
structure commandParser.WF {F : Type} (cp : commandParser F) : Prop where
  labels_sub : ∀ T g, g ∈ cp.labels T → ∀ y ∈ g, y ∈ cp.allLabels
  keys_sub : ∀ T y, cp.values T y ≠ none → ∃ g ∈ cp.labels T, y ∈ g
  apart : ∀ T T2 i j g g2, (cp.labels T).get? i = some g → (cp.labels T2).get? j = some g2 →
    (T ≠ T2 ∨ i ≠ j) → ∀ y ∈ g, y ∉ g2
  shared : ∀ T g, g ∈ cp.labels T → ∀ y ∈ g, ∀ y2 ∈ g, cp.values T y = cp.values T y2

/-- The consistency of a handler: both registries are consistent, they share no
label, and every label passed `aliasIsValid`. -/
structure SubcommandHandler.WF (L : Stdlib) (h : SubcommandHandler L.float64) : Prop where
  arg : h.argparser.WF
  param : h.paramparser.WF
  apart : ∀ y ∈ h.argparser.allLabels, y ∉ h.paramparser.allLabels
  valid : ∀ y, y ∈ h.argparser.allLabels ∨ y ∈ h.paramparser.allLabels → aliasIsValid L y = true

/-- The handler of the comment on `SubcommandHandler`: the empty handler after
`AddIntArg({"a", "apple"}, "an int")`. -/
def appleHandler : SubcommandHandler asciiStdlib.float64 :=
  (AddCall.run asciiStdlib (AddCall.intArg ["a".toList, "apple".toList] "an int".toList)
    emptyHandler).1

/-- The handler `appleHandler` after `parseFlags` on `[cli, sub, --a=5]`. -/
def appleHandlerParsed : SubcommandHandler asciiStdlib.float64 :=
  { appleHandler with
    argparser := setIntArg appleHandler.argparser ["a".toList, "apple".toList] 5 }

/-- One flag of an argument vector that sets one group: the registry of the
group (`true` for the parameter registry), its type, its position in the group
list of that type, the alias used on the command line and the value string. -/
structure FlagEntry where
  param : Bool
  type : ValueType
  index : Nat
  label : Str
  value : Str

/-- The token `--<alias>=<value>` of an entry. -/
def FlagEntry.token (e : FlagEntry) : Str :=
  "--".toList ++ e.label ++ "=".toList ++ e.value

/-- The label and the value of every entry, in order. -/
def FlagEntry.pairs (es : List FlagEntry) : List (Str × Str) :=
  es.map (fun e => (e.label, e.value))

/-- An entry as seen from the registry `r` of a handler: an entry of that
registry names one of its groups by an alias of the group and carries a value
that coerces to the type of the group; an entry of the other registry carries
a label this registry does not know. -/
def FlagEntry.fits (L : Stdlib) (cp : commandParser L.float64) (r : Bool) (e : FlagEntry) :
    Prop :=
  (e.param = r → ∃ g, (cp.labels e.type).get? e.index = some g ∧ e.label ∈ g ∧
    coerce L e.type e.value ≠ none) ∧
  (e.param ≠ r → e.label ∉ cp.allLabels)

/-- The handler `appleHandler` after `AddStrParamWithDefault({"s", "str"},
"a string", "none")`. -/
def appleStrHandler : SubcommandHandler asciiStdlib.float64 :=
  (AddCall.run asciiStdlib
    (AddCall.strParam ["s".toList, "str".toList] "a string".toList "none".toList)
    appleHandler).1

/-! ## The scan of `parseFlags` with its cursor -/

/-- One iteration of the outer loop of `parseFlags` with the cursor at `k`
(where `k < len(args)`): the registry and the cursor after the iteration, or
`none` for a panic. -/
def parseIter (L : Stdlib) (args : List Str) (k : Nat) (cp : commandParser L.float64) :
    Option (commandParser L.float64 × Nat) :=
  match args.get? k with
  | none => none
  | some arg =>
    match dashScan arg 0 with
    | none => none
    | some start =>
      if start = 1 ∨ start = 2 then
        match slice arg start (eqScan arg 0) with
        | none => none
        | some label =>
          if eqScan arg 0 < arg.length - 1 then
            match sliceFrom arg (eqScan arg 0 + 1) with
            | none => none
            | some value => some ((tryToUseFlag L cp label value).1, k + 1)
          else if k < args.length - 1 then
            match args.get? (k + 1) with
            | none => none
            | some next =>
              if (tryToUseFlag L cp label next).2 = none then
                some ((tryToUseFlag L cp label next).1, k + 2)
              else
                some ((tryToUseFlag L cp label next).1, k + 1)
          else some ((tryToUseFlag L cp label []).1, k + 1)
      else some (cp, k + 1)

/-- How a run of the outer loop ends: it needs more iterations than it was
given, it panics, or it leaves the loop with a registry. -/
inductive ScanResult (α : Type) where
  | unfinished
  | panicked
  | finished (st : α)

/-- The outer loop `for k < len(args)` of `parseFlags` from the cursor `k`,
run for at most `fuel` iterations. -/
def parseRun (L : Stdlib) (args : List Str) :
    Nat → Nat → commandParser L.float64 → ScanResult (commandParser L.float64)
  | 0, k, cp => if k < args.length then ScanResult.unfinished else ScanResult.finished cp
  | fuel + 1, k, cp =>
    if k < args.length then
      match parseIter L args k cp with
      | none => ScanResult.panicked
      | some (cp2, k2) => parseRun L args fuel k2 cp2
    else ScanResult.finished cp

/-- The result of `parseLoop` as the end of a run. -/
def ScanResult.ofOption {α : Type} : Option α → ScanResult α
  | none => ScanResult.panicked
  | some st => ScanResult.finished st

/-! ## helpString -/

/-- The inner loop of `helpString` over the labels not yet visited; `k` is the
index of the next label and `ls` the string built so far. -/
def helpLabels : List Str → Nat → Str → Str
  | [], _, ls => ls
  | label :: rest, k, ls =>
    helpLabels rest (k + 1) ((if k > 0 then ls ++ ",".toList else ls) ++ " --".toList ++ label)

/-- The outer loop of `helpString` over the entries of the menu not yet
visited; `s` is the string built so far. -/
def helpStringLoop : List (Str × List Str) → Str → Str
  | [], s => s
  | (doc, labels) :: rest, s =>
    helpStringLoop rest (s ++ helpLabels labels 0 [] ++ "\t".toList ++ doc ++ "\n".toList)

/-- The method `helpString`.  Go visits the entries of a map in an order it
does not specify; `visit` is that order, a rearrangement of the menu. -/
def helpString {F : Type} (cp : commandParser F)
    (visit : { l : List (Str × List Str) // l.Perm cp.menu }) : Str :=
  helpStringLoop visit.1 []

/-- The line of the help text for one entry, as the specification words it:
every alias prefixed with " --", joined by ",", then a tab, the documentation
and a newline. -/
def helpLine (e : Str × List Str) : Str :=
  List.intercalate ",".toList (e.2.map (fun a => " --".toList ++ a)) ++ "\t".toList ++ e.1 ++
    "\n".toList

/-- The label of a flag token without its dashes: the text up to the first
`=`. -/
def labelOf (body : Str) : Str :=
  body.takeWhile (fun c => decide (c ≠ '='))

/-- A registry with the integer group {"-a"} and the string group {"a"}. -/
def dashAliasRegistry : commandParser asciiStdlib.float64 :=
  addStrArg (intRegistry ["-a".toList]) ["a".toList] "a string arg".toList

/-! ## subcommand_example.go -/

/-- The method `subcommandExample.helpMessage`; `fmt.Sprintf` with `%s` verbs
puts the strings into the format. -/
def helpMessage (ex : subcommandExample) : Str :=
  let ret : Str := []
  let ret := if ex.documentation.length > 0 then
    ret ++ ("$ # ".toList ++ ex.documentation ++ "\n".toList) else ret
  let ret := ret ++ ("$ ".toList ++ ex.command ++ "\n".toList)
  let ret := if ex.output.length > 0 then ret ++ (ex.output ++ "\n\n".toList) else ret
  ret

/-- The handler `emptyHandler` after `AddBoolArg({"g=x"}, "a switch")` and
`AddIntArg({"a"}, "an int")`. -/
def eqAliasHandler : SubcommandHandler asciiStdlib.float64 :=
  (AddCall.run asciiStdlib (AddCall.intArg ["a".toList] "an int".toList)
    (AddCall.run asciiStdlib (AddCall.boolArg ["g=x".toList] "a switch".toList)
      emptyHandler).1).1

/-! ## Basic facts about the loops -/

theorem strInRow_iff (s : Str) (row : List Str) : strInRow s row = true ↔ s ∈ row := by
  induction row with
  | nil => simp [strInRow]
  | cons e rest ih =>
    by_cases h : s = e
    · simp [strInRow, h]
    · simp [strInRow, h, ih]

theorem hasAliasLoop_iff (s : Str) (l : List Str) : hasAliasLoop s l = true ↔ s ∈ l := by
  induction l with
  | nil => simp [hasAliasLoop]
  | cons e rest ih =>
    by_cases h : s = e
    · simp [hasAliasLoop, h]
    · simp [hasAliasLoop, h, ih]

/-- What `strInStrListFrom` returns: -1 when no row holds `s`, else `n` plus
the position of the first row that does. -/
theorem strInStrListFrom_spec (s : Str) (l : List (List Str)) (n : Nat) :
    (strInStrListFrom s l n = -1 ∧ ∀ g ∈ l, s ∉ g) ∨
    (∃ i g, strInStrListFrom s l n = ((n + i : Nat) : Int) ∧ l.get? i = some g ∧ s ∈ g ∧
      ∀ j g2, j < i → l.get? j = some g2 → s ∉ g2) := by
  induction l generalizing n with
  | nil => left; simp [strInStrListFrom]
  | cons row rest ih =>
    by_cases h : strInRow s row = true
    · right
      refine ⟨0, row, ?_, rfl, (strInRow_iff s row).1 h, ?_⟩
      · simp [strInStrListFrom, h]
      · intro j g2 hj; omega
    · have hn : s ∉ row := fun hm => h ((strInRow_iff s row).2 hm)
      rcases ih (n + 1) with ⟨h1, h2⟩ | ⟨i, g, h1, h2, h3, h4⟩
      · left
        refine ⟨by simp [strInStrListFrom, h, h1], ?_⟩
        intro g hg
        rcases List.mem_cons.1 hg with rfl | hg
        · exact hn
        · exact h2 g hg
      · right
        refine ⟨i + 1, g, ?_, by simpa using h2, h3, ?_⟩
        · simp only [strInStrListFrom, h]
          rw [h1]; simp; omega
        · intro j g2 hj hg2
          cases j with
          | zero => simp at hg2; subst hg2; exact hn
          | succ j => exact h4 j g2 (by omega) (by simpa using hg2)

/-- The row found by `strInStrList`, when there is one. -/
theorem strInStrList_spec (s : Str) (l : List (List Str)) :
    (¬ strInStrList s l ≥ 0 ∧ ∀ g ∈ l, s ∉ g) ∨
    (∃ i g, strInStrList s l ≥ 0 ∧ rowAt l (strInStrList s l) = g ∧ l.get? i = some g ∧
      s ∈ g ∧ ∀ j g2, j < i → l.get? j = some g2 → s ∉ g2) := by
  unfold strInStrList
  rcases strInStrListFrom_spec s l 0 with ⟨h1, h2⟩ | ⟨i, g, h1, h2, h3, h4⟩
  · left; exact ⟨by rw [h1]; decide, h2⟩
  · right
    refine ⟨i, g, by rw [h1]; exact Int.natCast_nonneg _, ?_, h2, h3, h4⟩
    rw [h1]
    rw [List.get?_eq_getElem?] at h2
    simp [rowAt, List.getD, h2]

theorem setIntArg_eq {F : Type} (cp : commandParser F) (g : List Str) (v : Int) :
    setIntArg cp g v =
      { cp with intValues := fun y => if y ∈ g then some v else cp.intValues y } := by
  induction g generalizing cp with
  | nil => simp [setIntArg]
  | cons a rest ih =>
    rw [setIntArg, ih]
    congr 1
    funext y
    by_cases h1 : y ∈ rest
    · simp [h1]
    · by_cases h2 : y = a <;> simp [h1, h2, mapPut]

theorem setStrArg_eq {F : Type} (cp : commandParser F) (g : List Str) (v : Str) :
    setStrArg cp g v =
      { cp with strValues := fun y => if y ∈ g then some v else cp.strValues y } := by
  induction g generalizing cp with
  | nil => simp [setStrArg]
  | cons a rest ih =>
    rw [setStrArg, ih]
    congr 1
    funext y
    by_cases h1 : y ∈ rest
    · simp [h1]
    · by_cases h2 : y = a <;> simp [h1, h2, mapPut]

theorem setFloatArg_eq {F : Type} (cp : commandParser F) (g : List Str) (v : F) :
    setFloatArg cp g v =
      { cp with floatValues := fun y => if y ∈ g then some v else cp.floatValues y } := by
  induction g generalizing cp with
  | nil => simp [setFloatArg]
  | cons a rest ih =>
    rw [setFloatArg, ih]
    congr 1
    funext y
    by_cases h1 : y ∈ rest
    · simp [h1]
    · by_cases h2 : y = a <;> simp [h1, h2, mapPut]

theorem setBoolArg_eq {F : Type} (cp : commandParser F) (g : List Str) (v : Bool) :
    setBoolArg cp g v =
      { cp with boolValues := fun y => if y ∈ g then some v else cp.boolValues y } := by
  induction g generalizing cp with
  | nil => simp [setBoolArg]
  | cons a rest ih =>
    rw [setBoolArg, ih]
    congr 1
    funext y
    by_cases h1 : y ∈ rest
    · simp [h1]
    · by_cases h2 : y = a <;> simp [h1, h2, mapPut]

theorem find?_first {α : Type} (p : α → Bool) (l : List α) (i : Nat) (g : α)
    (h1 : l.get? i = some g) (h2 : p g = true)
    (h3 : ∀ j g2, j < i → l.get? j = some g2 → p g2 = false) : l.find? p = some g := by
  induction l generalizing i with
  | nil => simp at h1
  | cons a rest ih =>
    cases i with
    | zero =>
      simp at h1; subst h1
      simp [List.find?, h2]
    | succ i =>
      have ha : p a = false := h3 0 a (by omega) rfl
      simp only [List.find?, ha]
      exact ih i (by simpa using h1) (fun j g2 hj hg => h3 (j + 1) g2 (by omega) (by simpa using hg))

/-- The function `strInStrList` finds the first group holding the alias. -/
theorem strInStrList_firstGroup (s : Str) (l : List (List Str)) :
    (firstGroup l s = none ∧ ¬ strInStrList s l ≥ 0) ∨
    (∃ g, firstGroup l s = some g ∧ strInStrList s l ≥ 0 ∧
      rowAt l (strInStrList s l) = g) := by
  rcases strInStrList_spec s l with ⟨h1, h2⟩ | ⟨i, g, h1, h2, h3, h4, h5⟩
  · left
    refine ⟨?_, h1⟩
    simp only [firstGroup, List.find?_eq_none]
    intro g hg
    simpa using h2 g hg
  · right
    refine ⟨g, ?_, h1, h2⟩
    exact find?_first _ l i g h3 (by simpa using h4)
      (fun j g2 hj hg => by simpa using h5 j g2 hj hg)

theorem firstGroup_some {l : List (List Str)} {s : Str} {g : List Str}
    (h : firstGroup l s = some g) : g ∈ l ∧ s ∈ g := by
  unfold firstGroup at h
  exact ⟨List.mem_of_find?_eq_some h, by simpa using List.find?_some h⟩

theorem firstGroup_none {l : List (List Str)} {s : Str}
    (h : firstGroup l s = none) : ∀ g ∈ l, s ∉ g := by
  unfold firstGroup at h
  intro g hg
  simpa using (List.find?_eq_none.1 h) g hg

/-- The method `tryToUseFlag` binds the label as the specification says, and
returns an error exactly when nothing is written. -/
theorem tryToUseFlag_eq (L : Stdlib) (cp : commandParser L.float64) (a v : Str) :
    (tryToUseFlag L cp a v).1 = bind L cp a v ∧
    ((tryToUseFlag L cp a v).2 = none ↔
      ∃ T g x, resolve cp a = some (T, g) ∧ coerce L T v = some x) := by
  unfold tryToUseFlag bind resolve
  rcases strInStrList_firstGroup a cp.intLabels with ⟨hi, hi2⟩ | ⟨g, hi, hi2, hi3⟩
  · rcases strInStrList_firstGroup a cp.strLabels with ⟨hs, hs2⟩ | ⟨g, hs, hs2, hs3⟩
    · rcases strInStrList_firstGroup a cp.floatLabels with ⟨hf, hf2⟩ | ⟨g, hf, hf2, hf3⟩
      · rcases strInStrList_firstGroup a cp.boolLabels with ⟨hb, hb2⟩ | ⟨g, hb, hb2, hb3⟩
        · simp [hi, hi2, hs, hs2, hf, hf2, hb, hb2]
        · simp only [hi, hi2, hs, hs2, hf, hf2, hb, hb2, hb3, if_true, if_false]
          by_cases h1 : v = ['t', 'r', 'u', 'e']
          · subst h1
            simp [coerce, setArg]
          · by_cases h2 : v = ['f', 'a', 'l', 's', 'e']
            · subst h2
              simp [coerce, setArg]
            · simp [coerce, setArg, h1, h2]
      · simp only [hi, hi2, hs, hs2, hf, hf2, hf3, if_true, if_false]
        cases hp : L.ParseFloat v <;> simp [coerce, setArg, hp]
    · simp [hi, hi2, hs, hs2, hs3, coerce, setArg]
  · simp only [hi, hi2, hi3, if_true]
    cases hp : Atoi v <;> simp [coerce, setArg, hp]

theorem dashScan_replicate (d : Nat) (s : Str) (n : Nat) (hs : s ≠ [])
    (hh : s.head? ≠ some '-') : dashScan (List.replicate d '-' ++ s) n = some (n + d) := by
  induction d generalizing n with
  | zero =>
    cases s with
    | nil => exact absurd rfl hs
    | cons c t =>
      have hc : c ≠ '-' := fun h => hh (by simp [h])
      simp [dashScan, hc]
  | succ d ih =>
    have e : List.replicate (d + 1) '-' ++ s = '-' :: (List.replicate d '-' ++ s) := by
      simp [List.replicate_succ]
    rw [e, dashScan, if_pos rfl, ih (n + 1)]
    congr 1
    omega

theorem eqScan_append (p s : Str) (e : Nat) (hp : '=' ∉ p) :
    eqScan (p ++ s) e = eqScan s (e + p.length) := by
  induction p generalizing e with
  | nil => simp
  | cons c t ih =>
    have hc : c ≠ '=' := fun h => hp (by simp [h])
    have ht : '=' ∉ t := fun h => hp (List.mem_cons_of_mem _ h)
    have e1 : (c :: t) ++ s = c :: (t ++ s) := rfl
    rw [e1, eqScan, if_pos hc, ih (e + 1) ht, List.length_cons]
    congr 1
    omega

theorem eq_not_mem_dashes (d : Nat) (x : Str) (hx : '=' ∉ x) :
    '=' ∉ List.replicate d '-' ++ x := by
  intro h
  rcases List.mem_append.1 h with h | h
  · have := List.eq_of_mem_replicate h
    exact absurd this (by decide)
  · exact hx h

/-- One iteration of the loop on a token with an inline value. -/
theorem parseLoop_inline (L : Stdlib) (cp : commandParser L.float64) (d : Nat)
    (hd : d = 1 ∨ d = 2) (x v : Str) (hx : plainLabel x) (hv : v ≠ []) (rest : List Str) :
    parseLoop L (flagTokenEq d x v :: rest) cp = parseLoop L rest (bind L cp x v) := by
  have h1 : dashScan (flagTokenEq d x v) 0 = some d := by
    have := dashScan_replicate d (x ++ '=' :: v) 0 (by simp)
      (by
        cases x with
        | nil => simp
        | cons c t => simpa using hx.1)
    simpa [flagTokenEq] using this
  have h2 : eqScan (flagTokenEq d x v) 0 = d + x.length := by
    have := eqScan_append (List.replicate d '-' ++ x) ('=' :: v) 0 (eq_not_mem_dashes d x hx.2)
    simpa [flagTokenEq, eqScan] using this
  have h3 : (flagTokenEq d x v).length = d + x.length + 1 + v.length := by
    simp [flagTokenEq]; omega
  have hvl : 0 < v.length := List.length_pos.2 hv
  have h4 : slice (flagTokenEq d x v) d (d + x.length) = some x := by
    have e1 : (flagTokenEq d x v).take (d + x.length) = List.replicate d '-' ++ x := by
      have : flagTokenEq d x v = (List.replicate d '-' ++ x) ++ '=' :: v := by
        simp [flagTokenEq]
      rw [this]
      exact List.take_left' (by simp)
    have e2 : (List.replicate d '-' ++ x).drop d = x := List.drop_left' (by simp)
    simp only [slice, h3, e1, e2]
    rw [if_pos (by omega)]
  have h5 : sliceFrom (flagTokenEq d x v) (d + x.length + 1) = some v := by
    have e1 : (flagTokenEq d x v).drop (d + x.length + 1) = v := by
      have : flagTokenEq d x v = (List.replicate d '-' ++ x ++ ['=']) ++ v := by
        simp [flagTokenEq]
      rw [this]
      exact List.drop_left' (by simp; omega)
    simp only [sliceFrom, h3, e1]
    rw [if_pos (by omega)]
  rw [parseLoop]
  simp only [h1, h2, h4, h5, h3]
  rw [if_pos hd, if_pos (by omega), (tryToUseFlag_eq L cp x v).1]

theorem flagToken_scan (d : Nat) (x : Str) (hx : plainLabel x) (hne : x ≠ []) :
    dashScan (flagToken d x) 0 = some d ∧ eqScan (flagToken d x) 0 = d + x.length ∧
    (flagToken d x).length = d + x.length ∧ slice (flagToken d x) d (d + x.length) = some x := by
  have h1 : dashScan (flagToken d x) 0 = some d := by
    have := dashScan_replicate d x 0 hne hx.1
    simpa [flagToken] using this
  have h2 : eqScan (flagToken d x) 0 = d + x.length := by
    have := eqScan_append (List.replicate d '-' ++ x) [] 0 (eq_not_mem_dashes d x hx.2)
    simpa [flagToken, eqScan] using this
  have h3 : (flagToken d x).length = d + x.length := by simp [flagToken]
  refine ⟨h1, h2, h3, ?_⟩
  have e1 : (flagToken d x).take (d + x.length) = List.replicate d '-' ++ x := by
    rw [← h3]; simp [flagToken]
  have e2 : (List.replicate d '-' ++ x).drop d = x := List.drop_left' (by simp)
  simp only [slice, h3, e1, e2]
  rw [if_pos (by omega)]

/-- One iteration of the loop on a bare flag followed by another token. -/
theorem parseLoop_bare_next (L : Stdlib) (cp : commandParser L.float64) (d : Nat)
    (hd : d = 1 ∨ d = 2) (x : Str) (hx : plainLabel x) (hne : x ≠ []) (next : Str)
    (rest : List Str) :
    parseLoop L (flagToken d x :: next :: rest) cp =
      if (tryToUseFlag L cp x next).2 = none then parseLoop L rest (bind L cp x next)
      else parseLoop L (next :: rest) (bind L cp x next) := by
  obtain ⟨h1, h2, h3, h4⟩ := flagToken_scan d x hx hne
  rw [parseLoop]
  simp only [h1, h2, h3, h4]
  rw [if_pos hd, if_neg (by omega), (tryToUseFlag_eq L cp x next).1]

/-- The last iteration of the loop on a bare flag that ends the arguments. -/
theorem parseLoop_bare_last (L : Stdlib) (cp : commandParser L.float64) (d : Nat)
    (hd : d = 1 ∨ d = 2) (x : Str) (hx : plainLabel x) (hne : x ≠ []) :
    parseLoop L [flagToken d x] cp = some (bind L cp x []) := by
  obtain ⟨h1, h2, h3, h4⟩ := flagToken_scan d x hx hne
  rw [parseLoop]
  simp only [h1, h2, h3, h4]
  rw [if_pos hd, if_neg (by omega), (tryToUseFlag_eq L cp x []).1, parseLoop]

/-! ## The registry after a write -/

@[simp] theorem setArg_allLabels {F : Type} (cp : commandParser F) (T : ValueType)
    (g : List Str) (x : Val F T) : (setArg cp T g x).allLabels = cp.allLabels := by
  cases T <;> simp [setArg, setIntArg_eq, setStrArg_eq, setFloatArg_eq, setBoolArg_eq]

@[simp] theorem setArg_intLabels {F : Type} (cp : commandParser F) (T : ValueType)
    (g : List Str) (x : Val F T) : (setArg cp T g x).intLabels = cp.intLabels := by
  cases T <;> simp [setArg, setIntArg_eq, setStrArg_eq, setFloatArg_eq, setBoolArg_eq]

@[simp] theorem setArg_strLabels {F : Type} (cp : commandParser F) (T : ValueType)
    (g : List Str) (x : Val F T) : (setArg cp T g x).strLabels = cp.strLabels := by
  cases T <;> simp [setArg, setIntArg_eq, setStrArg_eq, setFloatArg_eq, setBoolArg_eq]

@[simp] theorem setArg_floatLabels {F : Type} (cp : commandParser F) (T : ValueType)
    (g : List Str) (x : Val F T) : (setArg cp T g x).floatLabels = cp.floatLabels := by
  cases T <;> simp [setArg, setIntArg_eq, setStrArg_eq, setFloatArg_eq, setBoolArg_eq]

@[simp] theorem setArg_boolLabels {F : Type} (cp : commandParser F) (T : ValueType)
    (g : List Str) (x : Val F T) : (setArg cp T g x).boolLabels = cp.boolLabels := by
  cases T <;> simp [setArg, setIntArg_eq, setStrArg_eq, setFloatArg_eq, setBoolArg_eq]

@[simp] theorem setArg_menu {F : Type} (cp : commandParser F) (T : ValueType)
    (g : List Str) (x : Val F T) : (setArg cp T g x).menu = cp.menu := by
  cases T <;> simp [setArg, setIntArg_eq, setStrArg_eq, setFloatArg_eq, setBoolArg_eq]

@[simp] theorem setArg_labels {F : Type} (cp : commandParser F) (T T2 : ValueType)
    (g : List Str) (x : Val F T) : (setArg cp T g x).labels T2 = cp.labels T2 := by
  cases T2 <;> simp [commandParser.labels]

theorem setArg_values_same {F : Type} (cp : commandParser F) (T : ValueType)
    (g : List Str) (x : Val F T) (y : Str) :
    (setArg cp T g x).values T y = if y ∈ g then some x else cp.values T y := by
  cases T <;>
    simp [setArg, setIntArg_eq, setStrArg_eq, setFloatArg_eq, setBoolArg_eq,
      commandParser.values]

theorem setArg_values_other {F : Type} (cp : commandParser F) (T T2 : ValueType)
    (g : List Str) (x : Val F T) (y : Str) (hT : T2 ≠ T) :
    (setArg cp T g x).values T2 y = cp.values T2 y := by
  cases T <;> cases T2 <;>
    first
    | exact absurd rfl hT
    | simp [setArg, setIntArg_eq, setStrArg_eq, setFloatArg_eq, setBoolArg_eq,
        commandParser.values]

/-- A flag either changes nothing or writes one coerced value to the group
its label resolves to. -/
theorem bind_cases (L : Stdlib) (cp : commandParser L.float64) (a v : Str) :
    bind L cp a v = cp ∨
    ∃ T g x, resolve cp a = some (T, g) ∧ coerce L T v = some x ∧
      bind L cp a v = setArg cp T g x := by
  unfold bind
  cases hr : resolve cp a with
  | none => left; rfl
  | some p =>
    obtain ⟨T, g⟩ := p
    cases hc : coerce L T v with
    | none => left; simp [hc]
    | some x => right; exact ⟨T, g, x, rfl, hc, by simp [hc]⟩

/-- A write changes nothing but value maps. -/
theorem bind_frame (L : Stdlib) (cp : commandParser L.float64) (a v : Str) :
    (bind L cp a v).allLabels = cp.allLabels ∧ (bind L cp a v).intLabels = cp.intLabels ∧
    (bind L cp a v).strLabels = cp.strLabels ∧ (bind L cp a v).floatLabels = cp.floatLabels ∧
    (bind L cp a v).boolLabels = cp.boolLabels ∧ (bind L cp a v).menu = cp.menu := by
  rcases bind_cases L cp a v with h | ⟨T, g, x, _, _, h⟩
  · rw [h]; simp
  · rw [h]; simp

theorem bind_int (L : Stdlib) (cp : commandParser L.float64) (a v : Str) (g : List Str)
    (n : Int) (hg : firstGroup cp.intLabels a = some g) (hn : Atoi v = some n) :
    bind L cp a v = setIntArg cp g n ∧ (tryToUseFlag L cp a v).2 = none := by
  have hr : resolve cp a = some (ValueType.int, g) := by simp [resolve, hg]
  refine ⟨by simp [bind, hr, coerce, hn, setArg], ?_⟩
  exact (tryToUseFlag_eq L cp a v).2.2 ⟨ValueType.int, g, n, hr, hn⟩

theorem firstGroup_of_mem {l : List (List Str)} {s : Str} {g : List Str} (hg : g ∈ l)
    (hs : s ∈ g) : ∃ g2, firstGroup l s = some g2 := by
  cases h : firstGroup l s with
  | none => exact absurd hs (firstGroup_none h g hg)
  | some g2 => exact ⟨g2, rfl⟩

theorem flagToken_one (x : Str) : "-".toList ++ x = flagToken 1 x := rfl

theorem flagToken_two (x : Str) : "--".toList ++ x = flagToken 2 x := rfl

theorem flagTokenEq_one (x v : Str) : "-".toList ++ x ++ "=".toList ++ v = flagTokenEq 1 x v := by
  simp [flagTokenEq]

theorem flagTokenEq_two (x v : Str) :
    "--".toList ++ x ++ "=".toList ++ v = flagTokenEq 2 x v := by
  simp [flagTokenEq, List.replicate]

/-- An integer flag written in any of the four syntaxes takes one iteration
(or one iteration that consumes two tokens) and binds its value. -/
theorem parseLoop_renderFlag (L : Stdlib) (cp : commandParser L.float64) (syn : FlagSyntax)
    (x v : Str) (rest : List Str) (hne : x ≠ []) (hx : plainLabel x)
    (hg : ∃ g ∈ cp.intLabels, x ∈ g) (hv : v ≠ []) (hn : ∃ n, Atoi v = some n) :
    parseLoop L (renderFlag syn x v ++ rest) cp = parseLoop L rest (bind L cp x v) := by
  obtain ⟨g0, hg0, hx0⟩ := hg
  obtain ⟨g, hg⟩ := firstGroup_of_mem hg0 hx0
  obtain ⟨n, hn⟩ := hn
  have hb := (bind_int L cp x v g n hg hn).2
  cases syn with
  | dashSpace =>
    simp only [renderFlag, flagToken_one, List.cons_append, List.nil_append]
    rw [parseLoop_bare_next L cp 1 (Or.inl rfl) x hx hne, if_pos hb]
  | dashDashSpace =>
    simp only [renderFlag, flagToken_two, List.cons_append, List.nil_append]
    rw [parseLoop_bare_next L cp 2 (Or.inr rfl) x hx hne, if_pos hb]
  | dashEq =>
    simp only [renderFlag, flagTokenEq_one, List.cons_append, List.nil_append]
    rw [parseLoop_inline L cp 1 (Or.inl rfl) x v hx hv]
  | dashDashEq =>
    simp only [renderFlag, flagTokenEq_two, List.cons_append, List.nil_append]
    rw [parseLoop_inline L cp 2 (Or.inr rfl) x v hx hv]

theorem parseLoop_renderFlags (L : Stdlib) (flags : List (Str × Str)) :
    ∀ (syn : List FlagSyntax) (cp : commandParser L.float64),
      syn.length = flags.length →
      (∀ f ∈ flags, f.1 ≠ [] ∧ plainLabel f.1 ∧ (∃ g ∈ cp.intLabels, f.1 ∈ g) ∧ f.2 ≠ [] ∧
        ∃ n, Atoi f.2 = some n) →
      parseLoop L (renderFlags (syn.zip flags)) cp = some (bindAll L flags cp) := by
  induction flags with
  | nil =>
    intro syn cp _ _
    simp [renderFlags, bindAll, parseLoop]
  | cons f rest ih =>
    intro syn cp hlen hf
    obtain ⟨x, v⟩ := f
    cases syn with
    | nil => simp at hlen
    | cons s syn =>
      have h0 := hf (x, v) (List.mem_cons_self _ _)
      simp only [List.zip_cons_cons, renderFlags, bindAll]
      rw [parseLoop_renderFlag L cp s x v _ h0.1 h0.2.1 h0.2.2.1 h0.2.2.2.1 h0.2.2.2.2]
      apply ih syn (bind L cp x v) (by simpa using hlen)
      intro f2 hf2
      have h2 := hf f2 (List.mem_cons_of_mem _ hf2)
      rw [(bind_frame L cp x v).2.1]
      exact h2

theorem bindAll_intLabels (L : Stdlib) (flags : List (Str × Str)) :
    ∀ cp : commandParser L.float64, (bindAll L flags cp).intLabels = cp.intLabels := by
  induction flags with
  | nil => intro cp; rfl
  | cons f rest ih =>
    intro cp
    obtain ⟨x, v⟩ := f
    rw [bindAll, ih, (bind_frame L cp x v).2.1]

/-- Integer flags for other groups leave the value of an alias as it is. -/
theorem bindAll_int_untouched (L : Stdlib) (flags : List (Str × Str)) (y : Str) :
    ∀ cp : commandParser L.float64,
      (∀ f ∈ flags, ∃ g n, firstGroup cp.intLabels f.1 = some g ∧ Atoi f.2 = some n ∧ y ∉ g) →
      (bindAll L flags cp).intValues y = cp.intValues y := by
  induction flags with
  | nil => intro cp _; rfl
  | cons f rest ih =>
    intro cp hf
    obtain ⟨x, v⟩ := f
    obtain ⟨g, n, hg, hn, hy⟩ := hf (x, v) (List.mem_cons_self _ _)
    rw [bindAll, ih]
    · rw [(bind_int L cp x v g n hg hn).1, setIntArg_eq]
      simp [hy]
    · intro f2 hf2
      rw [(bind_frame L cp x v).2.1]
      exact hf f2 (List.mem_cons_of_mem _ hf2)

/-- With one integer flag per group, every alias of a flag's group ends up
with the value of that flag. -/
theorem bindAll_int_value (L : Stdlib) (flags : List (Str × Str)) :
    ∀ cp : commandParser L.float64,
      (∀ f ∈ flags, (∃ g ∈ cp.intLabels, f.1 ∈ g) ∧ ∃ n, Atoi f.2 = some n) →
      flags.Pairwise (fun f f2 => ∀ g g2, firstGroup cp.intLabels f.1 = some g →
        firstGroup cp.intLabels f2.1 = some g2 → ∀ y ∈ g, y ∉ g2) →
      ∀ f ∈ flags, ∀ g n, firstGroup cp.intLabels f.1 = some g → Atoi f.2 = some n →
        ∀ y ∈ g, (bindAll L flags cp).intValues y = some n := by
  induction flags with
  | nil => intro cp _ _ f hf; simp at hf
  | cons f0 rest ih =>
    intro cp hall hpw f hf g n hg hn y hy
    obtain ⟨x0, v0⟩ := f0
    have hlab := (bind_frame L cp x0 v0).2.1
    rw [List.pairwise_cons] at hpw
    rw [bindAll]
    rcases List.mem_cons.1 hf with rfl | hf
    · rw [bindAll_int_untouched L rest y]
      · rw [(bind_int L cp x0 v0 g n hg hn).1, setIntArg_eq]
        simp [hy]
      · intro f2 hf2
        obtain ⟨⟨g1, hg1, hx1⟩, n2, hn2⟩ := hall f2 (List.mem_cons_of_mem _ hf2)
        obtain ⟨g2, hg2⟩ := firstGroup_of_mem hg1 hx1
        refine ⟨g2, n2, by rw [hlab]; exact hg2, hn2, ?_⟩
        exact hpw.1 f2 hf2 g g2 hg hg2 y hy
    · apply ih (bind L cp x0 v0) _ _ f hf g n (by rw [hlab]; exact hg) hn y hy
      · intro f2 hf2
        rw [hlab]
        exact hall f2 (List.mem_cons_of_mem _ hf2)
      · rw [hlab]
        exact hpw.2

/-! ## C1: the four flag syntaxes -/

/-- C1: for a registry in which every label of a flag sequence is an alias of
an integer group (labels non-empty, not starting with a dash, without `=`) and
every value is a non-empty string that `Atoi` accepts, `parseFlags` completes
with the same final state whichever of the four syntaxes each flag is written
in; and when the groups of the flags are pairwise disjoint, every alias of
each flag's group maps to that flag's parsed integer in that state. -/
theorem flag_syntaxes_interchangeable (L : Stdlib) (cp : commandParser L.float64)
    (prog sub : Str) (flags : List (Str × Str)) (syn1 syn2 : List FlagSyntax)
    (h1 : syn1.length = flags.length) (h2 : syn2.length = flags.length)
    (hflags : ∀ f ∈ flags, f.1 ≠ [] ∧ f.1.head? ≠ some '-' ∧ '=' ∉ f.1 ∧
      (∃ g ∈ cp.intLabels, f.1 ∈ g) ∧ f.2 ≠ [] ∧ Atoi f.2 ≠ none) :
    ∃ st, cp.parseFlags L (prog :: sub :: renderFlags (syn1.zip flags)) = some st ∧
      cp.parseFlags L (prog :: sub :: renderFlags (syn2.zip flags)) = some st ∧
      (flags.Pairwise (fun f f2 => ∀ g g2, firstGroup cp.intLabels f.1 = some g →
          firstGroup cp.intLabels f2.1 = some g2 → ∀ y ∈ g, y ∉ g2) →
        ∀ f ∈ flags, ∀ g n, firstGroup cp.intLabels f.1 = some g → Atoi f.2 = some n →
          ∀ y ∈ g, st.intValues y = some n) := by
  have hf2 : ∀ f ∈ flags, f.1 ≠ [] ∧ plainLabel f.1 ∧ (∃ g ∈ cp.intLabels, f.1 ∈ g) ∧
      f.2 ≠ [] ∧ ∃ n, Atoi f.2 = some n := by
    intro f hf
    obtain ⟨a, b, c, d, e, k⟩ := hflags f hf
    exact ⟨a, ⟨b, c⟩, d, e, Option.ne_none_iff_exists'.1 k⟩
  refine ⟨bindAll L flags cp, ?_, ?_, ?_⟩
  · exact parseLoop_renderFlags L flags syn1 cp h1 hf2
  · exact parseLoop_renderFlags L flags syn2 cp h2 hf2
  · intro hpw
    exact bindAll_int_value L flags cp (fun f hf => ⟨(hf2 f hf).2.2.1, (hf2 f hf).2.2.2.2⟩) hpw

/-- C1 at the arguments of `TestBasicParseFlags`: `-a 1337 --x=42` and
`-a=1337 --x 42` on the sample registry end in the same state, with 1337 on
"a" and "b" and 42 on "x". -/
theorem flag_syntaxes_interchangeable_witness :
    (∀ f ∈ [("a".toList, "1337".toList), ("x".toList, "42".toList)],
      f.1 ≠ [] ∧ f.1.head? ≠ some '-' ∧ '=' ∉ f.1 ∧
      (∃ g ∈ sampleCommandParser.intLabels, f.1 ∈ g) ∧ f.2 ≠ [] ∧ Atoi f.2 ≠ none) ∧
    ∃ st,
      sampleCommandParser.parseFlags asciiStdlib
        ["cli".toList, "sub".toList, "-a".toList, "1337".toList, "--x=42".toList] = some st ∧
      sampleCommandParser.parseFlags asciiStdlib
        ["cli".toList, "sub".toList, "-a=1337".toList, "--x".toList, "42".toList] = some st ∧
      st.intValues "a".toList = some 1337 ∧ st.intValues "b".toList = some 1337 ∧
      st.intValues "x".toList = some 42 := by
  refine ⟨by decide, ?_⟩
  obtain ⟨st, e1, e2, hv⟩ :=
    flag_syntaxes_interchangeable asciiStdlib sampleCommandParser "cli".toList "sub".toList
      [("a".toList, "1337".toList), ("x".toList, "42".toList)]
      [FlagSyntax.dashSpace, FlagSyntax.dashDashEq] [FlagSyntax.dashEq, FlagSyntax.dashDashSpace]
      rfl rfl (by decide)
  have ga : firstGroup sampleCommandParser.intLabels "a".toList = some ["a".toList, "b".toList] :=
    by decide
  have gx : firstGroup sampleCommandParser.intLabels "x".toList = some ["x".toList] := by decide
  have hpw : List.Pairwise (fun f f2 : Str × Str => ∀ g g2,
      firstGroup sampleCommandParser.intLabels f.1 = some g →
      firstGroup sampleCommandParser.intLabels f2.1 = some g2 → ∀ y ∈ g, y ∉ g2)
      [("a".toList, "1337".toList), ("x".toList, "42".toList)] := by
    refine List.Pairwise.cons ?_ (List.Pairwise.cons (by simp) List.Pairwise.nil)
    intro f2 hf2 g g2 hg hg2 y hy
    rw [List.mem_singleton] at hf2
    subst hf2
    rw [ga] at hg
    rw [gx] at hg2
    cases hg
    cases hg2
    revert y
    decide
  have va := hv hpw ("a".toList, "1337".toList) (by simp) _ 1337 ga (by decide)
  have vx := hv hpw ("x".toList, "42".toList) (by simp) _ 42 gx (by decide)
  exact ⟨st, e1, e2, va "a".toList (by simp), va "b".toList (by simp), vx "x".toList (by simp)⟩

/-! ## Atoi reads back what Itoa writes -/

theorem digitVal_digitChar (d : Nat) (hd : d < 10) :
    digitVal (Nat.digitChar d) = some d ∧ Nat.digitChar d ≠ '-' ∧ Nat.digitChar d ≠ '+' := by
  interval_cases d <;> decide

theorem parseDigits_append (p s : Str) (a b : Nat) (hp : parseDigits p a = some b) :
    parseDigits (p ++ s) a = parseDigits s b := by
  induction p generalizing a with
  | nil =>
    simp only [parseDigits, Option.some.injEq] at hp
    subst hp
    rfl
  | cons c t ih =>
    simp only [List.cons_append, parseDigits] at hp ⊢
    cases hd : digitVal c with
    | none => simp [hd] at hp
    | some d =>
      simp only [hd] at hp ⊢
      exact ih _ hp

/-- The digits `Nat.toDigitsCore` puts in front of `ds`: a non-empty run of
decimal digits whose value is `n`. -/
theorem toDigitsCore_digits (fuel : Nat) :
    ∀ n, n < fuel → ∃ pre : Str, pre ≠ [] ∧
      (∀ ds, Nat.toDigitsCore 10 fuel n ds = pre ++ ds) ∧
      (∀ a, parseDigits pre a = some (a * 10 ^ pre.length + n)) ∧
      (∀ c, pre.head? = some c → c ≠ '-' ∧ c ≠ '+') := by
  induction fuel with
  | zero => intro n hn; omega
  | succ fuel ih =>
    intro n hn
    have hd := digitVal_digitChar (n % 10) (Nat.mod_lt _ (by decide))
    by_cases h0 : n / 10 = 0
    · refine ⟨[Nat.digitChar (n % 10)], by simp, ?_, ?_, ?_⟩
      · intro ds
        simp [Nat.toDigitsCore, h0]
      · intro a
        have hn10 : n % 10 = n := Nat.mod_eq_of_lt (by omega)
        simp only [parseDigits, hd.1]
        simp [hn10]
      · intro c hc
        simp only [List.head?_cons, Option.some.injEq] at hc
        subst hc
        exact hd.2
    · obtain ⟨pre, hne, happ, hval, hhead⟩ := ih (n / 10) (by omega)
      refine ⟨pre ++ [Nat.digitChar (n % 10)], by simp, ?_, ?_, ?_⟩
      · intro ds
        simp [Nat.toDigitsCore, h0, happ]
      · intro a
        rw [parseDigits_append pre _ a _ (hval a)]
        simp only [parseDigits, hd.1, List.length_append, List.length_singleton,
          Option.some.injEq]
        have := Nat.div_add_mod n 10
        rw [pow_succ]
        nlinarith [this]
      · intro c hc
        cases pre with
        | nil => exact absurd rfl hne
        | cons c0 t =>
          simp only [List.cons_append, List.head?_cons, Option.some.injEq] at hc
          exact hhead c (by simp [hc])

/-- The function `Atoi` reads back every 64-bit integer written by `Itoa`,
and `Itoa` never writes the empty string. -/
theorem Atoi_Itoa (m : Int) (hlo : -(2 : Int) ^ 63 ≤ m) (hhi : m < (2 : Int) ^ 63) :
    Atoi (Itoa m) = some m ∧ Itoa m ≠ [] := by
  obtain ⟨pre, hne, happ, hval, hhead⟩ := toDigitsCore_digits (m.natAbs + 1) m.natAbs (by omega)
  have hpre : Nat.toDigits 10 m.natAbs = pre := by
    have := happ []
    simpa [Nat.toDigits] using this
  have hv : parseDigits pre 0 = some m.natAbs := by simpa using hval 0
  cases hp : pre with
  | nil => exact absurd hp hne
  | cons c t =>
    have hc := hhead c (by simp [hp])
    by_cases hneg : m < 0
    · have hI : Itoa m = '-' :: c :: t := by simp [Itoa, hneg, hpre, hp]
      refine ⟨?_, by simp [hI]⟩
      rw [hI]
      have hv2 : parseDigits (c :: t) 0 = some m.natAbs := by rw [← hp]; exact hv
      have hb : m.natAbs ≤ 9223372036854775808 := by omega
      have hm : -(m.natAbs : Int) = m := by omega
      simp only [Atoi, intSize]
      simp [hv2, hb]
      rw [abs_of_neg hneg, neg_neg]
    · have hI : Itoa m = c :: t := by simp [Itoa, hneg, hpre, hp]
      refine ⟨?_, by simp [hI]⟩
      rw [hI]
      have hv2 : parseDigits (c :: t) 0 = some m.natAbs := by rw [← hp]; exact hv
      have hb : m.natAbs < 9223372036854775808 := by omega
      have hm : (m.natAbs : Int) = m := by omega
      simp only [Atoi, hc.1, hc.2, intSize]
      simp [hv2, hb, hm]

/-! ## Properties kept by the whole scan -/

/-- One iteration of the loop panics, skips the token, or binds one label to
one value and goes on with the tokens after it. -/
theorem parseLoop_cons_cases (L : Stdlib) (cp : commandParser L.float64) (arg : Str)
    (rest : List Str) :
    parseLoop L (arg :: rest) cp = none ∨
    ∃ label value rest2, rest2.length ≤ rest.length ∧
      (parseLoop L (arg :: rest) cp = parseLoop L rest2 cp ∨
       parseLoop L (arg :: rest) cp = parseLoop L rest2 (bind L cp label value)) := by
  cases h1 : dashScan arg 0 with
  | none => left; rw [parseLoop]; simp [h1]
  | some start =>
    by_cases h2 : start = 1 ∨ start = 2
    · cases h3 : slice arg start (eqScan arg 0) with
      | none => left; rw [parseLoop]; simp [h1, h2, h3]
      | some label =>
        by_cases h4 : eqScan arg 0 < arg.length - 1
        · cases h5 : sliceFrom arg (eqScan arg 0 + 1) with
          | none => left; rw [parseLoop]; simp [h1, h2, h3, h4, h5]
          | some value =>
            right
            refine ⟨label, value, rest, le_refl _, Or.inr ?_⟩
            rw [parseLoop]
            simp only [h1, h3, h5, if_pos h2, if_pos h4]
            rw [(tryToUseFlag_eq L cp label value).1]
        · right
          cases rest with
          | nil =>
            refine ⟨label, [], [], le_refl _, Or.inr ?_⟩
            simp only [parseLoop, h1, h3, if_pos h2, if_neg h4]
            rw [(tryToUseFlag_eq L cp label []).1]
          | cons next rest2 =>
            by_cases h6 : (tryToUseFlag L cp label next).2 = none
            · refine ⟨label, next, rest2, by simp, Or.inr ?_⟩
              rw [parseLoop]
              simp only [h1, h3, if_pos h2, if_neg h4, if_pos h6]
              rw [(tryToUseFlag_eq L cp label next).1]
            · refine ⟨label, next, next :: rest2, le_refl _, Or.inr ?_⟩
              rw [parseLoop]
              simp only [h1, h3, if_pos h2, if_neg h4, if_neg h6]
              rw [(tryToUseFlag_eq L cp label next).1]
    · right
      refine ⟨[], [], rest, le_refl _, Or.inl ?_⟩
      rw [parseLoop]
      simp only [h1, if_neg h2]

/-- A property of registries kept by every single write is kept by every
completed scan. -/
theorem parseLoop_invariant (L : Stdlib) (P : commandParser L.float64 → Prop)
    (hP : ∀ cp a v, P cp → P (bind L cp a v)) :
    ∀ (n : Nat) (toks : List Str) (cp cp2 : commandParser L.float64), toks.length ≤ n →
      P cp → parseLoop L toks cp = some cp2 → P cp2 := by
  intro n
  induction n with
  | zero =>
    intro toks cp cp2 hlen hcp hrun
    have : toks = [] := List.length_eq_zero.1 (by omega)
    subst this
    simp only [parseLoop, Option.some.injEq] at hrun
    subst hrun
    exact hcp
  | succ n ih =>
    intro toks cp cp2 hlen hcp hrun
    cases toks with
    | nil =>
      simp only [parseLoop, Option.some.injEq] at hrun
      subst hrun
      exact hcp
    | cons arg rest =>
      have hl : rest.length ≤ n := by simpa using hlen
      rcases parseLoop_cons_cases L cp arg rest with h | ⟨label, value, rest2, hr, h | h⟩
      · rw [h] at hrun; exact absurd hrun (by simp)
      · rw [h] at hrun
        exact ih rest2 cp cp2 (by omega) hcp hrun
      · rw [h] at hrun
        exact ih rest2 _ cp2 (by omega) (hP cp label value hcp) hrun

/-- A property of registries kept by every single write is kept by every
completed `parseFlags`. -/
theorem parseFlags_invariant (L : Stdlib) (P : commandParser L.float64 → Prop)
    (hP : ∀ cp a v, P cp → P (bind L cp a v)) (cp cp2 : commandParser L.float64)
    (args : List Str) (hcp : P cp) (hrun : cp.parseFlags L args = some cp2) : P cp2 :=
  parseLoop_invariant L P hP _ _ cp cp2 (le_refl _) hcp hrun

/-- A completed `parseFlags` leaves the group lists, the labels and the menu
as they were. -/
theorem parseFlags_frame (L : Stdlib) (cp cp2 : commandParser L.float64) (args : List Str)
    (hrun : cp.parseFlags L args = some cp2) :
    cp2.allLabels = cp.allLabels ∧ cp2.intLabels = cp.intLabels ∧
    cp2.strLabels = cp.strLabels ∧ cp2.floatLabels = cp.floatLabels ∧
    cp2.boolLabels = cp.boolLabels ∧ cp2.menu = cp.menu := by
  refine parseFlags_invariant L
    (fun c => c.allLabels = cp.allLabels ∧ c.intLabels = cp.intLabels ∧
      c.strLabels = cp.strLabels ∧ c.floatLabels = cp.floatLabels ∧
      c.boolLabels = cp.boolLabels ∧ c.menu = cp.menu) ?_ cp cp2 args
    ⟨rfl, rfl, rfl, rfl, rfl, rfl⟩ hrun
  intro c a v hc
  obtain ⟨f1, f2, f3, f4, f5, f6⟩ := bind_frame L c a v
  exact ⟨f1.trans hc.1, f2.trans hc.2.1, f3.trans hc.2.2.1, f4.trans hc.2.2.2.1,
    f5.trans hc.2.2.2.2.1, f6.trans hc.2.2.2.2.2⟩

/-! ## Writes through the parser -/

/-- Two writes in one scan: when `G` is the first integer group that holds `b`
and holds `a` too, `a` is non-empty, and neither alias starts with a dash or
holds `=`, the vector `[prog, sub, -a, str(m), --b=str(n)]` completes and
leaves `n` on `a` and on `b`. -/
theorem one_parse_last_write (L : Stdlib) (cp : commandParser L.float64)
    (prog sub a b : Str) (G : List Str) (m n : Int)
    (ha : a ∈ G) (hb : firstGroup cp.intLabels b = some G)
    (hane : a ≠ []) (hadash : a.head? ≠ some '-') (haeq : '=' ∉ a)
    (hbdash : b.head? ≠ some '-') (hbeq : '=' ∉ b)
    (hm : -(2 : Int) ^ 63 ≤ m ∧ m < (2 : Int) ^ 63)
    (hn : -(2 : Int) ^ 63 ≤ n ∧ n < (2 : Int) ^ 63) :
    ∃ st, cp.parseFlags L
        [prog, sub, "-".toList ++ a, Itoa m, "--".toList ++ b ++ "=".toList ++ Itoa n] = some st ∧
      st.intValues a = some n ∧ st.intValues b = some n := by
  obtain ⟨hGmem, hbG⟩ := firstGroup_some hb
  obtain ⟨Ga, hGa⟩ := firstGroup_of_mem hGmem ha
  obtain ⟨hAm, _⟩ := Atoi_Itoa m hm.1 hm.2
  obtain ⟨hAn, hne⟩ := Atoi_Itoa n hn.1 hn.2
  have h1 := bind_int L cp a (Itoa m) Ga m hGa hAm
  have hlab := (bind_frame L cp a (Itoa m)).2.1
  have h2 := bind_int L (bind L cp a (Itoa m)) b (Itoa n) G n (by rw [hlab]; exact hb) hAn
  refine ⟨bind L (bind L cp a (Itoa m)) b (Itoa n), ?_, ?_, ?_⟩
  · show parseLoop L ["-".toList ++ a, Itoa m, "--".toList ++ b ++ "=".toList ++ Itoa n] cp = _
    rw [flagToken_one, flagTokenEq_two,
      parseLoop_bare_next L cp 1 (Or.inl rfl) a ⟨hadash, haeq⟩ hane, if_pos h1.2,
      parseLoop_inline L _ 2 (Or.inr rfl) b (Itoa n) ⟨hbdash, hbeq⟩ hne, parseLoop]
  · rw [h2.1, setIntArg_eq]
    simp [ha]
  · rw [h2.1, setIntArg_eq]
    simp [hbG]

/-- A write after an earlier scan: when `G` is the first integer group that
holds `l`, and `l` does not start with a dash and holds no `=`, then after any
completed `parseFlags` the vector `[prog, sub, --l=v]` with a value `Atoi`
reads as `n` completes and leaves `n` on every alias of `G`. -/
theorem repeated_parse_last_write (L : Stdlib) (cp st1 : commandParser L.float64)
    (args1 : List Str) (prog sub l v : Str) (G : List Str) (n : Int)
    (hG : firstGroup cp.intLabels l = some G)
    (hdash : l.head? ≠ some '-') (heq : '=' ∉ l)
    (hrun : cp.parseFlags L args1 = some st1)
    (hv : Atoi v = some n) :
    ∃ st2, st1.parseFlags L [prog, sub, "--".toList ++ l ++ "=".toList ++ v] = some st2 ∧
      ∀ y ∈ G, st2.intValues y = some n := by
  have hlab := (parseFlags_frame L cp st1 args1 hrun).2.1
  have hne : v ≠ [] := by
    intro h
    subst h
    simp [Atoi] at hv
  have h2 := bind_int L st1 l v G n (by rw [hlab]; exact hG) hv
  refine ⟨bind L st1 l v, ?_, ?_⟩
  · show parseLoop L ["--".toList ++ l ++ "=".toList ++ v] st1 = _
    rw [flagTokenEq_two, parseLoop_inline L _ 2 (Or.inr rfl) l v ⟨hdash, heq⟩ hne, parseLoop]
  · intro y hy
    rw [h2.1, setIntArg_eq]
    simp [hy]

theorem firstGroup_eq_none {l : List (List Str)} {s : Str} (h : ∀ g ∈ l, s ∉ g) :
    firstGroup l s = none := by
  unfold firstGroup
  rw [List.find?_eq_none]
  intro g hg
  simpa using h g hg

theorem bind_bool (L : Stdlib) (cp : commandParser L.float64) (a v : Str) (g : List Str)
    (hint : ∀ g ∈ cp.intLabels, a ∉ g) (hstr : ∀ g ∈ cp.strLabels, a ∉ g)
    (hfloat : ∀ g ∈ cp.floatLabels, a ∉ g) (hg : firstGroup cp.boolLabels a = some g) :
    bind L cp a v = setBoolArg cp g (decide (v ≠ "false".toList)) := by
  have hr : resolve cp a = some (ValueType.bool, g) := by
    simp [resolve, firstGroup_eq_none hint, firstGroup_eq_none hstr, firstGroup_eq_none hfloat,
      hg]
  simp [bind, hr, coerce, setArg]

/-- C10 fails as stated.  With the boolean alias "-v" the vector
`[cli, sub, ---v]` is skipped and "-v" stays unset; with the boolean alias
"a=b" the vector `[cli, sub, --a=b]` is read as the label "a" with the value
"b", and "a=b" stays unset. -/
theorem boolean_coercion_counterexample :
    (firstGroup (boolRegistry ["-v".toList]).boolLabels "-v".toList = some ["-v".toList] ∧
      (boolRegistry ["-v".toList]).intLabels = [] ∧
      (boolRegistry ["-v".toList]).strLabels = [] ∧
      (boolRegistry ["-v".toList]).floatLabels = [] ∧
      ((boolRegistry ["-v".toList]).parseFlags asciiStdlib
        ["cli".toList, "sub".toList, "--".toList ++ "-v".toList]).map
        (fun st => st.boolValues "-v".toList) = some none) ∧
    (firstGroup (boolRegistry ["a=b".toList]).boolLabels "a=b".toList = some ["a=b".toList] ∧
      (boolRegistry ["a=b".toList]).intLabels = [] ∧
      (boolRegistry ["a=b".toList]).strLabels = [] ∧
      (boolRegistry ["a=b".toList]).floatLabels = [] ∧
      ((boolRegistry ["a=b".toList]).parseFlags asciiStdlib
        ["cli".toList, "sub".toList, "--".toList ++ "a=b".toList]).map
        (fun st => st.boolValues "a=b".toList) = some none) := by
  decide

/-- C10, amended: for a registry in which `v` is an alias of a boolean group
and of no integer, string or float group, where `v` is non-empty, does not
start with a dash and holds no `=`, and `G` is the first boolean group holding
`v`: `parseFlags` on `[prog, sub, --v]` completes and sets every alias of `G`
to true, and for every non-empty `s`, `parseFlags` on `[prog, sub, --v=s]`
completes and sets every alias of `G` to false when `s` is "false" and to
true otherwise. -/
theorem boolean_coercion (L : Stdlib) (cp : commandParser L.float64) (prog sub v : Str)
    (G : List Str) (hne : v ≠ []) (hdash : v.head? ≠ some '-') (heq : '=' ∉ v)
    (hint : ∀ g ∈ cp.intLabels, v ∉ g) (hstr : ∀ g ∈ cp.strLabels, v ∉ g)
    (hfloat : ∀ g ∈ cp.floatLabels, v ∉ g) (hG : firstGroup cp.boolLabels v = some G) :
    (∃ st, cp.parseFlags L [prog, sub, "--".toList ++ v] = some st ∧
      ∀ y ∈ G, st.boolValues y = some true) ∧
    (∀ s : Str, s ≠ [] →
      ∃ st, cp.parseFlags L [prog, sub, "--".toList ++ v ++ "=".toList ++ s] = some st ∧
        ∀ y ∈ G, st.boolValues y = some (decide (s ≠ "false".toList))) := by
  constructor
  · refine ⟨bind L cp v [], ?_, ?_⟩
    · show parseLoop L ["--".toList ++ v] cp = _
      rw [flagToken_two, parseLoop_bare_last L cp 2 (Or.inr rfl) v ⟨hdash, heq⟩ hne]
    · intro y hy
      rw [bind_bool L cp v [] G hint hstr hfloat hG, setBoolArg_eq]
      simp [hy]
  · intro s hs
    refine ⟨bind L cp v s, ?_, ?_⟩
    · show parseLoop L ["--".toList ++ v ++ "=".toList ++ s] cp = _
      rw [flagTokenEq_two, parseLoop_inline L cp 2 (Or.inr rfl) v s ⟨hdash, heq⟩ hs, parseLoop]
    · intro y hy
      rw [bind_bool L cp v s G hint hstr hfloat hG, setBoolArg_eq]
      simp [hy]

/-- C10 amended, at the instance of the specification: a boolean flag "v"
parsed from `--v` is true, from `--v=false` false and from `--v=yes` true. -/
theorem boolean_coercion_witness :
    ("v".toList ≠ [] ∧ "v".toList.head? ≠ some '-' ∧ '=' ∉ "v".toList ∧
      (∀ g ∈ (boolRegistry ["v".toList]).intLabels, "v".toList ∉ g) ∧
      (∀ g ∈ (boolRegistry ["v".toList]).strLabels, "v".toList ∉ g) ∧
      (∀ g ∈ (boolRegistry ["v".toList]).floatLabels, "v".toList ∉ g) ∧
      firstGroup (boolRegistry ["v".toList]).boolLabels "v".toList = some ["v".toList]) ∧
    (∃ st, (boolRegistry ["v".toList]).parseFlags asciiStdlib
        ["cli".toList, "sub".toList, "--".toList ++ "v".toList] = some st ∧
      ∀ y ∈ ["v".toList], st.boolValues y = some true) ∧
    (∀ s : Str, s ≠ [] →
      ∃ st, (boolRegistry ["v".toList]).parseFlags asciiStdlib
          ["cli".toList, "sub".toList, "--".toList ++ "v".toList ++ "=".toList ++ s] = some st ∧
        ∀ y ∈ ["v".toList], st.boolValues y = some (decide (s ≠ "false".toList))) :=
  ⟨by decide,
   boolean_coercion asciiStdlib (boolRegistry ["v".toList]) "cli".toList "sub".toList
     "v".toList ["v".toList] (by decide) (by decide) (by decide) (by decide) (by decide)
     (by decide) (by decide)⟩

/-! ## The checks of the coordinator -/

theorem aliasIsValidLoop_later (L : Stdlib) (s : Str) :
    ∀ i, i ≠ 0 → aliasIsValidLoop L s i = true := by
  induction s with
  | nil => intro i _; rfl
  | cons c t ih =>
    intro i hi
    rw [aliasIsValidLoop, if_neg hi]
    exact ih _ (by omega)

/-- What `aliasIsValid` checks: the name is not empty and its first character
is a letter; no other character is looked at. -/
theorem aliasIsValid_iff (L : Stdlib) (name : Str) :
    aliasIsValid L name = true ↔ ∃ c t, name = c :: t ∧ L.IsLetter c = true := by
  cases name with
  | nil => simp [aliasIsValid]
  | cons c t =>
    have hpos : c.utf8Size ≠ 0 := by
      have := Char.utf8Size_pos c
      omega
    by_cases hc : L.IsLetter c = true
    · simp [aliasIsValid, aliasIsValidLoop, hc, aliasIsValidLoop_later L t _ hpos]
    · simp [aliasIsValid, aliasIsValidLoop, hc]

theorem aliasIsValid_plain (L : Stdlib) (name : Str) (h : aliasIsValid L name = true) :
    name ≠ [] ∧ name.head? ≠ some '-' := by
  obtain ⟨c, t, rfl, hc⟩ := (aliasIsValid_iff L name).1 h
  refine ⟨by simp, ?_⟩
  intro hd
  simp only [List.head?_cons, Option.some.injEq] at hd
  subst hd
  rw [L.isLetter_hyphen] at hc
  exact absurd hc (by decide)

theorem allAliasesValid_iff (L : Stdlib) (aliases : List Str) :
    allAliasesValid L aliases = true ↔ ∀ a ∈ aliases, aliasIsValid L a = true := by
  induction aliases with
  | nil => simp [allAliasesValid]
  | cons a rest ih =>
    by_cases h : aliasIsValid L a = true
    · simp [allAliasesValid, h, ih]
    · simp [allAliasesValid, h]

theorem noAliasInUse_iff {F : Type} (h : SubcommandHandler F) (aliases : List Str) :
    noAliasInUse h aliases = true ↔
      ∀ a ∈ aliases, a ∉ h.argparser.allLabels ∧ a ∉ h.paramparser.allLabels := by
  induction aliases with
  | nil => simp [noAliasInUse]
  | cons a rest ih =>
    have h1 := hasAliasLoop_iff a h.argparser.allLabels
    have h2 := hasAliasLoop_iff a h.paramparser.allLabels
    by_cases ha : a ∈ h.argparser.allLabels
    · simp [noAliasInUse, hasAlias, h1.2 ha, ha]
    · by_cases hp : a ∈ h.paramparser.allLabels
      · simp [noAliasInUse, hasAlias, h2.2 hp, hp]
      · have e1 : hasAliasLoop a h.argparser.allLabels = false := by
          cases hh : hasAliasLoop a h.argparser.allLabels with
          | false => rfl
          | true => exact absurd (h1.1 hh) ha
        have e2 : hasAliasLoop a h.paramparser.allLabels = false := by
          cases hh : hasAliasLoop a h.paramparser.allLabels with
          | false => rfl
          | true => exact absurd (h2.1 hh) hp
        simp [noAliasInUse, hasAlias, e1, e2, ha, hp, ih]

/-- The method `checkAliasesAllowed` accepts a list exactly when every alias
passes `aliasIsValid` and none is a label of either registry. -/
theorem checkAliasesAllowed_iff (L : Stdlib) (h : SubcommandHandler L.float64)
    (aliases : List Str) :
    checkAliasesAllowed L h aliases = true ↔
      (∀ a ∈ aliases, aliasIsValid L a = true) ∧
      ∀ a ∈ aliases, a ∉ h.argparser.allLabels ∧ a ∉ h.paramparser.allLabels := by
  unfold checkAliasesAllowed
  by_cases h1 : allAliasesValid L aliases = true
  · by_cases h2 : noAliasInUse h aliases = true
    · simp only [h1, h2, Bool.not_true, Bool.false_eq_true, if_false, true_iff]
      exact ⟨(allAliasesValid_iff L aliases).1 h1, (noAliasInUse_iff h aliases).1 h2⟩
    · have h2f : noAliasInUse h aliases = false := by simpa using h2
      simp only [h1, h2f, Bool.not_true, Bool.not_false, Bool.false_eq_true, if_false, if_true,
        false_iff]
      intro hh
      exact h2 ((noAliasInUse_iff h aliases).2 hh.2)
  · have h1f : allAliasesValid L aliases = false := by simpa using h1
    simp only [h1f, Bool.not_false, if_true, Bool.false_eq_true, false_iff]
    intro hh
    exact h1 ((allAliasesValid_iff L aliases).2 hh.1)

/-! ## C4: a rejected registration changes nothing -/

/-- C4: for every handler and every alias list in which some alias is already
a label of the required registry or of the parameter registry, or fails
`aliasIsValid`, each of the eight registration methods returns the error
"invalid label value" together with the handler it was given, unchanged. -/
theorem registration_all_or_nothing (L : Stdlib) (h : SubcommandHandler L.float64)
    (aliases : List Str) (doc : Str)
    (hbad : ∃ a ∈ aliases, a ∈ h.argparser.allLabels ∨ a ∈ h.paramparser.allLabels ∨
      aliasIsValid L a = false) :
    AddIntArg L h aliases doc = (h, some invalidLabelValue) ∧
    AddFloatArg L h aliases doc = (h, some invalidLabelValue) ∧
    AddStrArg L h aliases doc = (h, some invalidLabelValue) ∧
    AddBoolArg L h aliases doc = (h, some invalidLabelValue) ∧
    (∀ d, AddIntParamWithDefault L h aliases doc d = (h, some invalidLabelValue)) ∧
    (∀ d, AddFloatParamWithDefault L h aliases doc d = (h, some invalidLabelValue)) ∧
    (∀ d, AddStrParamWithDefault L h aliases doc d = (h, some invalidLabelValue)) ∧
    (∀ d, AddBoolParamWithDefault L h aliases doc d = (h, some invalidLabelValue)) := by
  have hc : checkAliasesAllowed L h aliases = false := by
    cases hh : checkAliasesAllowed L h aliases with
    | false => rfl
    | true =>
      obtain ⟨hv, hu⟩ := (checkAliasesAllowed_iff L h aliases).1 hh
      obtain ⟨a, ha, h1 | h1 | h1⟩ := hbad
      · exact absurd h1 (hu a ha).1
      · exact absurd h1 (hu a ha).2
      · rw [hv a ha] at h1
        exact absurd h1 (by decide)
  simp [AddIntArg, AddFloatArg, AddStrArg, AddBoolArg, AddIntParamWithDefault,
    AddFloatParamWithDefault, AddStrParamWithDefault, AddBoolParamWithDefault, hc]

/-- C4 on the handler that already has the integer group {"a", "b"}:
registering {"c", "a"} is rejected by all eight methods. -/
theorem registration_all_or_nothing_witness :
    (∃ a ∈ ["c".toList, "a".toList],
      a ∈ (AddIntArg asciiStdlib emptyHandler ["a".toList, "b".toList]
        "doc".toList).1.argparser.allLabels ∨
      a ∈ (AddIntArg asciiStdlib emptyHandler ["a".toList, "b".toList]
        "doc".toList).1.paramparser.allLabels ∨
      aliasIsValid asciiStdlib a = false) ∧
    (AddIntArg asciiStdlib
        (AddIntArg asciiStdlib emptyHandler ["a".toList, "b".toList] "doc".toList).1
        ["c".toList, "a".toList] "doc2".toList =
      ((AddIntArg asciiStdlib emptyHandler ["a".toList, "b".toList] "doc".toList).1,
        some invalidLabelValue)) :=
  ⟨by decide,
   (registration_all_or_nothing asciiStdlib
     (AddIntArg asciiStdlib emptyHandler ["a".toList, "b".toList] "doc".toList).1
     ["c".toList, "a".toList] "doc2".toList (by decide)).1⟩

/-! ## C6: the naming check -/

/-- C6, evaluated on the name "a!": `aliasIsValid` accepts it although its
second character is neither a letter, a digit, `_` nor `-`, and so do
`NewSubcommandHandler` and `AddIntArg`. -/
theorem aliasIsValid_accepts_invalid_name :
    aliasIsValid asciiStdlib "a!".toList = true ∧
    namingRule asciiStdlib "a!".toList = false ∧
    (∃ h, NewSubcommandHandler asciiStdlib "a!".toList "doc".toList = Except.ok h) ∧
    (AddIntArg asciiStdlib emptyHandler ["a!".toList] "doc".toList).2 = none ∧
    (AddIntArg asciiStdlib emptyHandler ["a!".toList] "doc".toList).1.argparser.allLabels =
      ["a!".toList] := by
  refine ⟨by decide, by decide, ⟨_, rfl⟩, by decide, by decide⟩

/-! ## Consistency of a registry -/

theorem addArg_allLabels {F : Type} (cp : commandParser F) (T : ValueType) (a : List Str)
    (d : Str) : (addArg cp T a d).allLabels = cp.allLabels ++ a := by
  cases T <;> rfl

theorem addArg_labels_same {F : Type} (cp : commandParser F) (T : ValueType) (a : List Str)
    (d : Str) : (addArg cp T a d).labels T = cp.labels T ++ [a] := by
  cases T <;> rfl

theorem addArg_labels_other {F : Type} (cp : commandParser F) (T T2 : ValueType)
    (a : List Str) (d : Str) (hT : T2 ≠ T) : (addArg cp T a d).labels T2 = cp.labels T2 := by
  cases T <;> cases T2 <;> first | exact absurd rfl hT | rfl

theorem addArg_values {F : Type} (cp : commandParser F) (T T2 : ValueType) (a : List Str)
    (d : Str) : (addArg cp T a d).values T2 = cp.values T2 := by
  cases T <;> cases T2 <;> rfl

theorem get?_append_singleton {α : Type} (l : List α) (a g : α) (i : Nat)
    (h : (l ++ [a]).get? i = some g) : l.get? i = some g ∨ (i = l.length ∧ g = a) := by
  rw [List.get?_eq_getElem?] at h ⊢
  by_cases hi : i < l.length
  · left
    rw [List.getElem?_append_left hi] at h
    exact h
  · right
    rw [List.getElem?_append_right (by omega)] at h
    have hlt : i - l.length < 1 := by
      by_contra hc
      rw [List.getElem?_eq_none (by simp; omega)] at h
      exact absurd h (by simp)
    have h0 : i - l.length = 0 := by omega
    rw [h0] at h
    simp at h
    exact ⟨by omega, h.symm⟩

/-- A group of the registry after `add*Arg` is a group of the registry before
it, at the same place, or the new group at the end of its type list. -/
theorem addArg_group_cases {F : Type} (cp : commandParser F) (T T1 : ValueType) (a : List Str)
    (d : Str) (i : Nat) (g : List Str) (h : ((addArg cp T a d).labels T1).get? i = some g) :
    (cp.labels T1).get? i = some g ∨ (T1 = T ∧ i = (cp.labels T).length ∧ g = a) := by
  by_cases hT : T1 = T
  · subst hT
    rw [addArg_labels_same] at h
    rcases get?_append_singleton _ _ _ _ h with h1 | ⟨h1, h2⟩
    · exact Or.inl h1
    · exact Or.inr ⟨rfl, h1, h2⟩
  · rw [addArg_labels_other cp T T1 a d hT] at h
    exact Or.inl h

theorem addArg_labels_mono {F : Type} (cp : commandParser F) (T T1 : ValueType) (a : List Str)
    (d : Str) (g : List Str) (h : g ∈ cp.labels T1) : g ∈ (addArg cp T a d).labels T1 := by
  by_cases hT : T1 = T
  · subst hT
    rw [addArg_labels_same]
    exact List.mem_append_left _ h
  · rw [addArg_labels_other cp T T1 a d hT]
    exact h

theorem addArg_new_group {F : Type} (cp : commandParser F) (T : ValueType) (a : List Str)
    (d : Str) : ((addArg cp T a d).labels T).get? (cp.labels T).length = some a := by
  rw [addArg_labels_same, List.get?_eq_getElem?, List.getElem?_append_right (le_refl _)]
  simp

theorem WF_new (F : Type) : (newCommandParser F).WF where
  labels_sub := by intro T g hg; cases T <;> simp [newCommandParser, commandParser.labels] at hg
  keys_sub := by intro T y h; cases T <;> simp [newCommandParser, commandParser.values] at h
  apart := by
    intro T T2 i j g g2 h
    cases T <;> simp [newCommandParser, commandParser.labels] at h
  shared := by intro T g hg; cases T <;> simp [newCommandParser, commandParser.labels] at hg

/-- Writing a value to a whole group keeps a registry consistent. -/
theorem WF_setArg {F : Type} (cp : commandParser F) (hw : cp.WF) (T : ValueType) (i : Nat)
    (g : List Str) (x : Val F T) (hi : (cp.labels T).get? i = some g) :
    (setArg cp T g x).WF where
  labels_sub := by
    intro T2 g2 hg2 y hy
    rw [setArg_labels] at hg2
    rw [setArg_allLabels]
    exact hw.labels_sub T2 g2 hg2 y hy
  keys_sub := by
    intro T2 y hne
    simp only [setArg_labels]
    by_cases hT : T2 = T
    · subst hT
      rw [setArg_values_same] at hne
      by_cases hy : y ∈ g
      · exact ⟨g, List.get?_mem hi, hy⟩
      · rw [if_neg hy] at hne
        exact hw.keys_sub T2 y hne
    · rw [setArg_values_other cp T T2 g x y hT] at hne
      exact hw.keys_sub T2 y hne
  apart := by
    intro T1 T2 a b g1 g2 h1 h2
    rw [setArg_labels] at h1 h2
    exact hw.apart T1 T2 a b g1 g2 h1 h2
  shared := by
    intro T2 g2 hg2 y hy y2 hy2
    rw [setArg_labels] at hg2
    by_cases hT : T2 = T
    · subst hT
      rw [setArg_values_same, setArg_values_same]
      obtain ⟨j, hj⟩ := List.get?_of_mem hg2
      by_cases hij : j = i
      · subst hij
        rw [hi] at hj
        cases hj
        simp [hy, hy2]
      · have n1 : y ∉ g := hw.apart T2 T2 j i g2 g hj hi (Or.inr hij) y hy
        have n2 : y2 ∉ g := hw.apart T2 T2 j i g2 g hj hi (Or.inr hij) y2 hy2
        rw [if_neg n1, if_neg n2]
        exact hw.shared T2 g2 hg2 y hy y2 hy2
    · rw [setArg_values_other cp T T2 g x y hT, setArg_values_other cp T T2 g x y2 hT]
      exact hw.shared T2 g2 hg2 y hy y2 hy2

theorem resolve_some {F : Type} (cp : commandParser F) (a : Str) (T : ValueType)
    (g : List Str) (h : resolve cp a = some (T, g)) : firstGroup (cp.labels T) a = some g := by
  unfold resolve at h
  cases h1 : firstGroup cp.intLabels a with
  | some g1 =>
    simp only [h1, Option.some.injEq, Prod.mk.injEq] at h
    obtain ⟨rfl, rfl⟩ := h
    exact h1
  | none =>
    cases h2 : firstGroup cp.strLabels a with
    | some g2 =>
      simp only [h1, h2, Option.some.injEq, Prod.mk.injEq] at h
      obtain ⟨rfl, rfl⟩ := h
      exact h2
    | none =>
      cases h3 : firstGroup cp.floatLabels a with
      | some g3 =>
        simp only [h1, h2, h3, Option.some.injEq, Prod.mk.injEq] at h
        obtain ⟨rfl, rfl⟩ := h
        exact h3
      | none =>
        cases h4 : firstGroup cp.boolLabels a with
        | some g4 =>
          simp only [h1, h2, h3, h4, Option.some.injEq, Prod.mk.injEq] at h
          obtain ⟨rfl, rfl⟩ := h
          exact h4
        | none => simp [h1, h2, h3, h4] at h

/-- Binding a flag keeps a registry consistent. -/
theorem WF_bind (L : Stdlib) (cp : commandParser L.float64) (a v : Str) (hw : cp.WF) :
    (bind L cp a v).WF := by
  rcases bind_cases L cp a v with h | ⟨T, g, x, hr, _, h⟩
  · rw [h]; exact hw
  · rw [h]
    obtain ⟨i, hi⟩ := List.get?_of_mem (firstGroup_some (resolve_some cp a T g hr)).1
    exact WF_setArg cp hw T i g x hi

/-- Registering a group of fresh aliases keeps a registry consistent. -/
theorem WF_addArg {F : Type} (cp : commandParser F) (hw : cp.WF) (T : ValueType)
    (a : List Str) (d : Str) (hfresh : ∀ y ∈ a, y ∉ cp.allLabels) : (addArg cp T a d).WF where
  labels_sub := by
    intro T2 g2 hg2 y hy
    rw [addArg_allLabels]
    obtain ⟨i, hi⟩ := List.get?_of_mem hg2
    rcases addArg_group_cases cp T T2 a d i g2 hi with h1 | ⟨_, _, h3⟩
    · exact List.mem_append_left _ (hw.labels_sub T2 g2 (List.get?_mem h1) y hy)
    · rw [h3] at hy
      exact List.mem_append_right _ hy
  keys_sub := by
    intro T2 y hne
    rw [addArg_values] at hne
    obtain ⟨g, hg, hy⟩ := hw.keys_sub T2 y hne
    exact ⟨g, addArg_labels_mono cp T T2 a d g hg, hy⟩
  apart := by
    intro T1 T2 i j g1 g2 h1 h2 hne y hy
    rcases addArg_group_cases cp T T1 a d i g1 h1 with o1 | ⟨e1, e2, e3⟩
    · rcases addArg_group_cases cp T T2 a d j g2 h2 with o2 | ⟨_, _, f3⟩
      · exact hw.apart T1 T2 i j g1 g2 o1 o2 hne y hy
      · rw [f3]
        intro hy2
        exact hfresh y hy2 (hw.labels_sub T1 g1 (List.get?_mem o1) y hy)
    · rw [e3] at hy
      rcases addArg_group_cases cp T T2 a d j g2 h2 with o2 | ⟨f1, f2, _⟩
      · intro hy2
        exact hfresh y hy (hw.labels_sub T2 g2 (List.get?_mem o2) y hy2)
      · exfalso
        rcases hne with hne | hne
        · exact hne (e1.trans f1.symm)
        · exact hne (e2.trans f2.symm)
  shared := by
    intro T2 g2 hg2 y hy y2 hy2
    rw [addArg_values]
    obtain ⟨i, hi⟩ := List.get?_of_mem hg2
    rcases addArg_group_cases cp T T2 a d i g2 hi with h1 | ⟨_, _, h3⟩
    · exact hw.shared T2 g2 (List.get?_mem h1) y hy y2 hy2
    · have hnone : ∀ z ∈ g2, cp.values T2 z = none := by
        intro z hz
        rw [h3] at hz
        by_contra hc
        obtain ⟨g, hg, hzg⟩ := hw.keys_sub T2 z hc
        exact hfresh z hz (hw.labels_sub T2 g hg z hzg)
      rw [hnone y hy, hnone y2 hy2]

/-! ## Consistency of a handler -/

/-- A registration call is either rejected, leaving the handler as it is, or
accepted, and then it adds the group to the required registry, or adds it to
the parameter registry and writes the default to the whole group. -/
theorem run_cases (L : Stdlib) (c : AddCall L.float64) (h : SubcommandHandler L.float64) :
    (checkAliasesAllowed L h c.aliases = false ∧ c.run L h = (h, some invalidLabelValue)) ∨
    (checkAliasesAllowed L h c.aliases = true ∧ (c.run L h).2 = none ∧
      ∃ T d,
        (c.run L h).1 = { h with argparser := addArg h.argparser T c.aliases d } ∨
        ∃ x : Val L.float64 T,
          (c.run L h).1 =
            { h with paramparser := setArg (addArg h.paramparser T c.aliases d) T c.aliases x }) := by
  cases hc : checkAliasesAllowed L h c.aliases with
  | false =>
    left
    refine ⟨rfl, ?_⟩
    cases c <;>
      simp only [AddCall.aliases] at hc <;>
      simp [AddCall.run, AddIntArg, AddFloatArg, AddStrArg, AddBoolArg, AddIntParamWithDefault,
        AddFloatParamWithDefault, AddStrParamWithDefault, AddBoolParamWithDefault, hc]
  | true =>
    right
    refine ⟨rfl, ?_⟩
    cases c with
    | intArg a d =>
      simp only [AddCall.aliases] at hc
      exact ⟨by simp [AddCall.run, AddIntArg, hc], ValueType.int, d,
        Or.inl (by simp [AddCall.run, AddIntArg, hc, addArg, AddCall.aliases])⟩
    | floatArg a d =>
      simp only [AddCall.aliases] at hc
      exact ⟨by simp [AddCall.run, AddFloatArg, hc], ValueType.float, d,
        Or.inl (by simp [AddCall.run, AddFloatArg, hc, addArg, AddCall.aliases])⟩
    | strArg a d =>
      simp only [AddCall.aliases] at hc
      exact ⟨by simp [AddCall.run, AddStrArg, hc], ValueType.str, d,
        Or.inl (by simp [AddCall.run, AddStrArg, hc, addArg, AddCall.aliases])⟩
    | boolArg a d =>
      simp only [AddCall.aliases] at hc
      exact ⟨by simp [AddCall.run, AddBoolArg, hc], ValueType.bool, d,
        Or.inl (by simp [AddCall.run, AddBoolArg, hc, addArg, AddCall.aliases])⟩
    | intParam a d v =>
      simp only [AddCall.aliases] at hc
      exact ⟨by simp [AddCall.run, AddIntParamWithDefault, hc], ValueType.int, d,
        Or.inr ⟨v, by
          simp [AddCall.run, AddIntParamWithDefault, hc, addArg, setArg, AddCall.aliases]⟩⟩
    | floatParam a d v =>
      simp only [AddCall.aliases] at hc
      exact ⟨by simp [AddCall.run, AddFloatParamWithDefault, hc], ValueType.float, d,
        Or.inr ⟨v, by
          simp [AddCall.run, AddFloatParamWithDefault, hc, addArg, setArg, AddCall.aliases]⟩⟩
    | strParam a d v =>
      simp only [AddCall.aliases] at hc
      exact ⟨by simp [AddCall.run, AddStrParamWithDefault, hc], ValueType.str, d,
        Or.inr ⟨v, by
          simp [AddCall.run, AddStrParamWithDefault, hc, addArg, setArg, AddCall.aliases]⟩⟩
    | boolParam a d v =>
      simp only [AddCall.aliases] at hc
      exact ⟨by simp [AddCall.run, AddBoolParamWithDefault, hc], ValueType.bool, d,
        Or.inr ⟨v, by
          simp [AddCall.run, AddBoolParamWithDefault, hc, addArg, setArg, AddCall.aliases]⟩⟩

theorem WFh_new (L : Stdlib) (name doc : Str) (h : SubcommandHandler L.float64)
    (hn : NewSubcommandHandler L name doc = Except.ok h) : h.WF L := by
  unfold NewSubcommandHandler at hn
  by_cases hv : aliasIsValid L name = true
  · simp only [hv, Bool.not_true, Bool.false_eq_true, if_false, Except.ok.injEq] at hn
    subst hn
    exact ⟨WF_new _, WF_new _, by simp [newCommandParser], by simp [newCommandParser]⟩
  · have hf : aliasIsValid L name = false := by simpa using hv
    simp [hf] at hn

theorem WFh_addArg (L : Stdlib) (h : SubcommandHandler L.float64) (hw : h.WF L)
    (T : ValueType) (a : List Str) (d : Str) (hc : checkAliasesAllowed L h a = true) :
    SubcommandHandler.WF L { h with argparser := addArg h.argparser T a d } := by
  obtain ⟨hv, hu⟩ := (checkAliasesAllowed_iff L h a).1 hc
  refine ⟨WF_addArg _ hw.arg T a d (fun y hy => (hu y hy).1), hw.param, ?_, ?_⟩
  · intro y hy
    simp only [addArg_allLabels, List.mem_append] at hy
    rcases hy with hy | hy
    · exact hw.apart y hy
    · exact (hu y hy).2
  · intro y hy
    simp only [addArg_allLabels, List.mem_append] at hy
    rcases hy with (hy | hy) | hy
    · exact hw.valid y (Or.inl hy)
    · exact hv y hy
    · exact hw.valid y (Or.inr hy)

theorem WFh_addParam (L : Stdlib) (h : SubcommandHandler L.float64) (hw : h.WF L)
    (T : ValueType) (a : List Str) (d : Str) (x : Val L.float64 T)
    (hc : checkAliasesAllowed L h a = true) :
    SubcommandHandler.WF L
      { h with paramparser := setArg (addArg h.paramparser T a d) T a x } := by
  obtain ⟨hv, hu⟩ := (checkAliasesAllowed_iff L h a).1 hc
  refine ⟨hw.arg, ?_, ?_, ?_⟩
  · exact WF_setArg _ (WF_addArg _ hw.param T a d (fun y hy => (hu y hy).2)) T _ a x
      (addArg_new_group h.paramparser T a d)
  · intro y hy
    simp only [setArg_allLabels, addArg_allLabels, List.mem_append]
    rintro (hp | hp)
    · exact hw.apart y hy hp
    · exact (hu y hp).1 hy
  · intro y hy
    simp only [setArg_allLabels, addArg_allLabels, List.mem_append] at hy
    rcases hy with hy | hy | hy
    · exact hw.valid y (Or.inl hy)
    · exact hw.valid y (Or.inr hy)
    · exact hv y hy

theorem WFh_run (L : Stdlib) (c : AddCall L.float64) (h : SubcommandHandler L.float64)
    (hw : h.WF L) : SubcommandHandler.WF L (c.run L h).1 := by
  rcases run_cases L c h with ⟨_, h2⟩ | ⟨hc, _, T, d, h2 | ⟨x, h2⟩⟩
  · rw [h2]; exact hw
  · rw [h2]; exact WFh_addArg L h hw T c.aliases d hc
  · rw [h2]; exact WFh_addParam L h hw T c.aliases d x hc

/-- What `SubcommandHandler.parseFlags` returns: both registries parsed, the
rest of the handler as it was. -/
theorem handler_parseFlags_eq (L : Stdlib) (h h2 : SubcommandHandler L.float64)
    (args : List Str) (hrun : h.parseFlags L args = some h2) :
    h.argparser.parseFlags L args = some h2.argparser ∧
    h.paramparser.parseFlags L args = some h2.paramparser := by
  unfold SubcommandHandler.parseFlags at hrun
  cases h1 : h.argparser.parseFlags L args with
  | none => simp [h1] at hrun
  | some ap =>
    cases h3 : commandParser.parseFlags L h.paramparser args with
    | none => simp [h1, h3] at hrun
    | some pp =>
      simp only [h1, h3, Option.some.injEq] at hrun
      subst hrun
      exact ⟨rfl, rfl⟩

theorem WFh_parse (L : Stdlib) (h h2 : SubcommandHandler L.float64) (args : List Str)
    (hw : h.WF L) (hrun : h.parseFlags L args = some h2) : h2.WF L := by
  obtain ⟨ha, hp⟩ := handler_parseFlags_eq L h h2 args hrun
  have fa := (parseFlags_frame L _ _ args ha).1
  have fp := (parseFlags_frame L _ _ args hp).1
  refine ⟨?_, ?_, ?_, ?_⟩
  · exact parseFlags_invariant L (fun c => c.WF) (fun c a v hc => WF_bind L c a v hc) _ _ args
      hw.arg ha
  · exact parseFlags_invariant L (fun c => c.WF) (fun c a v hc => WF_bind L c a v hc) _ _ args
      hw.param hp
  · rw [fa, fp]; exact hw.apart
  · rw [fa, fp]; exact hw.valid

/-- Every reachable handler is consistent. -/
theorem Reachable.wf (L : Stdlib) (h : SubcommandHandler L.float64) (hr : Reachable L h) :
    h.WF L := by
  induction hr with
  | new name doc h hn => exact WFh_new L name doc h hn
  | add c h _ _ ih => exact WFh_run L c h ih
  | parse args h h2 _ hrun ih => exact WFh_parse L h h2 args ih hrun

theorem emptyHandler_reachable : Reachable asciiStdlib emptyHandler :=
  Reachable.new "sub".toList "a subcommand".toList emptyHandler rfl

theorem appleHandler_reachable : Reachable asciiStdlib appleHandler :=
  Reachable.add _ emptyHandler emptyHandler_reachable (by decide)

theorem appleHandlerParsed_reachable : Reachable asciiStdlib appleHandlerParsed :=
  Reachable.parse ["cli".toList, "sub".toList, "--a=5".toList] appleHandler appleHandlerParsed
    appleHandler_reachable rfl

/-! ## C3: the aliases of a group share one value -/

/-- C3: in every state reachable from `NewSubcommandHandler` by successful
registrations and completed `parseFlags` calls, for every group of every type
list of either registry, either no alias of the group has an entry in the
value map of that type, or all of them have one and the entries are equal. -/
theorem alias_group_values_shared (L : Stdlib) (h : SubcommandHandler L.float64)
    (hr : Reachable L h) (r : Bool) (T : ValueType) (g : List Str)
    (hg : g ∈ (h.registry r).labels T) :
    (∀ y ∈ g, (h.registry r).values T y = none) ∨
    (∃ v, ∀ y ∈ g, (h.registry r).values T y = some v) := by
  have hw : (h.registry r).WF := by
    cases r
    · exact (Reachable.wf L h hr).arg
    · exact (Reachable.wf L h hr).param
  cases g with
  | nil => left; intro y hy; simp at hy
  | cons y0 t =>
    cases hv : (h.registry r).values T y0 with
    | none =>
      left
      intro y hy
      rw [hw.shared T _ hg y hy y0 (List.mem_cons_self _ _), hv]
    | some v =>
      right
      refine ⟨v, ?_⟩
      intro y hy
      rw [hw.shared T _ hg y hy y0 (List.mem_cons_self _ _), hv]

/-- C3 on the handler with the integer group {"a", "apple"} after parsing
`--a=5`: the two aliases have the same entry. -/
theorem alias_group_values_shared_witness :
    Reachable asciiStdlib appleHandlerParsed ∧
    ["a".toList, "apple".toList] ∈ (appleHandlerParsed.registry false).labels ValueType.int ∧
    ((∀ y ∈ ["a".toList, "apple".toList],
        (appleHandlerParsed.registry false).values ValueType.int y = none) ∨
      (∃ v, ∀ y ∈ ["a".toList, "apple".toList],
        (appleHandlerParsed.registry false).values ValueType.int y = some v)) :=
  ⟨appleHandlerParsed_reachable, by decide,
   alias_group_values_shared asciiStdlib appleHandlerParsed appleHandlerParsed_reachable false
     ValueType.int ["a".toList, "apple".toList] (by decide)⟩

/-! ## C7: parameters are pre-seeded -/

/-- An alias that is no label of the required registry has no value there. -/
theorem arg_value_none (L : Stdlib) (h : SubcommandHandler L.float64) (hw : h.WF L)
    (a : Str) (ha : a ∉ h.argparser.allLabels) (T : ValueType) :
    h.argparser.values T a = none := by
  by_contra hc
  obtain ⟨g, hg, hag⟩ := hw.arg.keys_sub T a hc
  exact ha (hw.arg.labels_sub T g hg a hag)

theorem error_none_allowed (L : Stdlib) (c : AddCall L.float64)
    (h : SubcommandHandler L.float64) (hn : (c.run L h).2 = none) :
    checkAliasesAllowed L h c.aliases = true := by
  rcases run_cases L c h with ⟨_, h2⟩ | ⟨hc, _⟩
  · rw [h2] at hn
    exact absurd hn (by simp)
  · exact hc

/-- C7: in any reachable handler state, when `AddIntParamWithDefault(aliases,
doc, d)` returns a nil error, `GetInt(a)` on the handler it leaves returns
`(d, nil)` for every `a` in `aliases`; likewise for the string, float and
boolean parameters with `GetStr`, `GetFloat` and `GetBool`. -/
theorem parameters_preseeded (L : Stdlib) (h : SubcommandHandler L.float64)
    (hr : Reachable L h) (aliases : List Str) (doc : Str) :
    (∀ d, (AddIntParamWithDefault L h aliases doc d).2 = none → ∀ a ∈ aliases,
      GetInt (AddIntParamWithDefault L h aliases doc d).1 a = (d, none)) ∧
    (∀ d, (AddStrParamWithDefault L h aliases doc d).2 = none → ∀ a ∈ aliases,
      GetStr (AddStrParamWithDefault L h aliases doc d).1 a = (d, none)) ∧
    (∀ d, (AddFloatParamWithDefault L h aliases doc d).2 = none → ∀ a ∈ aliases,
      GetFloat L (AddFloatParamWithDefault L h aliases doc d).1 a = (d, none)) ∧
    (∀ d, (AddBoolParamWithDefault L h aliases doc d).2 = none → ∀ a ∈ aliases,
      GetBool (AddBoolParamWithDefault L h aliases doc d).1 a = (d, none)) := by
  have hw := Reachable.wf L h hr
  refine ⟨?_, ?_, ?_, ?_⟩
  · intro d hn a ha
    have hc := error_none_allowed L (AddCall.intParam aliases doc d) h hn
    simp only [AddCall.aliases] at hc
    have hfresh := ((checkAliasesAllowed_iff L h aliases).1 hc).2 a ha
    have h0 := arg_value_none L h hw a hfresh.1 ValueType.int
    simp only [commandParser.values] at h0
    simp [AddIntParamWithDefault, hc, GetInt, h0, setIntArg_eq, ha]
  · intro d hn a ha
    have hc := error_none_allowed L (AddCall.strParam aliases doc d) h hn
    simp only [AddCall.aliases] at hc
    have hfresh := ((checkAliasesAllowed_iff L h aliases).1 hc).2 a ha
    have h0 := arg_value_none L h hw a hfresh.1 ValueType.str
    simp only [commandParser.values] at h0
    simp [AddStrParamWithDefault, hc, GetStr, h0, setStrArg_eq, ha]
  · intro d hn a ha
    have hc := error_none_allowed L (AddCall.floatParam aliases doc d) h hn
    simp only [AddCall.aliases] at hc
    have hfresh := ((checkAliasesAllowed_iff L h aliases).1 hc).2 a ha
    have h0 := arg_value_none L h hw a hfresh.1 ValueType.float
    simp only [commandParser.values] at h0
    simp [AddFloatParamWithDefault, hc, GetFloat, h0, setFloatArg_eq, ha]
  · intro d hn a ha
    have hc := error_none_allowed L (AddCall.boolParam aliases doc d) h hn
    simp only [AddCall.aliases] at hc
    have hfresh := ((checkAliasesAllowed_iff L h aliases).1 hc).2 a ha
    have h0 := arg_value_none L h hw a hfresh.1 ValueType.bool
    simp only [commandParser.values] at h0
    simp [AddBoolParamWithDefault, hc, GetBool, h0, setBoolArg_eq, ha]

/-- C7 on the handler with the integer argument {"a", "apple"}: the integer
parameter {"n", "num"} with default 3 reads back as 3 through both aliases. -/
theorem parameters_preseeded_witness :
    Reachable asciiStdlib appleHandlerParsed ∧
    (AddIntParamWithDefault asciiStdlib appleHandlerParsed ["n".toList, "num".toList]
      "a count".toList 3).2 = none ∧
    ∀ a ∈ ["n".toList, "num".toList],
      GetInt (AddIntParamWithDefault asciiStdlib appleHandlerParsed ["n".toList, "num".toList]
        "a count".toList 3).1 a = (3, none) :=
  ⟨appleHandlerParsed_reachable, by decide,
   (parameters_preseeded asciiStdlib appleHandlerParsed appleHandlerParsed_reachable
     ["n".toList, "num".toList] "a count".toList).1 3 (by decide)⟩

/-! ## C5: no alias is registered twice -/

/-- C5 fails as stated: `AddIntArg({"a", "a"}, doc)` on a new handler is
accepted, and afterwards `allLabels` holds "a" twice. -/
theorem alias_uniqueness_counterexample :
    NewSubcommandHandler asciiStdlib "sub".toList "a subcommand".toList = Except.ok emptyHandler ∧
    (AddIntArg asciiStdlib emptyHandler ["a".toList, "a".toList] "doc".toList).2 = none ∧
    (runCalls asciiStdlib [AddCall.intArg ["a".toList, "a".toList] "doc".toList]
      emptyHandler).argparser.allLabels = ["a".toList, "a".toList] ∧
    ¬ ((runCalls asciiStdlib [AddCall.intArg ["a".toList, "a".toList] "doc".toList]
        emptyHandler).argparser.allLabels ++
      (runCalls asciiStdlib [AddCall.intArg ["a".toList, "a".toList] "doc".toList]
        emptyHandler).paramparser.allLabels).Nodup := by
  refine ⟨rfl, by decide, by decide, by decide⟩

theorem nodup_run (L : Stdlib) (c : AddCall L.float64) (h : SubcommandHandler L.float64)
    (hc : c.aliases.Nodup) (hn : (h.argparser.allLabels ++ h.paramparser.allLabels).Nodup) :
    ((c.run L h).1.argparser.allLabels ++ (c.run L h).1.paramparser.allLabels).Nodup := by
  rcases run_cases L c h with ⟨_, h2⟩ | ⟨hck, _, T, d, h2 | ⟨x, h2⟩⟩
  · rw [h2]; exact hn
  · obtain ⟨_, hu⟩ := (checkAliasesAllowed_iff L h c.aliases).1 hck
    rw [h2]
    simp only [addArg_allLabels]
    rw [List.nodup_append] at hn ⊢
    obtain ⟨n1, n2, n3⟩ := hn
    refine ⟨?_, n2, ?_⟩
    · rw [List.nodup_append]
      exact ⟨n1, hc, fun y hy1 hy2 => (hu y hy2).1 hy1⟩
    · intro y hy1 hy2
      rcases List.mem_append.1 hy1 with hy1 | hy1
      · exact n3 hy1 hy2
      · exact (hu y hy1).2 hy2
  · obtain ⟨_, hu⟩ := (checkAliasesAllowed_iff L h c.aliases).1 hck
    rw [h2]
    simp only [setArg_allLabels, addArg_allLabels]
    rw [List.nodup_append] at hn ⊢
    obtain ⟨n1, n2, n3⟩ := hn
    refine ⟨n1, ?_, ?_⟩
    · rw [List.nodup_append]
      exact ⟨n2, hc, fun y hy1 hy2 => (hu y hy2).2 hy1⟩
    · intro y hy1 hy2
      rcases List.mem_append.1 hy2 with hy2 | hy2
      · exact n3 hy1 hy2
      · exact (hu y hy2).1 hy1

/-- C5, amended: in every state reached from `NewSubcommandHandler` by any
sequence of registration calls, successful or rejected, in which no call
passes the same alias twice in its own list, the concatenation of the
`allLabels` of the required registry and of the parameter registry holds no
string twice. -/
theorem alias_uniqueness (L : Stdlib) (name doc : Str) (h0 : SubcommandHandler L.float64)
    (calls : List (AddCall L.float64))
    (hnew : NewSubcommandHandler L name doc = Except.ok h0)
    (hcalls : ∀ c ∈ calls, c.aliases.Nodup) :
    ((runCalls L calls h0).argparser.allLabels ++
      (runCalls L calls h0).paramparser.allLabels).Nodup := by
  have h00 : (h0.argparser.allLabels ++ h0.paramparser.allLabels).Nodup := by
    unfold NewSubcommandHandler at hnew
    by_cases hv : aliasIsValid L name = true
    · simp only [hv, Bool.not_true, Bool.false_eq_true, if_false, Except.ok.injEq] at hnew
      subst hnew
      simp [newCommandParser]
    · have hf : aliasIsValid L name = false := by simpa using hv
      simp [hf] at hnew
  clear hnew
  induction calls generalizing h0 with
  | nil => exact h00
  | cons c rest ih =>
    rw [runCalls]
    exact ih _ (fun c2 hc2 => hcalls c2 (List.mem_cons_of_mem _ hc2))
      (nodup_run L c h0 (hcalls c (List.mem_cons_self _ _)) h00)

/-- C5 amended, on the calls `AddIntArg({"a", "apple"})`, the rejected
`AddStrArg({"b", "a"})` and `AddBoolParamWithDefault({"v"}, true)`. -/
theorem alias_uniqueness_witness :
    (NewSubcommandHandler asciiStdlib "sub".toList "a subcommand".toList =
        Except.ok emptyHandler ∧
      ∀ c ∈ ([AddCall.intArg ["a".toList, "apple".toList] "an int".toList,
          AddCall.strArg ["b".toList, "a".toList] "a string".toList,
          AddCall.boolParam ["v".toList] "a switch".toList true] :
          List (AddCall asciiStdlib.float64)),
        c.aliases.Nodup) ∧
    ((runCalls asciiStdlib
        [AddCall.intArg ["a".toList, "apple".toList] "an int".toList,
          AddCall.strArg ["b".toList, "a".toList] "a string".toList,
          AddCall.boolParam ["v".toList] "a switch".toList true]
        emptyHandler).argparser.allLabels ++
      (runCalls asciiStdlib
        [AddCall.intArg ["a".toList, "apple".toList] "an int".toList,
          AddCall.strArg ["b".toList, "a".toList] "a string".toList,
          AddCall.boolParam ["v".toList] "a switch".toList true]
        emptyHandler).paramparser.allLabels).Nodup :=
  ⟨⟨rfl, by simp [AddCall.aliases]⟩,
   alias_uniqueness asciiStdlib "sub".toList "a subcommand".toList emptyHandler _ rfl
     (by simp [AddCall.aliases])⟩

/-! ## C2: the round trip through the coordinator -/

theorem bind_labels (L : Stdlib) (cp : commandParser L.float64) (a v : Str) (T : ValueType) :
    (bind L cp a v).labels T = cp.labels T := by
  obtain ⟨_, f2, f3, f4, f5, _⟩ := bind_frame L cp a v
  cases T <;> simp [commandParser.labels, f2, f3, f4, f5]

/-- In a consistent registry an alias of a group resolves to that group and to
the type of that group. -/
theorem resolve_own {F : Type} (cp : commandParser F) (hw : cp.WF) (T : ValueType) (i : Nat)
    (g : List Str) (a : Str) (hi : (cp.labels T).get? i = some g) (ha : a ∈ g) :
    resolve cp a = some (T, g) := by
  have key : ∀ T2, (T2 = T ∧ firstGroup (cp.labels T2) a = some g) ∨
      (T2 ≠ T ∧ firstGroup (cp.labels T2) a = none) := by
    intro T2
    cases hf : firstGroup (cp.labels T2) a with
    | none =>
      by_cases hT : T2 = T
      · subst hT
        exact absurd ha (firstGroup_none hf g (List.get?_mem hi))
      · exact Or.inr ⟨hT, rfl⟩
    | some g2 =>
      obtain ⟨hg2, ha2⟩ := firstGroup_some hf
      obtain ⟨j, hj⟩ := List.get?_of_mem hg2
      by_cases hT : T2 = T
      · subst hT
        by_cases hij : j = i
        · subst hij
          rw [hi] at hj
          cases hj
          exact Or.inl ⟨rfl, rfl⟩
        · exact absurd ha (hw.apart T2 T2 j i g2 g hj hi (Or.inr hij) a ha2)
      · exact absurd ha (hw.apart T2 T j i g2 g hj hi (Or.inl hT) a ha2)
  have k1 := key ValueType.int
  have k2 := key ValueType.str
  have k3 := key ValueType.float
  have k4 := key ValueType.bool
  simp only [commandParser.labels] at k1 k2 k3 k4
  unfold resolve
  cases T
  · rcases k1 with ⟨_, e⟩ | ⟨n, _⟩
    · simp [e]
    · exact absurd rfl n
  · rcases k1 with ⟨n, _⟩ | ⟨_, e1⟩
    · cases n
    · rcases k2 with ⟨_, e⟩ | ⟨n, _⟩
      · simp [e1, e]
      · exact absurd rfl n
  · rcases k1 with ⟨n, _⟩ | ⟨_, e1⟩
    · cases n
    · rcases k2 with ⟨n, _⟩ | ⟨_, e2⟩
      · cases n
      · rcases k3 with ⟨_, e⟩ | ⟨n, _⟩
        · simp [e1, e2, e]
        · exact absurd rfl n
  · rcases k1 with ⟨n, _⟩ | ⟨_, e1⟩
    · cases n
    · rcases k2 with ⟨n, _⟩ | ⟨_, e2⟩
      · cases n
      · rcases k3 with ⟨n, _⟩ | ⟨_, e3⟩
        · cases n
        · rcases k4 with ⟨_, e⟩ | ⟨n, _⟩
          · simp [e1, e2, e3, e]
          · exact absurd rfl n

/-- In a consistent registry a label that is not known resolves to nothing. -/
theorem bind_unknown (L : Stdlib) (cp : commandParser L.float64) (hw : cp.WF) (a v : Str)
    (ha : a ∉ cp.allLabels) : bind L cp a v = cp := by
  rcases bind_cases L cp a v with h | ⟨T, g, x, hr, _, _⟩
  · exact h
  · obtain ⟨hg, hag⟩ := firstGroup_some (resolve_some cp a T g hr)
    exact absurd (hw.labels_sub T g hg a hag) ha

/-- The effect of an entry on a registry it fits. -/
theorem bind_fits (L : Stdlib) (cp : commandParser L.float64) (hw : cp.WF) (r : Bool)
    (e : FlagEntry) (he : e.fits L cp r) :
    (e.param ≠ r ∧ bind L cp e.label e.value = cp) ∨
    (e.param = r ∧ ∃ g x, (cp.labels e.type).get? e.index = some g ∧
      coerce L e.type e.value = some x ∧ bind L cp e.label e.value = setArg cp e.type g x) := by
  by_cases hp : e.param = r
  · right
    obtain ⟨g, hg, ha, hc⟩ := he.1 hp
    obtain ⟨x, hx⟩ := Option.ne_none_iff_exists'.1 hc
    refine ⟨hp, g, x, hg, hx, ?_⟩
    simp [bind, resolve_own cp hw e.type e.index g e.label hg ha, hx]
  · left
    exact ⟨hp, bind_unknown L cp hw _ _ (he.2 hp)⟩

theorem fits_bind (L : Stdlib) (cp : commandParser L.float64) (a v : Str) (r : Bool)
    (e : FlagEntry) (he : e.fits L cp r) : e.fits L (bind L cp a v) r := by
  unfold FlagEntry.fits at he ⊢
  rw [bind_labels, (bind_frame L cp a v).1]
  exact he

/-- Entries for other groups leave the value of an alias of a group as it is. -/
theorem bindAll_untouched (L : Stdlib) (r : Bool) (T : ValueType) (i : Nat) (g : List Str)
    (y : Str) (hy : y ∈ g) (es : List FlagEntry) :
    ∀ cp : commandParser L.float64, cp.WF → (cp.labels T).get? i = some g →
      (∀ e ∈ es, e.fits L cp r) →
      (∀ e ∈ es, ¬ (e.param = r ∧ e.type = T ∧ e.index = i)) →
      (bindAll L (FlagEntry.pairs es) cp).values T y = cp.values T y := by
  induction es with
  | nil => intro cp _ _ _ _; rfl
  | cons e rest ih =>
    intro cp hw hi hfit hoth
    have hstep : (bind L cp e.label e.value).values T y = cp.values T y := by
      rcases bind_fits L cp hw r e (hfit e (List.mem_cons_self _ _)) with
        ⟨_, h1⟩ | ⟨hp, g2, x, hg2, _, h1⟩
      · rw [h1]
      · rw [h1]
        by_cases hT : T = e.type
        · subst hT
          have hne : e.index ≠ i := fun hh => hoth e (List.mem_cons_self _ _) ⟨hp, rfl, hh⟩
          have hyn : y ∉ g2 := hw.apart _ _ i e.index g g2 hi hg2 (Or.inr (Ne.symm hne)) y hy
          rw [setArg_values_same, if_neg hyn]
        · exact setArg_values_other cp e.type T g2 x y hT
    simp only [FlagEntry.pairs, List.map_cons, bindAll]
    have := ih (bind L cp e.label e.value) (WF_bind L cp _ _ hw)
      (by rw [bind_labels]; exact hi)
      (fun e2 he2 => fits_bind L cp _ _ r e2 (hfit e2 (List.mem_cons_of_mem _ he2)))
      (fun e2 he2 => hoth e2 (List.mem_cons_of_mem _ he2))
    simp only [FlagEntry.pairs] at this
    rw [this, hstep]

/-- With at most one entry per group, every alias of the group of an entry
ends up with the coerced value of that entry. -/
theorem bindAll_value (L : Stdlib) (r : Bool) (es : List FlagEntry) :
    ∀ cp : commandParser L.float64, cp.WF → (∀ e ∈ es, e.fits L cp r) →
      es.Pairwise (fun e e2 => ¬ (e.param = e2.param ∧ e.type = e2.type ∧ e.index = e2.index)) →
      ∀ e ∈ es, e.param = r → ∀ g, (cp.labels e.type).get? e.index = some g → ∀ y ∈ g,
        (bindAll L (FlagEntry.pairs es) cp).values e.type y = coerce L e.type e.value := by
  induction es with
  | nil => intro cp _ _ _ e he; simp at he
  | cons e0 rest ih =>
    intro cp hw hfit hpw e he hp g hg y hy
    rw [List.pairwise_cons] at hpw
    simp only [FlagEntry.pairs, List.map_cons, bindAll]
    have hw2 := WF_bind L cp e0.label e0.value hw
    have hfit2 : ∀ e2 ∈ rest, e2.fits L (bind L cp e0.label e0.value) r :=
      fun e2 he2 => fits_bind L cp _ _ r e2 (hfit e2 (List.mem_cons_of_mem _ he2))
    rcases List.mem_cons.1 he with rfl | he
    · have hun := bindAll_untouched L r e.type e.index g y hy rest
        (bind L cp e.label e.value) hw2 (by rw [bind_labels]; exact hg) hfit2
        (fun e2 he2 hh => hpw.1 e2 he2 ⟨hp.trans hh.1.symm, hh.2.1.symm, hh.2.2.symm⟩)
      simp only [FlagEntry.pairs] at hun
      rw [hun]
      rcases bind_fits L cp hw r e (hfit e (List.mem_cons_self _ _)) with
        ⟨hn, _⟩ | ⟨_, g2, x, hg2, hx, h1⟩
      · exact absurd hp hn
      · rw [hg] at hg2
        cases hg2
        rw [h1, setArg_values_same, if_pos hy, hx]
    · have := ih (bind L cp e0.label e0.value) hw2 hfit2 hpw.2 e he hp g
        (by rw [bind_labels]; exact hg) y hy
      simp only [FlagEntry.pairs] at this
      exact this

/-- A vector of `--label=value` tokens binds its flags one after the other. -/
theorem parseLoop_inline_all (L : Stdlib) (es : List FlagEntry) :
    ∀ cp : commandParser L.float64,
      (∀ e ∈ es, plainLabel e.label ∧ e.value ≠ []) →
      parseLoop L (es.map FlagEntry.token) cp = some (bindAll L (FlagEntry.pairs es) cp) := by
  induction es with
  | nil => intro cp _; simp [parseLoop, FlagEntry.pairs, bindAll]
  | cons e rest ih =>
    intro cp hes
    obtain ⟨h1, h2⟩ := hes e (List.mem_cons_self _ _)
    simp only [List.map_cons, FlagEntry.pairs, bindAll]
    rw [FlagEntry.token, flagTokenEq_two, parseLoop_inline L cp 2 (Or.inr rfl) _ _ h1 h2]
    have := ih (bind L cp e.label e.value) (fun e2 he2 => hes e2 (List.mem_cons_of_mem _ he2))
    simp only [FlagEntry.pairs] at this
    exact this

theorem getValue_arg (L : Stdlib) (h : SubcommandHandler L.float64) (T : ValueType) (y : Str)
    (x : Val L.float64 T) (hv : h.argparser.values T y = some x) :
    getValue L h T y = some x := by
  cases T <;> simp only [commandParser.values] at hv <;>
    simp [getValue, GetInt, GetStr, GetFloat, GetBool, hv]

theorem getValue_param (L : Stdlib) (h : SubcommandHandler L.float64) (T : ValueType) (y : Str)
    (x : Val L.float64 T) (hn : h.argparser.values T y = none)
    (hv : h.paramparser.values T y = some x) : getValue L h T y = some x := by
  cases T <;> simp only [commandParser.values] at hv hn <;>
    simp [getValue, GetInt, GetStr, GetFloat, GetBool, hv, hn]

/-- C2: for a handler reachable by successful registrations (and completed
parses), and an argument vector made of two leading tokens followed by tokens
`--<alias>=<value>`, at most one per group, each with an alias of its group
that holds no `=` and a non-empty value that coerces to the type of the group,
`SubcommandHandler.parseFlags` completes, and afterwards the typed getter of
the type of each such group returns, for every alias of the group, the coerced
value of the token of the group with a nil error. -/
theorem coordinator_round_trip (L : Stdlib) (h : SubcommandHandler L.float64)
    (hr : Reachable L h) (prog sub : Str) (es : List FlagEntry)
    (hes : ∀ e ∈ es, ∃ g, ((h.registry e.param).labels e.type).get? e.index = some g ∧
      e.label ∈ g ∧ '=' ∉ e.label ∧ e.value ≠ [] ∧ coerce L e.type e.value ≠ none)
    (hone : es.Pairwise
      (fun e e2 => ¬ (e.param = e2.param ∧ e.type = e2.type ∧ e.index = e2.index))) :
    ∃ h2, h.parseFlags L (prog :: sub :: es.map FlagEntry.token) = some h2 ∧
      ∀ e ∈ es, ∀ g, ((h.registry e.param).labels e.type).get? e.index = some g →
        ∀ y ∈ g, getValue L h2 e.type y = coerce L e.type e.value := by
  have hw := Reachable.wf L h hr
  have hreg : ∀ r : Bool, (h.registry r).WF := by
    intro r
    cases r
    · exact hw.arg
    · exact hw.param
  have hknown : ∀ e ∈ es, e.label ∈ (h.registry e.param).allLabels := by
    intro e he
    obtain ⟨g, hg, ha, _⟩ := hes e he
    exact (hreg e.param).labels_sub e.type g (List.get?_mem hg) e.label ha
  have hplain : ∀ e ∈ es, plainLabel e.label ∧ e.value ≠ [] := by
    intro e he
    obtain ⟨g, _, _, heq, hv, _⟩ := hes e he
    have hk := hknown e he
    have hval : aliasIsValid L e.label = true := by
      cases hp : e.param
      · rw [hp] at hk; exact hw.valid _ (Or.inl hk)
      · rw [hp] at hk; exact hw.valid _ (Or.inr hk)
    exact ⟨⟨(aliasIsValid_plain L _ hval).2, heq⟩, hv⟩
  have hfit : ∀ r : Bool, ∀ e ∈ es, e.fits L (h.registry r) r := by
    intro r e he
    constructor
    · intro hp
      subst hp
      obtain ⟨g, hg, ha, _, _, hc⟩ := hes e he
      exact ⟨g, hg, ha, hc⟩
    · intro hp
      have hk := hknown e he
      cases r
      · have hp2 : e.param = true := by simpa using hp
        rw [hp2] at hk
        exact fun hin => hw.apart _ hin hk
      · have hp2 : e.param = false := by simpa using hp
        rw [hp2] at hk
        exact hw.apart _ hk
  have hrun : h.parseFlags L (prog :: sub :: es.map FlagEntry.token) =
      some { h with
        argparser := bindAll L (FlagEntry.pairs es) h.argparser
        paramparser := bindAll L (FlagEntry.pairs es) h.paramparser } := by
    simp only [SubcommandHandler.parseFlags, commandParser.parseFlags, List.drop_succ_cons,
      List.drop_zero, parseLoop_inline_all L es _ hplain]
  refine ⟨_, hrun, ?_⟩
  have hw2 := WFh_parse L h _ _ hw hrun
  intro e he g hg y hy
  obtain ⟨_, _, _, _, _, hc⟩ := hes e he
  obtain ⟨x, hx⟩ := Option.ne_none_iff_exists'.1 hc
  rw [hx]
  cases hp : e.param
  · rw [hp] at hg
    have hv := bindAll_value L false es h.argparser hw.arg (hfit false) hone e he hp g hg y hy
    rw [hx] at hv
    exact getValue_arg L _ e.type y x hv
  · rw [hp] at hg
    have hv := bindAll_value L true es h.paramparser hw.param (hfit true) hone e he hp g hg y hy
    rw [hx] at hv
    have hyp : y ∈ h.paramparser.allLabels := hw.param.labels_sub e.type g (List.get?_mem hg) y hy
    have hya : y ∉ h.argparser.allLabels := fun hin => hw.apart y hin hyp
    have hfr := (parseFlags_frame L _ _ _ (handler_parseFlags_eq L h _ _ hrun).1).1
    have hn := arg_value_none L _ hw2 y (by rw [hfr]; exact hya) e.type
    exact getValue_param L _ e.type y x hn hv

/-- C2 on the handler with the integer argument {"a", "apple"} and the string
parameter {"s", "str"}: after `--apple=5 --s=hello`, `GetInt` gives 5 for "a"
and "apple" and `GetStr` gives "hello" for "s" and "str". -/
theorem coordinator_round_trip_witness :
    Reachable asciiStdlib appleStrHandler ∧
    ∃ h2, appleStrHandler.parseFlags asciiStdlib
        ["cli".toList, "sub".toList, "--apple=5".toList, "--s=hello".toList] = some h2 ∧
      GetInt h2 "a".toList = (5, none) ∧ GetInt h2 "apple".toList = (5, none) ∧
      GetStr h2 "s".toList = ("hello".toList, none) ∧
      GetStr h2 "str".toList = ("hello".toList, none) := by
  have hreach : Reachable asciiStdlib appleStrHandler :=
    Reachable.add _ appleHandler appleHandler_reachable (by decide)
  refine ⟨hreach, ?_⟩
  obtain ⟨h2, hrun, hv⟩ :=
    coordinator_round_trip asciiStdlib appleStrHandler hreach "cli".toList "sub".toList
      [⟨false, ValueType.int, 0, "apple".toList, "5".toList⟩,
        ⟨true, ValueType.str, 0, "s".toList, "hello".toList⟩]
      (by
        intro e he
        simp only [List.mem_cons, List.mem_singleton, List.not_mem_nil, or_false] at he
        rcases he with rfl | rfl
        · exact ⟨["a".toList, "apple".toList], by decide, by decide, by decide, by decide,
            by decide⟩
        · exact ⟨["s".toList, "str".toList], by decide, by decide, by decide, by decide,
            by decide⟩)
      (by simp)
  have ha := hv ⟨false, ValueType.int, 0, "apple".toList, "5".toList⟩ (by simp)
    ["a".toList, "apple".toList] (by decide)
  have hs := hv ⟨true, ValueType.str, 0, "s".toList, "hello".toList⟩ (by simp)
    ["s".toList, "str".toList] (by decide)
  have e5 : coerce asciiStdlib ValueType.int "5".toList = some (5 : Int) := by decide
  have g1 : ∀ y, getValue asciiStdlib h2 ValueType.int y = some (5 : Int) →
      GetInt h2 y = (5, none) := by
    intro y hy
    simp only [getValue] at hy
    by_cases hn : (GetInt h2 y).2 = none
    · rw [if_pos hn] at hy
      exact Prod.ext (Option.some.inj hy) hn
    · rw [if_neg hn] at hy
      exact absurd hy (by simp)
  have g2 : ∀ y, getValue asciiStdlib h2 ValueType.str y = some "hello".toList →
      GetStr h2 y = ("hello".toList, none) := by
    intro y hy
    simp only [getValue] at hy
    by_cases hn : (GetStr h2 y).2 = none
    · rw [if_pos hn] at hy
      exact Prod.ext (Option.some.inj hy) hn
    · rw [if_neg hn] at hy
      exact absurd hy (by simp)
  exact ⟨h2, hrun, g1 _ ((ha "a".toList (by simp)).trans e5),
    g1 _ ((ha "apple".toList (by simp)).trans e5),
    g2 _ (hs "s".toList (by simp)), g2 _ (hs "str".toList (by simp))⟩

/-! ## Which group a label resolves to -/

theorem resolve_none_iff {F : Type} (cp : commandParser F) (a : Str) :
    resolve cp a = none ↔ ∀ T, ∀ g ∈ cp.labels T, a ∉ g := by
  constructor
  · intro h T g hg hag
    obtain ⟨g2, hg2⟩ := firstGroup_of_mem hg hag
    unfold resolve at h
    cases T <;> simp only [commandParser.labels] at hg2 <;>
      cases h1 : firstGroup cp.intLabels a <;>
      cases h2 : firstGroup cp.strLabels a <;>
      cases h3 : firstGroup cp.floatLabels a <;>
      cases h4 : firstGroup cp.boolLabels a <;>
      simp [h1, h2, h3, h4] at h hg2
  · intro h
    have e1 : firstGroup cp.intLabels a = none := firstGroup_eq_none (h ValueType.int)
    have e2 : firstGroup cp.strLabels a = none := firstGroup_eq_none (h ValueType.str)
    have e3 : firstGroup cp.floatLabels a = none := firstGroup_eq_none (h ValueType.float)
    have e4 : firstGroup cp.boolLabels a = none := firstGroup_eq_none (h ValueType.bool)
    simp [resolve, e1, e2, e3, e4]

theorem firstGroup_isSome_iff (l : List (List Str)) (a : Str) :
    (∃ g, firstGroup l a = some g) ↔ ∃ g ∈ l, a ∈ g := by
  constructor
  · rintro ⟨g, hg⟩
    exact ⟨g, (firstGroup_some hg).1, (firstGroup_some hg).2⟩
  · rintro ⟨g, hg, ha⟩
    exact firstGroup_of_mem hg ha

theorem firstGroup_none_iff (l : List (List Str)) (a : Str) :
    firstGroup l a = none ↔ ∀ g ∈ l, a ∉ g :=
  ⟨fun h => firstGroup_none h, fun h => firstGroup_eq_none h⟩

theorem resolve_int_iff {F : Type} (cp : commandParser F) (a : Str) :
    (∃ g, resolve cp a = some (ValueType.int, g)) ↔ ∃ g ∈ cp.intLabels, a ∈ g := by
  rw [← firstGroup_isSome_iff]
  unfold resolve
  cases h1 : firstGroup cp.intLabels a <;>
    cases h2 : firstGroup cp.strLabels a <;>
    cases h3 : firstGroup cp.floatLabels a <;>
    cases h4 : firstGroup cp.boolLabels a <;> simp

theorem resolve_str_iff {F : Type} (cp : commandParser F) (a : Str) :
    (∃ g, resolve cp a = some (ValueType.str, g)) ↔
      (∀ g ∈ cp.intLabels, a ∉ g) ∧ ∃ g ∈ cp.strLabels, a ∈ g := by
  rw [← firstGroup_isSome_iff, ← firstGroup_none_iff]
  unfold resolve
  cases h1 : firstGroup cp.intLabels a <;>
    cases h2 : firstGroup cp.strLabels a <;>
    cases h3 : firstGroup cp.floatLabels a <;>
    cases h4 : firstGroup cp.boolLabels a <;> simp

theorem resolve_float_iff {F : Type} (cp : commandParser F) (a : Str) :
    (∃ g, resolve cp a = some (ValueType.float, g)) ↔
      (∀ g ∈ cp.intLabels, a ∉ g) ∧ (∀ g ∈ cp.strLabels, a ∉ g) ∧
        ∃ g ∈ cp.floatLabels, a ∈ g := by
  rw [← firstGroup_isSome_iff, ← firstGroup_none_iff, ← firstGroup_none_iff]
  unfold resolve
  cases h1 : firstGroup cp.intLabels a <;>
    cases h2 : firstGroup cp.strLabels a <;>
    cases h3 : firstGroup cp.floatLabels a <;>
    cases h4 : firstGroup cp.boolLabels a <;> simp

theorem resolve_bool_iff {F : Type} (cp : commandParser F) (a : Str) :
    (∃ g, resolve cp a = some (ValueType.bool, g)) ↔
      (∀ g ∈ cp.intLabels, a ∉ g) ∧ (∀ g ∈ cp.strLabels, a ∉ g) ∧
        (∀ g ∈ cp.floatLabels, a ∉ g) ∧ ∃ g ∈ cp.boolLabels, a ∈ g := by
  rw [← firstGroup_isSome_iff, ← firstGroup_none_iff, ← firstGroup_none_iff,
    ← firstGroup_none_iff]
  unfold resolve
  cases h1 : firstGroup cp.intLabels a <;>
    cases h2 : firstGroup cp.strLabels a <;>
    cases h3 : firstGroup cp.floatLabels a <;>
    cases h4 : firstGroup cp.boolLabels a <;> simp

/-- When `tryToUseFlag` returns an error, in terms of the binding of the
label. -/
theorem error_iff_resolve (L : Stdlib) (cp : commandParser L.float64) (a v : Str) :
    (tryToUseFlag L cp a v).2 ≠ none ↔
      resolve cp a = none ∨
      ((∃ g, resolve cp a = some (ValueType.int, g)) ∧ Atoi v = none) ∨
      ((∃ g, resolve cp a = some (ValueType.float, g)) ∧ L.ParseFloat v = none) := by
  have key := (tryToUseFlag_eq L cp a v).2
  rw [Ne, key]
  cases hr : resolve cp a with
  | none => simp
  | some p =>
    obtain ⟨T, g⟩ := p
    cases T
    · cases hc : Atoi v <;> simp [coerce, hc]
    · simp [coerce]
    · cases hc : L.ParseFloat v <;> simp [coerce, hc]
    · simp [coerce]

/-- A flag that returns an error leaves the registry as it is. -/
theorem error_unchanged (L : Stdlib) (cp : commandParser L.float64) (a v : Str)
    (h : (tryToUseFlag L cp a v).2 ≠ none) : bind L cp a v = cp := by
  rcases bind_cases L cp a v with h1 | ⟨T, g, x, hr, hc, _⟩
  · exact h1
  · exact absurd ((tryToUseFlag_eq L cp a v).2.2 ⟨T, g, x, hr, hc⟩) h

/-! ## C20: binding resolution and failure -/

/-- C20: `tryToUseFlag(label, value)` returns a non-nil error exactly when the
label is in no group of any type, or the first type in the order integer,
string, float, boolean whose group list holds the label is integer and `Atoi`
rejects the value, or is float and `ParseFloat` rejects it.  In particular a
label in both an integer group and a string group with a value `Atoi` rejects
is an error and nothing is stored; a label in a string group (and no integer
group), or in a boolean group (and no integer, string or float group), never
gives an error. -/
theorem binding_resolution_and_failure (L : Stdlib) (cp : commandParser L.float64)
    (label value : Str) :
    ((tryToUseFlag L cp label value).2 ≠ none ↔
      (∀ T, ∀ g ∈ cp.labels T, label ∉ g) ∨
      ((∃ g ∈ cp.intLabels, label ∈ g) ∧ Atoi value = none) ∨
      ((∀ g ∈ cp.intLabels, label ∉ g) ∧ (∀ g ∈ cp.strLabels, label ∉ g) ∧
        (∃ g ∈ cp.floatLabels, label ∈ g) ∧ L.ParseFloat value = none)) ∧
    ((∃ g ∈ cp.intLabels, label ∈ g) → (∃ g ∈ cp.strLabels, label ∈ g) → Atoi value = none →
      (tryToUseFlag L cp label value).2 ≠ none ∧ (tryToUseFlag L cp label value).1 = cp) ∧
    ((∀ g ∈ cp.intLabels, label ∉ g) → (∃ g ∈ cp.strLabels, label ∈ g) →
      (tryToUseFlag L cp label value).2 = none) ∧
    ((∀ g ∈ cp.intLabels, label ∉ g) → (∀ g ∈ cp.strLabels, label ∉ g) →
      (∀ g ∈ cp.floatLabels, label ∉ g) → (∃ g ∈ cp.boolLabels, label ∈ g) →
      (tryToUseFlag L cp label value).2 = none) := by
  have hiff : (tryToUseFlag L cp label value).2 ≠ none ↔
      (∀ T, ∀ g ∈ cp.labels T, label ∉ g) ∨
      ((∃ g ∈ cp.intLabels, label ∈ g) ∧ Atoi value = none) ∨
      ((∀ g ∈ cp.intLabels, label ∉ g) ∧ (∀ g ∈ cp.strLabels, label ∉ g) ∧
        (∃ g ∈ cp.floatLabels, label ∈ g) ∧ L.ParseFloat value = none) := by
    rw [error_iff_resolve, resolve_none_iff, resolve_int_iff, resolve_float_iff]
    simp only [and_assoc]
  refine ⟨hiff, ?_, ?_, ?_⟩
  · intro hi _ ha
    have he : (tryToUseFlag L cp label value).2 ≠ none := hiff.2 (Or.inr (Or.inl ⟨hi, ha⟩))
    exact ⟨he, by rw [(tryToUseFlag_eq L cp label value).1]; exact error_unchanged L cp _ _ he⟩
  · intro hi hs
    by_contra he
    rcases hiff.1 he with h | ⟨⟨g, hg, hm⟩, _⟩ | ⟨_, h, _⟩
    · obtain ⟨g, hg, hm⟩ := hs
      exact h ValueType.str g hg hm
    · exact hi g hg hm
    · obtain ⟨g, hg, hm⟩ := hs
      exact h g hg hm
  · intro hi hs hf hb
    by_contra he
    rcases hiff.1 he with h | ⟨⟨g, hg, hm⟩, _⟩ | ⟨_, _, ⟨g, hg, hm⟩, _⟩
    · obtain ⟨g, hg, hm⟩ := hb
      exact h ValueType.bool g hg hm
    · exact hi g hg hm
    · exact hf g hg hm

/-! ## C14: the typed getters -/

/-- C14: for every handler and key, `GetInt(key)` returns the entry of the
required registry's `intValues` with a nil error when there is one, otherwise
the entry of the parameter registry's `intValues` with a nil error when there
is one, and a non-nil error exactly when neither map has an entry; the same
for `GetStr`, `GetFloat` and `GetBool` on their maps.  A getter assigns
nothing, so it has no handler result. -/
theorem typed_getters (L : Stdlib) (h : SubcommandHandler L.float64) (key : Str) :
    ((∀ v, h.argparser.intValues key = some v → GetInt h key = (v, none)) ∧
      (∀ v, h.argparser.intValues key = none → h.paramparser.intValues key = some v →
        GetInt h key = (v, none)) ∧
      ((GetInt h key).2 ≠ none ↔
        h.argparser.intValues key = none ∧ h.paramparser.intValues key = none)) ∧
    ((∀ v, h.argparser.strValues key = some v → GetStr h key = (v, none)) ∧
      (∀ v, h.argparser.strValues key = none → h.paramparser.strValues key = some v →
        GetStr h key = (v, none)) ∧
      ((GetStr h key).2 ≠ none ↔
        h.argparser.strValues key = none ∧ h.paramparser.strValues key = none)) ∧
    ((∀ v, h.argparser.floatValues key = some v → GetFloat L h key = (v, none)) ∧
      (∀ v, h.argparser.floatValues key = none → h.paramparser.floatValues key = some v →
        GetFloat L h key = (v, none)) ∧
      ((GetFloat L h key).2 ≠ none ↔
        h.argparser.floatValues key = none ∧ h.paramparser.floatValues key = none)) ∧
    ((∀ v, h.argparser.boolValues key = some v → GetBool h key = (v, none)) ∧
      (∀ v, h.argparser.boolValues key = none → h.paramparser.boolValues key = some v →
        GetBool h key = (v, none)) ∧
      ((GetBool h key).2 ≠ none ↔
        h.argparser.boolValues key = none ∧ h.paramparser.boolValues key = none)) := by
  refine ⟨⟨?_, ?_, ?_⟩, ⟨?_, ?_, ?_⟩, ⟨?_, ?_, ?_⟩, ⟨?_, ?_, ?_⟩⟩
  · intro v hv; simp [GetInt, hv]
  · intro v hn hv; simp [GetInt, hn, hv]
  · cases ha : h.argparser.intValues key <;> cases hp : h.paramparser.intValues key <;>
      simp [GetInt, ha, hp]
  · intro v hv; simp [GetStr, hv]
  · intro v hn hv; simp [GetStr, hn, hv]
  · cases ha : h.argparser.strValues key <;> cases hp : h.paramparser.strValues key <;>
      simp [GetStr, ha, hp]
  · intro v hv; simp [GetFloat, hv]
  · intro v hn hv; simp [GetFloat, hn, hv]
  · cases ha : h.argparser.floatValues key <;> cases hp : h.paramparser.floatValues key <;>
      simp [GetFloat, ha, hp]
  · intro v hv; simp [GetBool, hv]
  · intro v hn hv; simp [GetBool, hn, hv]
  · cases ha : h.argparser.boolValues key <;> cases hp : h.paramparser.boolValues key <;>
      simp [GetBool, ha, hp]

/-! ## C15: the first two tokens -/

/-- C15: on an argument vector of length at most 2 `parseFlags` completes and
leaves the registry unchanged; and two vectors of length at least 2 that agree
from index 2 on give the same result, whatever their first two tokens are. -/
theorem first_two_tokens_skipped (L : Stdlib) (cp : commandParser L.float64)
    (args args2 : List Str) :
    (args.length ≤ 2 → cp.parseFlags L args = some cp) ∧
    (2 ≤ args.length → 2 ≤ args2.length → args.drop 2 = args2.drop 2 →
      cp.parseFlags L args = cp.parseFlags L args2) := by
  constructor
  · intro h
    have : args.drop 2 = [] := List.drop_eq_nil_of_le h
    simp [commandParser.parseFlags, this, parseLoop]
  · intro _ _ h
    simp [commandParser.parseFlags, h]

/-- C15 on the sample registry: `[--a=5, --x=7]` changes nothing, and
`[--a=5, --x=7, -a, 3]` gives what `[cli, sub, -a, 3]` gives. -/
theorem first_two_tokens_skipped_witness :
    sampleCommandParser.parseFlags asciiStdlib ["--a=5".toList, "--x=7".toList] =
      some sampleCommandParser ∧
    sampleCommandParser.parseFlags asciiStdlib
        ["--a=5".toList, "--x=7".toList, "-a".toList, "3".toList] =
      sampleCommandParser.parseFlags asciiStdlib
        ["cli".toList, "sub".toList, "-a".toList, "3".toList] :=
  ⟨(first_two_tokens_skipped asciiStdlib sampleCommandParser
      ["--a=5".toList, "--x=7".toList] []).1 (by decide),
   (first_two_tokens_skipped asciiStdlib sampleCommandParser
      ["--a=5".toList, "--x=7".toList, "-a".toList, "3".toList]
      ["cli".toList, "sub".toList, "-a".toList, "3".toList]).2 (by decide) (by decide) rfl⟩

/-! ## C11: tokens made of dashes -/

theorem dashScan_dashes (n : Nat) : ∀ k, dashScan (List.replicate n '-') k = none := by
  induction n with
  | zero => intro k; rfl
  | succ n ih =>
    intro k
    rw [List.replicate_succ, dashScan, if_pos rfl]
    exact ih (k + 1)

/-- C11, evaluated: for every registry, an argument vector whose third token is
empty or made only of dashes makes `parseFlags` panic, because the dash scan
reads `arg[start]` before it compares `start` with `len(arg)`; so does a dash
token further on, as in `cli sub -a 1337 --`. -/
theorem parseFlags_panics_on_dash_token :
    (∀ (L : Stdlib) (cp : commandParser L.float64) (prog sub : Str) (n : Nat)
      (rest : List Str),
      cp.parseFlags L (prog :: sub :: List.replicate n '-' :: rest) = none) ∧
    sampleCommandParser.parseFlags asciiStdlib ["cli".toList, "sub".toList, "".toList] = none ∧
    sampleCommandParser.parseFlags asciiStdlib ["cli".toList, "sub".toList, "--".toList] = none ∧
    sampleCommandParser.parseFlags asciiStdlib
      ["cli".toList, "sub".toList, "-a".toList, "1337".toList, "--".toList] = none := by
  refine ⟨?_, rfl, rfl, rfl⟩
  intro L cp prog sub n rest
  show parseLoop L (List.replicate n '-' :: rest) cp = none
  rw [parseLoop, dashScan_dashes]

/-! ## C17: tokens without a dash -/

theorem parseLoop_skip (L : Stdlib) (cp : commandParser L.float64) (t : Str)
    (rest : List Str) (hne : t ≠ []) (hh : t.head? ≠ some '-') :
    parseLoop L (t :: rest) cp = parseLoop L rest cp := by
  have h0 : dashScan t 0 = some 0 := by
    have := dashScan_replicate 0 t 0 hne hh
    simpa using this
  rw [parseLoop]
  simp [h0]

/-- C17: for every registry and every non-empty token `t` whose first
character is not a dash, `parseFlags` on `[prog, sub, t] ++ rest` gives what
`parseFlags` on `[prog, sub] ++ rest` gives, whether or not `t` or its part
before `=` is a registered alias. -/
theorem dashless_token_skipped (L : Stdlib) (cp : commandParser L.float64)
    (prog sub t : Str) (rest : List Str) (hne : t ≠ []) (hh : t.head? ≠ some '-') :
    cp.parseFlags L ([prog, sub, t] ++ rest) = cp.parseFlags L ([prog, sub] ++ rest) :=
  parseLoop_skip L cp t rest hne hh

/-- C17 on the sample registry: the token `a=5`, whose part before `=` is a
registered integer alias, is skipped and the flag after it is applied. -/
theorem dashless_token_skipped_witness :
    ("a=5".toList ≠ [] ∧ "a=5".toList.head? ≠ some '-') ∧
    sampleCommandParser.parseFlags asciiStdlib
        (["cli".toList, "sub".toList, "a=5".toList] ++ ["--x=7".toList]) =
      sampleCommandParser.parseFlags asciiStdlib
        (["cli".toList, "sub".toList] ++ ["--x=7".toList]) :=
  ⟨by decide,
   dashless_token_skipped asciiStdlib sampleCommandParser "cli".toList "sub".toList
     "a=5".toList ["--x=7".toList] (by decide) (by decide)⟩

/-! ## C16: a label that is not registered -/

theorem eqScan_labelOf (s : Str) : ∀ e, eqScan s e = e + (labelOf s).length := by
  induction s with
  | nil => intro e; simp [eqScan, labelOf]
  | cons c t ih =>
    intro e
    by_cases hc : c = '='
    · simp [eqScan, labelOf, hc]
    · have hl : labelOf (c :: t) = c :: labelOf t := by
        simp [labelOf, List.takeWhile_cons, hc]
      rw [eqScan, if_pos hc, ih, hl, List.length_cons]
      omega

theorem labelOf_no_eq (s : Str) : '=' ∉ labelOf s := by
  intro h
  have := List.mem_takeWhile_imp h
  simp at this

/-- What the scans of `parseFlags` read from a token made of `d` dashes and a
body that does not start with a dash: the dash run, the end of the label and
the label. -/
theorem token_scan (d : Nat) (body : Str) (hb : body ≠ []) (hh : body.head? ≠ some '-') :
    dashScan (List.replicate d '-' ++ body) 0 = some d ∧
    eqScan (List.replicate d '-' ++ body) 0 = d + (labelOf body).length ∧
    slice (List.replicate d '-' ++ body) d (d + (labelOf body).length) = some (labelOf body) ∧
    d + (labelOf body).length ≤ (List.replicate d '-' ++ body).length := by
  have h1 : dashScan (List.replicate d '-' ++ body) 0 = some d := by
    simpa using dashScan_replicate d body 0 hb hh
  have h2 : eqScan (List.replicate d '-' ++ body) 0 = d + (labelOf body).length := by
    rw [eqScan_append _ _ _ (by
      intro h
      exact absurd (List.eq_of_mem_replicate h) (by decide)), eqScan_labelOf]
    simp
  have hsplit : body = labelOf body ++ body.dropWhile (fun c => decide (c ≠ '=')) := by
    simp only [labelOf]
    exact (List.takeWhile_append_dropWhile _ body).symm
  have hlen : (labelOf body).length ≤ body.length := by
    calc (labelOf body).length
        ≤ (labelOf body ++ body.dropWhile (fun c => decide (c ≠ '='))).length := by simp
      _ = body.length := by rw [← hsplit]
  have h4 : d + (labelOf body).length ≤ (List.replicate d '-' ++ body).length := by
    simp; exact hlen
  refine ⟨h1, h2, ?_, h4⟩
  have e1 : (List.replicate d '-' ++ body).take (d + (labelOf body).length) =
      List.replicate d '-' ++ labelOf body := by
    have : List.replicate d '-' ++ body =
        (List.replicate d '-' ++ labelOf body) ++
          body.dropWhile (fun c => decide (c ≠ '=')) := by
      rw [List.append_assoc, ← hsplit]
    rw [this]
    exact List.take_left' (by simp)
  have e2 : (List.replicate d '-' ++ labelOf body).drop d = labelOf body :=
    List.drop_left' (by simp)
  simp only [slice]
  rw [if_pos ⟨by omega, h4⟩, e1, e2]

/-- C16: for every registry and every token `t` made of one or two dashes
followed by a body that starts with a character other than a dash, when the
label of `t` (the body up to the first `=`) is an alias of no group of any
type, `parseFlags` on `[prog, sub, t] ++ rest` gives what `parseFlags` on
`[prog, sub] ++ rest` gives: the token after `t` is processed in its own right
and nothing is written for `t`. -/
theorem unrecognized_label_consumes_nothing (L : Stdlib) (cp : commandParser L.float64)
    (prog sub : Str) (d : Nat) (body : Str) (rest : List Str)
    (hd : d = 1 ∨ d = 2) (hb : body ≠ []) (hh : body.head? ≠ some '-')
    (hun : ∀ T, ∀ g ∈ cp.labels T, labelOf body ∉ g) :
    cp.parseFlags L ([prog, sub, List.replicate d '-' ++ body] ++ rest) =
      cp.parseFlags L ([prog, sub] ++ rest) := by
  obtain ⟨h1, h2, h3, h4⟩ := token_scan d body hb hh
  have hres : resolve cp (labelOf body) = none := (resolve_none_iff cp _).2 hun
  have hfail : ∀ v, (tryToUseFlag L cp (labelOf body) v).2 ≠ none ∧
      (tryToUseFlag L cp (labelOf body) v).1 = cp := by
    intro v
    have he : (tryToUseFlag L cp (labelOf body) v).2 ≠ none :=
      (error_iff_resolve L cp _ v).2 (Or.inl hres)
    exact ⟨he, by rw [(tryToUseFlag_eq L cp _ v).1]; exact error_unchanged L cp _ v he⟩
  show parseLoop L ((List.replicate d '-' ++ body) :: rest) cp = parseLoop L rest cp
  rw [parseLoop]
  simp only [h1, h2, h3, if_pos hd]
  by_cases hin : d + (labelOf body).length < (List.replicate d '-' ++ body).length - 1
  · rw [if_pos hin]
    have hs : sliceFrom (List.replicate d '-' ++ body) (d + (labelOf body).length + 1) =
        some ((List.replicate d '-' ++ body).drop (d + (labelOf body).length + 1)) := by
      simp only [sliceFrom]
      rw [if_pos (by omega)]
    simp only [hs, (hfail _).2]
  · rw [if_neg hin]
    cases rest with
    | nil => simp only [(hfail _).2, parseLoop]
    | cons next rest2 =>
      simp only [(hfail _).2]
      rw [if_neg (hfail next).1]

/-- C16 on the sample registry: `--zzz` is not registered, so the token `-a`
after it is processed in its own right. -/
theorem unrecognized_label_consumes_nothing_witness :
    ((2 = 1 ∨ 2 = 2) ∧ "zzz".toList ≠ [] ∧ "zzz".toList.head? ≠ some '-' ∧
      ∀ T, ∀ g ∈ sampleCommandParser.labels T, labelOf "zzz".toList ∉ g) ∧
    sampleCommandParser.parseFlags asciiStdlib
        (["cli".toList, "sub".toList, List.replicate 2 '-' ++ "zzz".toList] ++
          ["-a".toList, "3".toList]) =
      sampleCommandParser.parseFlags asciiStdlib
        (["cli".toList, "sub".toList] ++ ["-a".toList, "3".toList]) :=
  ⟨⟨by decide, by decide, by decide, by intro T; cases T <;> decide⟩,
   unrecognized_label_consumes_nothing asciiStdlib sampleCommandParser "cli".toList
     "sub".toList 2 "zzz".toList ["-a".toList, "3".toList] (by decide) (by decide) (by decide)
     (by intro T; cases T <;> decide)⟩

/-! ## C12: a value that is not an integer -/

/-- C12 fails as stated.  With the integer alias "-a" and the string alias
"a", the vector `[cli, sub, --a, notanumber]` writes "notanumber" to the string
"a", which `[cli, sub, notanumber]` leaves unset; with the integer group
{"a", "a=1"}, the token `-a=1` written for the alias "a=1" sets the group to 1,
so the alias does not stay unset. -/
theorem failed_integer_coercion_counterexample :
    ((∃ g ∈ dashAliasRegistry.intLabels, "-a".toList ∈ g) ∧ Atoi "notanumber".toList = none ∧
      (dashAliasRegistry.parseFlags asciiStdlib
        ["cli".toList, "sub".toList, "-".toList ++ "-a".toList, "notanumber".toList]).map
        (fun st => st.strValues "a".toList) = some (some "notanumber".toList) ∧
      (dashAliasRegistry.parseFlags asciiStdlib
        ["cli".toList, "sub".toList, "notanumber".toList]).map
        (fun st => st.strValues "a".toList) = some none) ∧
    ((∃ g ∈ (intRegistry ["a".toList, "a=1".toList]).intLabels, "a=1".toList ∈ g) ∧
      (intRegistry ["a".toList, "a=1".toList]).intValues "a=1".toList = none ∧
      ((intRegistry ["a".toList, "a=1".toList]).parseFlags asciiStdlib
        ["cli".toList, "sub".toList, "-".toList ++ "a=1".toList, "notanumber".toList]).map
        (fun st => st.intValues "a=1".toList) = some (some 1) ∧
      ((intRegistry ["a".toList, "a=1".toList]).parseFlags asciiStdlib
        ["cli".toList, "sub".toList, "notanumber".toList]).map
        (fun st => st.intValues "a=1".toList) = some none) := by
  decide

/-- C12, amended: for a registry in which `a` is an alias of an integer group,
where `a` is non-empty, does not start with a dash and holds no `=`, and any
token `t` that `Atoi` rejects, `parseFlags` on `[prog, sub, -a, t] ++ rest`
gives what `parseFlags` on `[prog, sub, t] ++ rest` gives (the same final
state, or a panic in both); and on `[prog, sub, -a, notanumber]` it completes
and leaves the registry as it was, so that `a` stays unset when it was. -/
theorem failed_integer_coercion (L : Stdlib) (cp : commandParser L.float64)
    (prog sub a t : Str) (rest : List Str)
    (ha : ∃ g ∈ cp.intLabels, a ∈ g) (hne : a ≠ []) (hdash : a.head? ≠ some '-')
    (heq : '=' ∉ a) (ht : Atoi t = none) :
    cp.parseFlags L ([prog, sub, "-".toList ++ a, t] ++ rest) =
      cp.parseFlags L ([prog, sub, t] ++ rest) ∧
    cp.parseFlags L [prog, sub, "-".toList ++ a, "notanumber".toList] = some cp ∧
    (cp.intValues a = none → ∀ st,
      cp.parseFlags L [prog, sub, "-".toList ++ a, "notanumber".toList] = some st →
        st.intValues a = none) := by
  have hfail : ∀ v, Atoi v = none → (tryToUseFlag L cp a v).2 ≠ none ∧ bind L cp a v = cp := by
    intro v hv
    have he : (tryToUseFlag L cp a v).2 ≠ none :=
      (error_iff_resolve L cp a v).2 (Or.inr (Or.inl ⟨(resolve_int_iff cp a).2 ha, hv⟩))
    exact ⟨he, error_unchanged L cp a v he⟩
  have step : ∀ v r, Atoi v = none →
      parseLoop L (("-".toList ++ a) :: v :: r) cp = parseLoop L (v :: r) cp := by
    intro v r hv
    rw [flagToken_one, parseLoop_bare_next L cp 1 (Or.inl rfl) a ⟨hdash, heq⟩ hne,
      if_neg (hfail v hv).1, (hfail v hv).2]
  have hnan : cp.parseFlags L [prog, sub, "-".toList ++ a, "notanumber".toList] = some cp := by
    show parseLoop L [("-".toList ++ a), "notanumber".toList] cp = some cp
    rw [step _ _ (by decide), parseLoop_skip L cp _ _ (by decide) (by decide), parseLoop]
  refine ⟨step t rest ht, hnan, ?_⟩
  intro h0 st hst
  rw [hnan] at hst
  cases hst
  exact h0

/-- C12 amended, at the instance of the specification: on the sample registry
`-a notanumber --x=7` gives what `notanumber --x=7` gives, and
`-a notanumber` leaves "a" unset. -/
theorem failed_integer_coercion_witness :
    ((∃ g ∈ sampleCommandParser.intLabels, "a".toList ∈ g) ∧ "a".toList ≠ [] ∧
      "a".toList.head? ≠ some '-' ∧ '=' ∉ "a".toList ∧ Atoi "notanumber".toList = none) ∧
    sampleCommandParser.parseFlags asciiStdlib
        (["cli".toList, "sub".toList, "-".toList ++ "a".toList, "notanumber".toList] ++
          ["--x=7".toList]) =
      sampleCommandParser.parseFlags asciiStdlib
        (["cli".toList, "sub".toList, "notanumber".toList] ++ ["--x=7".toList]) ∧
    sampleCommandParser.parseFlags asciiStdlib
      ["cli".toList, "sub".toList, "-".toList ++ "a".toList, "notanumber".toList] =
        some sampleCommandParser ∧
    (sampleCommandParser.intValues "a".toList = none → ∀ st,
      sampleCommandParser.parseFlags asciiStdlib
        ["cli".toList, "sub".toList, "-".toList ++ "a".toList, "notanumber".toList] = some st →
        st.intValues "a".toList = none) :=
  ⟨by decide,
   failed_integer_coercion asciiStdlib sampleCommandParser "cli".toList "sub".toList
     "a".toList "notanumber".toList ["--x=7".toList] (by decide) (by decide) (by decide)
     (by decide) (by decide)⟩

/-! ## C13: a bare flag at the end of the arguments -/

/-- C13 fails as stated.  On the sample registry "c" is bound to the string
type and is unset; `parseFlags` on `[cli, sub, --c]` binds the empty string to
it, and afterwards "c" is set to "". -/
theorem bare_flag_at_end_counterexample :
    resolve sampleCommandParser "c".toList = some (ValueType.str, ["c".toList]) ∧
    sampleCommandParser.strValues "c".toList = none ∧
    (sampleCommandParser.parseFlags asciiStdlib
      ["cli".toList, "sub".toList, "--".toList ++ "c".toList]).map
      (fun st => st.strValues "c".toList) = some (some []) := by
  decide

/-- C13, amended: for every registry and every label that is non-empty, does
not start with a dash and holds no `=`, when the cursor of `parseFlags` stands
on the last token and that token is the bare flag `-label` or `--label`: if
the label is bound to the integer or the float type, the iteration leaves the
registry unchanged and ends the scan, so that `parseFlags` on
`[prog, sub, -label]` returns the registry it was given; if the label is bound
to the string type, the iteration writes the empty string to every alias of
its group. -/
theorem bare_flag_at_end (L : Stdlib) (cp : commandParser L.float64) (args : List Str)
    (k d : Nat) (label : Str) (hd : d = 1 ∨ d = 2) (hne : label ≠ [])
    (hdash : label.head? ≠ some '-') (heq : '=' ∉ label)
    (hk : k + 1 = args.length) (harg : args.get? k = some (flagToken d label)) :
    (∀ g, resolve cp label = some (ValueType.int, g) ∨
        resolve cp label = some (ValueType.float, g) →
      parseIter L args k cp = some (cp, k + 1) ∧
      ∀ prog sub, cp.parseFlags L [prog, sub, flagToken d label] = some cp) ∧
    (∀ g, resolve cp label = some (ValueType.str, g) →
      parseIter L args k cp = some (setStrArg cp g [], k + 1)) := by
  obtain ⟨h1, h2, h3, h4⟩ := flagToken_scan d label ⟨hdash, heq⟩ hne
  have hiter : parseIter L args k cp = some (bind L cp label [], k + 1) := by
    unfold parseIter
    simp only [harg, h1, h2, h3, h4, if_pos hd]
    rw [if_neg (by omega), if_neg (by omega), (tryToUseFlag_eq L cp label []).1]
  constructor
  · intro g hg
    have hb : bind L cp label [] = cp := by
      rcases hg with hg | hg
      · simp [bind, hg, coerce, Atoi]
      · simp [bind, hg, coerce, L.parseFloat_empty]
    refine ⟨by rw [hiter, hb], ?_⟩
    intro prog sub
    show parseLoop L [flagToken d label] cp = some cp
    rw [parseLoop_bare_last L cp d hd label ⟨hdash, heq⟩ hne, hb]
  · intro g hg
    rw [hiter]
    simp [bind, hg, coerce, setArg]

/-- C13 amended, on the sample registry: with the cursor on the last token of
`[cli, sub, --a]`, the bare integer flag leaves the registry unchanged. -/
theorem bare_flag_at_end_witness :
    ((2 = 1 ∨ 2 = 2) ∧ "a".toList ≠ [] ∧ "a".toList.head? ≠ some '-' ∧ '=' ∉ "a".toList ∧
      2 + 1 = ["cli".toList, "sub".toList, flagToken 2 "a".toList].length ∧
      ["cli".toList, "sub".toList, flagToken 2 "a".toList].get? 2 =
        some (flagToken 2 "a".toList) ∧
      resolve sampleCommandParser "a".toList =
        some (ValueType.int, ["a".toList, "b".toList])) ∧
    parseIter asciiStdlib ["cli".toList, "sub".toList, flagToken 2 "a".toList] 2
      sampleCommandParser = some (sampleCommandParser, 2 + 1) ∧
    ∀ prog sub, sampleCommandParser.parseFlags asciiStdlib [prog, sub, flagToken 2 "a".toList] =
      some sampleCommandParser :=
  ⟨by decide,
   (bare_flag_at_end asciiStdlib sampleCommandParser
     ["cli".toList, "sub".toList, flagToken 2 "a".toList] 2 2 "a".toList (by decide)
     (by decide) (by decide) (by decide) (by decide) (by decide)).1
     ["a".toList, "b".toList] (Or.inl (by decide))⟩

/-! ## C19: the scan terminates -/

theorem dashScan_bound (arg : Str) :
    ∀ n start, dashScan arg n = some start → n ≤ start ∧ start < n + arg.length := by
  induction arg with
  | nil => intro n start h; simp [dashScan] at h
  | cons c t ih =>
    intro n start h
    by_cases hc : c = '-'
    · rw [dashScan, if_pos hc] at h
      have := ih (n + 1) start h
      simp only [List.length_cons]
      omega
    · rw [dashScan, if_neg hc] at h
      cases h
      simp

theorem eqScan_bound (arg : Str) : ∀ n, n ≤ eqScan arg n ∧ eqScan arg n ≤ n + arg.length := by
  intro n
  rw [eqScan_labelOf]
  have : (labelOf arg).length ≤ arg.length := by
    have h := List.takeWhile_append_dropWhile (fun c => decide (c ≠ '=')) arg
    calc (labelOf arg).length
        ≤ (labelOf arg ++ arg.dropWhile (fun c => decide (c ≠ '='))).length := by simp
      _ = arg.length := by simp only [labelOf]; rw [h]
  omega

/-- An iteration of the outer loop moves the cursor forward by one or two and
not beyond the end of the arguments. -/
theorem parseIter_advance (L : Stdlib) (args : List Str) (k : Nat)
    (cp cp2 : commandParser L.float64) (k2 : Nat) (hk : k < args.length)
    (h : parseIter L args k cp = some (cp2, k2)) :
    (k2 = k + 1 ∨ k2 = k + 2) ∧ k2 ≤ args.length := by
  unfold parseIter at h
  cases h0 : args[k]? with
  | none => simp [h0] at h
  | some arg =>
    cases h1 : dashScan arg 0 with
    | none => simp [h0, h1] at h
    | some start =>
      by_cases h2 : start = 1 ∨ start = 2
      · cases h3 : slice arg start (eqScan arg 0) with
        | none => simp [h0, h1, h2, h3] at h
        | some label =>
          by_cases h4 : eqScan arg 0 < arg.length - 1
          · cases h5 : sliceFrom arg (eqScan arg 0 + 1) with
            | none => simp [h0, h1, h2, h3, h4, h5] at h
            | some value =>
              simp [h0, h1, h2, h3, h4, h5] at h
              omega
          · by_cases h6 : k < args.length - 1
            · cases h7 : args[k + 1]? with
              | none => simp [h0, h1, h2, h3, h4, h6, h7] at h
              | some next =>
                by_cases h8 : (tryToUseFlag L cp label next).2 = none
                · simp [h0, h1, h2, h3, h4, h6, h7, h8] at h
                  omega
                · simp [h0, h1, h2, h3, h4, h6, h7, h8] at h
                  omega
            · simp [h0, h1, h2, h3, h4, h6] at h
              omega
      · simp [h0, h1, h2] at h
        omega

/-- The scan from the cursor `k` is one iteration followed by the scan from
the new cursor. -/
theorem parseLoop_drop (L : Stdlib) (args : List Str) (k : Nat) (cp : commandParser L.float64)
    (hk : k < args.length) :
    parseLoop L (args.drop k) cp =
      match parseIter L args k cp with
      | none => none
      | some (cp2, k2) => parseLoop L (args.drop k2) cp2 := by
  have hd : args.drop k = args[k] :: args.drop (k + 1) := List.drop_eq_getElem_cons hk
  have hg : args[k]? = some args[k] := List.getElem?_eq_getElem hk
  rw [hd, parseLoop]
  unfold parseIter
  simp only [List.get?_eq_getElem?, hg]
  cases h1 : dashScan args[k] 0 with
  | none => rfl
  | some start =>
    simp only
    by_cases h2 : start = 1 ∨ start = 2
    · simp only [if_pos h2]
      cases h3 : slice args[k] start (eqScan args[k] 0) with
      | none => rfl
      | some label =>
        simp only
        by_cases h4 : eqScan args[k] 0 < args[k].length - 1
        · simp only [if_pos h4]
          cases h5 : sliceFrom args[k] (eqScan args[k] 0 + 1) with
          | none => rfl
          | some value => rfl
        · simp only [if_neg h4]
          by_cases h6 : k < args.length - 1
          · have hk1 : k + 1 < args.length := by omega
            have hd1 : args.drop (k + 1) = args[k + 1] :: args.drop (k + 2) :=
              List.drop_eq_getElem_cons hk1
            have hg1 : args[k + 1]? = some args[k + 1] := List.getElem?_eq_getElem hk1
            rw [hd1]
            simp only [if_pos h6, List.get?_eq_getElem?, hg1]
            by_cases h8 : (tryToUseFlag L cp label args[k + 1]).2 = none
            · simp only [if_pos h8]
            · simp only [if_neg h8, hd1]
          · have hnil : args.drop (k + 1) = [] := List.drop_eq_nil_of_le (by omega)
            rw [hnil]
            simp only [if_neg h6, hnil]
    · simp only [if_neg h2]

/-- A run of the outer loop with at least `len(args) - k` iterations ends, with
the result of the scan from the cursor `k`. -/
theorem parseRun_eq (L : Stdlib) (args : List Str) :
    ∀ (fuel k : Nat) (cp : commandParser L.float64), args.length - k ≤ fuel →
      parseRun L args fuel k cp = ScanResult.ofOption (parseLoop L (args.drop k) cp) := by
  intro fuel
  induction fuel with
  | zero =>
    intro k cp h
    have hn : ¬ k < args.length := by omega
    rw [parseRun, if_neg hn, List.drop_eq_nil_of_le (by omega), parseLoop]
    rfl
  | succ fuel ih =>
    intro k cp h
    by_cases hk : k < args.length
    · rw [parseRun, if_pos hk, parseLoop_drop L args k cp hk]
      cases hi : parseIter L args k cp with
      | none => rfl
      | some p =>
        obtain ⟨cp2, k2⟩ := p
        have hadv := parseIter_advance L args k cp cp2 k2 hk hi
        simp only
        exact ih k2 cp2 (by omega)
    · rw [parseRun, if_neg hk, List.drop_eq_nil_of_le (by omega), parseLoop]
      rfl

/-- C19: for every registry and argument vector, every iteration of the outer
loop of `parseFlags` that does not panic moves the cursor `k` forward by 1 or
by 2 and not beyond `len(args)`; on every token the dash scan that does not
panic stops before the end of the token and the `=` scan stops at the end of
the token at the latest; so a run of the loop from the cursor `k` with
`len(args) - k` iterations or more always ends, in a panic or with the final
registry, and `parseFlags` is the run from `k = 2` with `len(args) - 2`
iterations. -/
theorem token_scan_terminates (L : Stdlib) (cp : commandParser L.float64) (args : List Str) :
    (∀ k cp1 cp2 k2, k < args.length → parseIter L args k cp1 = some (cp2, k2) →
      (k2 = k + 1 ∨ k2 = k + 2) ∧ k2 ≤ args.length) ∧
    (∀ arg ∈ args, (∀ start, dashScan arg 0 = some start → start < arg.length) ∧
      eqScan arg 0 ≤ arg.length) ∧
    (∀ k fuel cp1, args.length - k ≤ fuel →
      parseRun L args fuel k cp1 ≠ ScanResult.unfinished ∧
      parseRun L args fuel k cp1 = ScanResult.ofOption (parseLoop L (args.drop k) cp1)) ∧
    parseRun L args (args.length - 2) 2 cp = ScanResult.ofOption (cp.parseFlags L args) := by
  refine ⟨?_, ?_, ?_, ?_⟩
  · intro k cp1 cp2 k2 hk h
    exact parseIter_advance L args k cp1 cp2 k2 hk h
  · intro arg _
    refine ⟨?_, ?_⟩
    · intro start h
      have := (dashScan_bound arg 0 start h).2
      omega
    · have := (eqScan_bound arg 0).2
      omega
  · intro k fuel cp1 h
    have e := parseRun_eq L args fuel k cp1 h
    refine ⟨?_, e⟩
    rw [e]
    cases parseLoop L (args.drop k) cp1 <;> simp [ScanResult.ofOption]
  · exact parseRun_eq L args (args.length - 2) 2 cp (le_refl _)

/-! ## C18: the help text -/

theorem intercalate_cons (sep x : Str) (xs : List Str) :
    List.intercalate sep (x :: xs) = x ++ (xs.map (fun y => sep ++ y)).flatten := by
  induction xs generalizing x with
  | nil => simp [List.intercalate]
  | cons y ys ih =>
    have h := ih y
    simp only [List.intercalate] at h ⊢
    simp only [List.intersperse, List.flatten_cons, List.map_cons]
    rw [h]
    simp

theorem helpLabels_later (labels : List Str) :
    ∀ k ls, 0 < k → helpLabels labels k ls =
      ls ++ (labels.map (fun y => ",".toList ++ (" --".toList ++ y))).flatten := by
  induction labels with
  | nil => intro k ls _; simp [helpLabels]
  | cons a rest ih =>
    intro k ls hk
    rw [helpLabels, if_pos hk, ih (k + 1) _ (by omega)]
    simp

/-- The inner loop of `helpString` joins the aliases, each with " --" in
front, by ",". -/
theorem helpLabels_eq (labels : List Str) :
    helpLabels labels 0 [] =
      List.intercalate ",".toList (labels.map (fun a => " --".toList ++ a)) := by
  cases labels with
  | nil => simp [helpLabels, List.intercalate]
  | cons a rest =>
    rw [helpLabels, if_neg (by omega), helpLabels_later rest 1 _ (by omega), List.map_cons,
      intercalate_cons]
    simp only [List.map_map, Function.comp]
    rfl

theorem helpStringLoop_eq (es : List (Str × List Str)) :
    ∀ s, helpStringLoop es s = s ++ (es.map helpLine).flatten := by
  induction es with
  | nil => intro s; simp [helpStringLoop]
  | cons e rest ih =>
    intro s
    obtain ⟨doc, labels⟩ := e
    rw [helpStringLoop, ih, helpLabels_eq]
    simp [helpLine]

theorem helpLine_ne_nil (e : Str × List Str) : helpLine e ≠ [] := by
  simp [helpLine]

/-- C18: for every registry and every order `visit` in which the entries of
the menu are visited, `helpString()` is the concatenation over the entries
`(doc, aliases)` in that order of the line made of every alias with " --" in
front, joined by ",", then a tab, `doc` and a newline; it is the empty string
exactly when the menu is empty; and for the single entry `({a, b}, d)` it is
`" --a, --b\t" ++ d ++ "\n"`. -/
theorem helpString_lines {F : Type} (cp : commandParser F)
    (visit : { l : List (Str × List Str) // l.Perm cp.menu }) :
    helpString cp visit = (visit.1.map helpLine).flatten ∧
    (helpString cp visit = [] ↔ cp.menu = []) ∧
    (∀ a b d : Str, cp.menu = [(d, [a, b])] →
      helpString cp visit =
        " --".toList ++ a ++ ", --".toList ++ b ++ "\t".toList ++ d ++ "\n".toList) := by
  obtain ⟨l, hl⟩ := visit
  have h1 : helpString cp ⟨l, hl⟩ = (l.map helpLine).flatten := by
    simp [helpString, helpStringLoop_eq]
  refine ⟨h1, ?_, ?_⟩
  · rw [h1]
    constructor
    · intro h
      cases l with
      | nil => exact List.nil_perm.1 hl
      | cons e rest =>
        simp only [List.map_cons, List.flatten_cons, List.append_eq_nil] at h
        exact absurd h.1 (helpLine_ne_nil e)
    · intro h
      rw [h] at hl
      rw [List.perm_nil.1 hl]
      rfl
  · intro a b d hm
    rw [hm] at hl
    rw [h1, List.perm_singleton.1 hl]
    simp [helpLine, List.intercalate]

/-- The help text of the registry with the one integer group {"a", "b"}
documented by "an int arg", as `helpString` computes it. -/
theorem helpString_example :
    helpString (intRegistry ["a".toList, "b".toList])
        ⟨(intRegistry ["a".toList, "b".toList]).menu, List.Perm.refl _⟩ =
      " --a, --b\tan int arg\n".toList := by
  decide

/-! ## C21: the help message of an example -/

/-- C21: for every example with documentation `d`, command `c` and output `o`,
`helpMessage()` is `"$ # " ++ d ++ "\n"` (when `d` is non-empty) followed by
`"$ " ++ c ++ "\n"` and by `o ++ "\n\n"` (when `o` is non-empty); hence the
message contains `c`, contains `d` and a `#` when `d` is non-empty, and holds no
`#` when `d` is empty and neither `c` nor `o` holds one. -/
theorem helpMessage_format (ex : subcommandExample) :
    helpMessage ex =
      (if ex.documentation ≠ [] then "$ # ".toList ++ ex.documentation ++ "\n".toList else []) ++
        "$ ".toList ++ ex.command ++ "\n".toList ++
        (if ex.output ≠ [] then ex.output ++ "\n\n".toList else []) ∧
    ex.command <:+: helpMessage ex ∧
    (ex.documentation ≠ [] → ex.documentation <:+: helpMessage ex ∧ '#' ∈ helpMessage ex) ∧
    (ex.documentation = [] → '#' ∉ ex.command → '#' ∉ ex.output → '#' ∉ helpMessage ex) := by
  obtain ⟨d, c, o⟩ := ex
  have hm : helpMessage ⟨d, c, o⟩ =
      (if d ≠ [] then "$ # ".toList ++ d ++ "\n".toList else []) ++
        "$ ".toList ++ c ++ "\n".toList ++ (if o ≠ [] then o ++ "\n\n".toList else []) := by
    by_cases h1 : d = []
    · by_cases h2 : o = []
      · simp [helpMessage, h1, h2]
      · have l2 : 0 < o.length := List.length_pos.2 h2
        simp [helpMessage, h1, h2, l2]
    · have l1 : 0 < d.length := List.length_pos.2 h1
      by_cases h2 : o = []
      · simp [helpMessage, h1, h2, l1]
      · have l2 : 0 < o.length := List.length_pos.2 h2
        simp [helpMessage, h1, h2, l1, l2]
  refine ⟨hm, ?_, ?_, ?_⟩
  · rw [hm]
    exact ⟨(if d ≠ [] then "$ # ".toList ++ d ++ "\n".toList else []) ++ "$ ".toList,
      "\n".toList ++ (if o ≠ [] then o ++ "\n\n".toList else []), by simp⟩
  · intro h1
    have h1' : d ≠ [] := h1
    rw [hm, if_pos h1']
    constructor
    · exact ⟨"$ # ".toList,
        "\n".toList ++ "$ ".toList ++ c ++ "\n".toList ++
          (if o ≠ [] then o ++ "\n\n".toList else []), by simp⟩
    · simp
  · intro h1 hc ho2
    have h1' : d = [] := h1
    have hc' : '#' ∉ c := hc
    have ho' : '#' ∉ o := ho2
    rw [hm, if_neg (by simp [h1'])]
    by_cases h2 : o = []
    · simp [h2, hc']
    · simp [h2, hc', ho']

/-- The example of `TestSubcommandExample`, evaluated. -/
theorem helpMessage_example :
    helpMessage
        ⟨"Grep can be used to search for text in a file.".toList,
          "grep -r \"hello world\" .".toList, []⟩ =
      "$ # Grep can be used to search for text in a file.\n$ grep -r \"hello world\" .\n".toList := by
  decide

/-! ## C25: what a write changes -/

/-- C25: for every registry, alias list and value, after `setIntArg(aliases,
v)` the map `intValues` sends every alias of the list to `v` and agrees with
the map before on every other key, and the other three value maps, the four
group lists, `allLabels` and the menu are as before; likewise for `setStrArg`,
`setFloatArg` and `setBoolArg` on their own maps. -/
theorem set_writes_alias_list_only {F : Type} (cp : commandParser F) (aliases : List Str) :
    (∀ v : Int,
      (∀ a ∈ aliases, (setIntArg cp aliases v).intValues a = some v) ∧
      (∀ k, k ∉ aliases → (setIntArg cp aliases v).intValues k = cp.intValues k) ∧
      (setIntArg cp aliases v).strValues = cp.strValues ∧
      (setIntArg cp aliases v).floatValues = cp.floatValues ∧
      (setIntArg cp aliases v).boolValues = cp.boolValues ∧
      (setIntArg cp aliases v).intLabels = cp.intLabels ∧
      (setIntArg cp aliases v).strLabels = cp.strLabels ∧
      (setIntArg cp aliases v).floatLabels = cp.floatLabels ∧
      (setIntArg cp aliases v).boolLabels = cp.boolLabels ∧
      (setIntArg cp aliases v).allLabels = cp.allLabels ∧
      (setIntArg cp aliases v).menu = cp.menu) ∧
    (∀ v : Str,
      (∀ a ∈ aliases, (setStrArg cp aliases v).strValues a = some v) ∧
      (∀ k, k ∉ aliases → (setStrArg cp aliases v).strValues k = cp.strValues k) ∧
      (setStrArg cp aliases v).intValues = cp.intValues ∧
      (setStrArg cp aliases v).floatValues = cp.floatValues ∧
      (setStrArg cp aliases v).boolValues = cp.boolValues ∧
      (setStrArg cp aliases v).intLabels = cp.intLabels ∧
      (setStrArg cp aliases v).strLabels = cp.strLabels ∧
      (setStrArg cp aliases v).floatLabels = cp.floatLabels ∧
      (setStrArg cp aliases v).boolLabels = cp.boolLabels ∧
      (setStrArg cp aliases v).allLabels = cp.allLabels ∧
      (setStrArg cp aliases v).menu = cp.menu) ∧
    (∀ v : F,
      (∀ a ∈ aliases, (setFloatArg cp aliases v).floatValues a = some v) ∧
      (∀ k, k ∉ aliases → (setFloatArg cp aliases v).floatValues k = cp.floatValues k) ∧
      (setFloatArg cp aliases v).intValues = cp.intValues ∧
      (setFloatArg cp aliases v).strValues = cp.strValues ∧
      (setFloatArg cp aliases v).boolValues = cp.boolValues ∧
      (setFloatArg cp aliases v).intLabels = cp.intLabels ∧
      (setFloatArg cp aliases v).strLabels = cp.strLabels ∧
      (setFloatArg cp aliases v).floatLabels = cp.floatLabels ∧
      (setFloatArg cp aliases v).boolLabels = cp.boolLabels ∧
      (setFloatArg cp aliases v).allLabels = cp.allLabels ∧
      (setFloatArg cp aliases v).menu = cp.menu) ∧
    (∀ v : Bool,
      (∀ a ∈ aliases, (setBoolArg cp aliases v).boolValues a = some v) ∧
      (∀ k, k ∉ aliases → (setBoolArg cp aliases v).boolValues k = cp.boolValues k) ∧
      (setBoolArg cp aliases v).intValues = cp.intValues ∧
      (setBoolArg cp aliases v).strValues = cp.strValues ∧
      (setBoolArg cp aliases v).floatValues = cp.floatValues ∧
      (setBoolArg cp aliases v).intLabels = cp.intLabels ∧
      (setBoolArg cp aliases v).strLabels = cp.strLabels ∧
      (setBoolArg cp aliases v).floatLabels = cp.floatLabels ∧
      (setBoolArg cp aliases v).boolLabels = cp.boolLabels ∧
      (setBoolArg cp aliases v).allLabels = cp.allLabels ∧
      (setBoolArg cp aliases v).menu = cp.menu) := by
  refine ⟨?_, ?_, ?_, ?_⟩
  · intro v
    rw [setIntArg_eq]
    refine ⟨?_, ?_, rfl, rfl, rfl, rfl, rfl, rfl, rfl, rfl, rfl⟩
    · intro a ha; simp [ha]
    · intro k hk; simp [hk]
  · intro v
    rw [setStrArg_eq]
    refine ⟨?_, ?_, rfl, rfl, rfl, rfl, rfl, rfl, rfl, rfl, rfl⟩
    · intro a ha; simp [ha]
    · intro k hk; simp [hk]
  · intro v
    rw [setFloatArg_eq]
    refine ⟨?_, ?_, rfl, rfl, rfl, rfl, rfl, rfl, rfl, rfl, rfl⟩
    · intro a ha; simp [ha]
    · intro k hk; simp [hk]
  · intro v
    rw [setBoolArg_eq]
    refine ⟨?_, ?_, rfl, rfl, rfl, rfl, rfl, rfl, rfl, rfl, rfl⟩
    · intro a ha; simp [ha]
    · intro k hk; simp [hk]

/-! ## C26: registration records the aliases -/

/-- C26: for every registry, alias list and documentation, after `addIntArg`,
`addStrArg`, `addFloatArg` or `addBoolArg`, `hasAlias(x)` is true exactly when
`x` is one of the aliases or `hasAlias(x)` was true before the call; and in a
new registry `hasAlias(x)` is false for every `x`. -/
theorem registration_records_aliases {F : Type} (cp : commandParser F) (aliases : List Str)
    (doc x : Str) :
    (hasAlias (addIntArg cp aliases doc) x = true ↔ x ∈ aliases ∨ hasAlias cp x = true) ∧
    (hasAlias (addStrArg cp aliases doc) x = true ↔ x ∈ aliases ∨ hasAlias cp x = true) ∧
    (hasAlias (addFloatArg cp aliases doc) x = true ↔ x ∈ aliases ∨ hasAlias cp x = true) ∧
    (hasAlias (addBoolArg cp aliases doc) x = true ↔ x ∈ aliases ∨ hasAlias cp x = true) ∧
    hasAlias (newCommandParser F) x = false := by
  have key : ∀ cp2 : commandParser F, cp2.allLabels = cp.allLabels ++ aliases →
      (hasAlias cp2 x = true ↔ x ∈ aliases ∨ hasAlias cp x = true) := by
    intro cp2 h
    simp only [hasAlias, hasAliasLoop_iff, h, List.mem_append]
    exact Or.comm
  refine ⟨key _ rfl, key _ rfl, key _ rfl, key _ rfl, ?_⟩
  simp [hasAlias, newCommandParser, hasAliasLoop]

/-! ## C23: an empty inline value -/

theorem labelOf_append_eq (x : Str) (hx : '=' ∉ x) : labelOf (x ++ ['=']) = x := by
  induction x with
  | nil => simp [labelOf]
  | cons c t ih =>
    have hc : c ≠ '=' := fun h => hx (by simp [h])
    have ht : '=' ∉ t := fun h => hx (List.mem_cons_of_mem _ h)
    have hl : labelOf ((c :: t) ++ ['=']) = c :: labelOf (t ++ ['=']) := by
      simp [labelOf, List.takeWhile_cons, hc]
    rw [hl, ih ht]

/-- A flag token that ends in `=` is scanned like the token without the `=`. -/
theorem parseLoop_empty_inline (L : Stdlib) (cp : commandParser L.float64) (d : Nat)
    (hd : d = 1 ∨ d = 2) (x : Str) (hx : plainLabel x) (hne : x ≠ []) (rest : List Str) :
    parseLoop L ((flagToken d x ++ ['=']) :: rest) cp = parseLoop L (flagToken d x :: rest) cp := by
  have hbody : (x ++ ['=']) ≠ [] := by simp
  have hhead : (x ++ ['=']).head? ≠ some '-' := by
    cases x with
    | nil => exact absurd rfl hne
    | cons c t => simpa using hx.1
  obtain ⟨a1, a2, a3, _⟩ := token_scan d (x ++ ['=']) hbody hhead
  rw [labelOf_append_eq x hx.2] at a2 a3
  obtain ⟨b1, b2, b3, b4⟩ := flagToken_scan d x hx hne
  have e : flagToken d x ++ ['='] = List.replicate d '-' ++ (x ++ ['=']) := by
    simp [flagToken]
  have hlen : (List.replicate d '-' ++ (x ++ ['='])).length = d + x.length + 1 := by
    simp; omega
  rw [e, parseLoop]
  conv_rhs => rw [parseLoop]
  simp only [a1, a2, a3, b1, b2, b3, b4, hlen, if_pos hd]
  rw [if_neg (by omega), if_neg (by omega)]

/-- C23: for every registry and every token `t` made of one or two dashes
followed by a non-empty body that does not start with a dash and holds no `=`,
`parseFlags` on `[prog, sub, t ++ "="] ++ rest` gives what `parseFlags` on
`[prog, sub, t] ++ rest` gives; so for an alias `c` bound to the string type
(with such a shape), `[prog, sub, --c=, foo]` completes with every alias of the
group of `c` set to "foo". -/
theorem empty_inline_value (L : Stdlib) (cp : commandParser L.float64) (prog sub : Str)
    (d : Nat) (body : Str) (rest : List Str) (hd : d = 1 ∨ d = 2) (hb : body ≠ [])
    (hh : body.head? ≠ some '-') (heq : '=' ∉ body) :
    cp.parseFlags L ([prog, sub, List.replicate d '-' ++ body ++ "=".toList] ++ rest) =
      cp.parseFlags L ([prog, sub, List.replicate d '-' ++ body] ++ rest) ∧
    ∀ G, resolve cp body = some (ValueType.str, G) →
      ∃ st, cp.parseFlags L [prog, sub, "--".toList ++ body ++ "=".toList, "foo".toList] =
          some st ∧
        ∀ y ∈ G, st.strValues y = some "foo".toList := by
  constructor
  · exact parseLoop_empty_inline L cp d hd body ⟨hh, heq⟩ hb rest
  · intro G hG
    have hbind : bind L cp body "foo".toList = setStrArg cp G "foo".toList := by
      simp [bind, hG, coerce, setArg]
    have hok : (tryToUseFlag L cp body "foo".toList).2 = none :=
      (tryToUseFlag_eq L cp body _).2.2 ⟨ValueType.str, G, "foo".toList, hG, rfl⟩
    refine ⟨setStrArg cp G "foo".toList, ?_, ?_⟩
    · show parseLoop L [("--".toList ++ body ++ "=".toList), "foo".toList] cp = _
      have e : "--".toList ++ body ++ "=".toList = flagToken 2 body ++ ['='] := by
        simp [flagToken, List.replicate]
      rw [e, parseLoop_empty_inline L cp 2 (Or.inr rfl) body ⟨hh, heq⟩ hb,
        parseLoop_bare_next L cp 2 (Or.inr rfl) body ⟨hh, heq⟩ hb, if_pos hok, hbind, parseLoop]
    · intro y hy
      rw [setStrArg_eq]
      simp [hy]

/-- C23 on the sample registry: `--c= foo` gives what `--c foo` gives, and sets
the string "c" to "foo". -/
theorem empty_inline_value_witness :
    ((2 = 1 ∨ 2 = 2) ∧ "c".toList ≠ [] ∧ "c".toList.head? ≠ some '-' ∧ '=' ∉ "c".toList ∧
      resolve sampleCommandParser "c".toList = some (ValueType.str, ["c".toList])) ∧
    sampleCommandParser.parseFlags asciiStdlib
        (["cli".toList, "sub".toList, List.replicate 2 '-' ++ "c".toList ++ "=".toList] ++
          ["foo".toList]) =
      sampleCommandParser.parseFlags asciiStdlib
        (["cli".toList, "sub".toList, List.replicate 2 '-' ++ "c".toList] ++ ["foo".toList]) ∧
    ∃ st, sampleCommandParser.parseFlags asciiStdlib
        ["cli".toList, "sub".toList, "--".toList ++ "c".toList ++ "=".toList, "foo".toList] =
          some st ∧
      ∀ y ∈ ["c".toList], st.strValues y = some "foo".toList := by
  have h := empty_inline_value asciiStdlib sampleCommandParser "cli".toList "sub".toList 2
    "c".toList ["foo".toList] (by decide) (by decide) (by decide) (by decide)
  exact ⟨by decide, h.1, h.2 ["c".toList] (by decide)⟩

/-! ## C24: static type binding -/

theorem getValue_some (L : Stdlib) (h : SubcommandHandler L.float64) (T : ValueType) (y : Str)
    (hv : getValue L h T y ≠ none) :
    h.argparser.values T y ≠ none ∨ h.paramparser.values T y ≠ none := by
  by_contra hc
  rw [not_or, not_not, not_not] at hc
  obtain ⟨ha, hp⟩ := hc
  apply hv
  cases T <;> simp only [commandParser.values] at ha hp <;>
    simp [getValue, GetInt, GetStr, GetFloat, GetBool, ha, hp, keyNotAvailable]

/-- C24: in every state reachable from `NewSubcommandHandler` by successful
registrations and completed `parseFlags` calls, every key of a value map of a
registry is an alias of a group of the same type in the same registry; no key
is in the value maps of two different types or of both registries; hence at
most one of `GetInt`, `GetStr`, `GetFloat` and `GetBool` returns a nil error
for a given alias. -/
theorem static_type_binding (L : Stdlib) (h : SubcommandHandler L.float64)
    (hr : Reachable L h) :
    (∀ (r : Bool) T y, (h.registry r).values T y ≠ none →
      ∃ g ∈ (h.registry r).labels T, y ∈ g) ∧
    (∀ (r r2 : Bool) T T2 y, (h.registry r).values T y ≠ none →
      (h.registry r2).values T2 y ≠ none → r = r2 ∧ T = T2) ∧
    (∀ T T2 y, getValue L h T y ≠ none → getValue L h T2 y ≠ none → T = T2) := by
  have hw := Reachable.wf L h hr
  have hreg : ∀ r : Bool, (h.registry r).WF := by
    intro r
    cases r
    · exact hw.arg
    · exact hw.param
  have h1 : ∀ (r : Bool) T y, (h.registry r).values T y ≠ none →
      ∃ g ∈ (h.registry r).labels T, y ∈ g :=
    fun r T y hv => (hreg r).keys_sub T y hv
  have hknown : ∀ (r : Bool) T y, (h.registry r).values T y ≠ none →
      y ∈ (h.registry r).allLabels := by
    intro r T y hv
    obtain ⟨g, hg, hy⟩ := h1 r T y hv
    exact (hreg r).labels_sub T g hg y hy
  have h2 : ∀ (r r2 : Bool) T T2 y, (h.registry r).values T y ≠ none →
      (h.registry r2).values T2 y ≠ none → r = r2 ∧ T = T2 := by
    intro r r2 T T2 y hv hv2
    have hr12 : r = r2 := by
      have k1 := hknown r T y hv
      have k2 := hknown r2 T2 y hv2
      cases r <;> cases r2
      · rfl
      · exact absurd k2 (hw.apart y k1)
      · exact absurd k1 (hw.apart y k2)
      · rfl
    subst hr12
    refine ⟨rfl, ?_⟩
    by_contra hT
    obtain ⟨g, hg, hy⟩ := h1 r T y hv
    obtain ⟨g2, hg2, hy2⟩ := h1 r T2 y hv2
    obtain ⟨i, hi⟩ := List.get?_of_mem hg
    obtain ⟨j, hj⟩ := List.get?_of_mem hg2
    exact (hreg r).apart T T2 i j g g2 hi hj (Or.inl hT) y hy hy2
  refine ⟨h1, h2, ?_⟩
  intro T T2 y hv hv2
  rcases getValue_some L h T y hv with a1 | a1 <;>
    rcases getValue_some L h T2 y hv2 with a2 | a2
  · exact (h2 false false T T2 y a1 a2).2
  · exact (h2 false true T T2 y a1 a2).2
  · exact (h2 true false T T2 y a1 a2).2
  · exact (h2 true true T T2 y a1 a2).2

/-- C24 on the handler with the integer argument {"a", "apple"} after parsing
`--a=5`: "apple" is a key of the integer map only, and only `GetInt` reads
it. -/
theorem static_type_binding_witness :
    Reachable asciiStdlib appleHandlerParsed ∧
    (appleHandlerParsed.registry false).values ValueType.int "apple".toList ≠ none ∧
    (∃ g ∈ (appleHandlerParsed.registry false).labels ValueType.int, "apple".toList ∈ g) ∧
    ∀ T2, getValue asciiStdlib appleHandlerParsed T2 "apple".toList ≠ none →
      ValueType.int = T2 := by
  have h := static_type_binding asciiStdlib appleHandlerParsed appleHandlerParsed_reachable
  have hv : (appleHandlerParsed.registry false).values ValueType.int "apple".toList ≠ none := by
    decide
  refine ⟨appleHandlerParsed_reachable, hv, h.1 false ValueType.int _ hv, ?_⟩
  intro T2 h2
  exact h.2.2 ValueType.int T2 "apple".toList (by decide) h2

/-! ## C8, C9: last write wins -/

/-- In the registry of a reachable handler an alias of an integer group is
non-empty, does not start with a dash, and its group is the first integer
group that holds it. -/
theorem reachable_int_alias (L : Stdlib) (h : SubcommandHandler L.float64)
    (hr : Reachable L h) (r : Bool) (G : List Str) (a : Str)
    (hG : G ∈ (h.registry r).intLabels) (ha : a ∈ G) :
    a ≠ [] ∧ a.head? ≠ some '-' ∧ firstGroup (h.registry r).intLabels a = some G := by
  have hw := Reachable.wf L h hr
  have hreg : (h.registry r).WF := by
    cases r
    · exact hw.arg
    · exact hw.param
  have hknown : a ∈ (h.registry r).allLabels := hreg.labels_sub ValueType.int G hG a ha
  have hval : aliasIsValid L a = true := by
    cases r
    · exact hw.valid a (Or.inl hknown)
    · exact hw.valid a (Or.inr hknown)
  obtain ⟨i, hi⟩ := List.get?_of_mem hG
  have hres := resolve_own (h.registry r) hreg ValueType.int i G a hi ha
  exact ⟨(aliasIsValid_plain L a hval).1, (aliasIsValid_plain L a hval).2,
    resolve_some (h.registry r) a ValueType.int G hres⟩

/-- C8: for a registry of a reachable handler (either registry, as the
coordinator builds it) with an integer group `G` holding two aliases `a` and
`b`, no `=` in either, and any two integers `m` and `n` of the 64-bit `int`,
`parseFlags` on `[prog, sub, -a, str(m), --b=str(n)]` completes and leaves
`intValues[a] = intValues[b] = n`. -/
theorem last_write_wins_in_one_parse (L : Stdlib) (h : SubcommandHandler L.float64)
    (hr : Reachable L h) (r : Bool) (prog sub a b : Str) (G : List Str) (m n : Int)
    (hG : G ∈ (h.registry r).intLabels) (ha : a ∈ G) (hb : b ∈ G)
    (haeq : '=' ∉ a) (hbeq : '=' ∉ b)
    (hm : -(2 : Int) ^ 63 ≤ m ∧ m < (2 : Int) ^ 63)
    (hn : -(2 : Int) ^ 63 ≤ n ∧ n < (2 : Int) ^ 63) :
    ∃ st, (h.registry r).parseFlags L
        [prog, sub, "-".toList ++ a, Itoa m, "--".toList ++ b ++ "=".toList ++ Itoa n] = some st ∧
      st.intValues a = some n ∧ st.intValues b = some n := by
  obtain ⟨a1, a2, _⟩ := reachable_int_alias L h hr r G a hG ha
  obtain ⟨_, b2, b3⟩ := reachable_int_alias L h hr r G b hG hb
  exact one_parse_last_write L (h.registry r) prog sub a b G m n ha b3 a1 a2 haeq b2 hbeq hm hn

/-- C8 at the instance of the specification, on the handler with the integer
group {"a", "apple"}: `-a 1 --apple=2` gives 2 for both aliases. -/
theorem last_write_wins_in_one_parse_witness :
    (Reachable asciiStdlib appleHandler ∧
      ["a".toList, "apple".toList] ∈ (appleHandler.registry false).intLabels ∧
      "a".toList ∈ ["a".toList, "apple".toList] ∧
      "apple".toList ∈ ["a".toList, "apple".toList] ∧
      '=' ∉ "a".toList ∧ '=' ∉ "apple".toList) ∧
    ∃ st, (appleHandler.registry false).parseFlags asciiStdlib
        ["cli".toList, "sub".toList, "-".toList ++ "a".toList, Itoa 1,
          "--".toList ++ "apple".toList ++ "=".toList ++ Itoa 2] = some st ∧
      st.intValues "a".toList = some 2 ∧ st.intValues "apple".toList = some 2 :=
  ⟨⟨appleHandler_reachable, by decide, by decide, by decide, by decide, by decide⟩,
   last_write_wins_in_one_parse asciiStdlib appleHandler appleHandler_reachable false
     "cli".toList "sub".toList "a".toList "apple".toList ["a".toList, "apple".toList] 1 2
     (by decide) (by decide) (by decide) (by decide) (by decide) (by decide) (by decide)⟩

/-- C9: for a registry of a reachable handler (either registry, as the
coordinator builds it) with an integer alias `l` of the group `G`, no `=` in
`l`, any argument vector `args1` on which `parseFlags` completes, and any
string `v` that `Atoi` reads as the integer `n`, running `parseFlags(args1)`
and then `parseFlags` on `[prog, sub, --l=v]` completes and leaves every alias
of `G` mapped to `n`. -/
theorem last_write_wins_across_parses (L : Stdlib) (h : SubcommandHandler L.float64)
    (hr : Reachable L h) (r : Bool) (st1 : commandParser L.float64) (args1 : List Str)
    (prog sub l v : Str) (G : List Str) (n : Int)
    (hG : G ∈ (h.registry r).intLabels) (hl : l ∈ G) (heq : '=' ∉ l)
    (hrun : (h.registry r).parseFlags L args1 = some st1) (hv : Atoi v = some n) :
    ∃ st2, st1.parseFlags L [prog, sub, "--".toList ++ l ++ "=".toList ++ v] = some st2 ∧
      ∀ y ∈ G, st2.intValues y = some n := by
  obtain ⟨_, l2, l3⟩ := reachable_int_alias L h hr r G l hG hl
  exact repeated_parse_last_write L (h.registry r) st1 args1 prog sub l v G n l3 l2 heq hrun hv

/-- C9 on the handler with the integer group {"a", "apple"}: after `-a 1337`,
the vector `--apple=7` leaves 7 on both aliases. -/
theorem last_write_wins_across_parses_witness :
    (Reachable asciiStdlib appleHandler ∧
      ["a".toList, "apple".toList] ∈ (appleHandler.registry false).intLabels ∧
      "apple".toList ∈ ["a".toList, "apple".toList] ∧ '=' ∉ "apple".toList ∧
      (appleHandler.registry false).parseFlags asciiStdlib
        ["cli".toList, "sub".toList, "-a".toList, "1337".toList] =
          some (setIntArg (appleHandler.registry false) ["a".toList, "apple".toList] 1337) ∧
      Atoi "7".toList = some 7) ∧
    ∃ st2, (setIntArg (appleHandler.registry false) ["a".toList, "apple".toList]
          1337).parseFlags asciiStdlib
          ["cli".toList, "sub".toList,
            "--".toList ++ "apple".toList ++ "=".toList ++ "7".toList] = some st2 ∧
        ∀ y ∈ ["a".toList, "apple".toList], st2.intValues y = some 7 :=
  ⟨⟨appleHandler_reachable, by decide, by decide, by decide, rfl, by decide⟩,
   last_write_wins_across_parses asciiStdlib appleHandler appleHandler_reachable false _
     ["cli".toList, "sub".toList, "-a".toList, "1337".toList]
     "cli".toList "sub".toList "apple".toList "7".toList ["a".toList, "apple".toList] 7
     (by decide) (by decide) (by decide) rfl (by decide)⟩

/-! ## C22: a boolean or string flag followed by a token -/

theorem eqAliasHandler_reachable : Reachable asciiStdlib eqAliasHandler :=
  Reachable.add _ _ (Reachable.add _ emptyHandler emptyHandler_reachable (by decide)) (by decide)

/-- C22 fails as stated.  `AddBoolArg({"g=x"})` and `AddIntArg({"a"})` are both
accepted; in the required registry of that handler "g=x" is an alias of a
boolean group and of no other group, and `parseFlags` on
`[cli, sub, --g=x, --a=5]` reads the first token as the label "g" with the
inline value "x", writes nothing for it, and reads the second token as a flag:
"g=x" stays unset and "a" is set to 5. -/
theorem flag_swallows_next_counterexample :
    Reachable asciiStdlib eqAliasHandler ∧
    (∃ g ∈ eqAliasHandler.argparser.boolLabels, "g=x".toList ∈ g) ∧
    (∀ g ∈ eqAliasHandler.argparser.intLabels, "g=x".toList ∉ g) ∧
    (∀ g ∈ eqAliasHandler.argparser.strLabels, "g=x".toList ∉ g) ∧
    (∀ g ∈ eqAliasHandler.argparser.floatLabels, "g=x".toList ∉ g) ∧
    (∃ g ∈ eqAliasHandler.argparser.intLabels, "a".toList ∈ g) ∧
    (eqAliasHandler.argparser.parseFlags asciiStdlib
      ["cli".toList, "sub".toList, "--".toList ++ "g=x".toList, "--a=5".toList]).map
      (fun st => (st.boolValues "g=x".toList, st.intValues "a".toList)) =
      some (none, some 5) :=
  ⟨eqAliasHandler_reachable, by decide, by decide, by decide, by decide, by decide, by decide⟩

/-- C22, amended: for a registry and an alias `g` that is non-empty, does not
start with a dash and holds no `=`, and for every token `t`: when `g` is an
alias of a boolean group and of no integer, string or float group, and `G` is
the first boolean group holding it, `parseFlags` on
`[prog, sub, --g, t] ++ rest` gives what `parseFlags` on `[prog, sub] ++ rest`
gives from the registry in which every alias of `G` is set to (`t` is not
"false"), and `[prog, sub, --g, --a=5]` completes with `G` set to true and the
integer values as they were; when `g` is an alias of a string group and of no
integer group, and `G` is the first string group holding it, the same holds
with every alias of `G` set to the token `t` itself, and
`[prog, sub, --g, --a=5]` completes with `G` set to "--a=5" and the integer
values as they were.  In both cases `t` is not read as a flag. -/
theorem flag_swallows_next (L : Stdlib) (cp : commandParser L.float64)
    (prog sub g t : Str) (rest : List Str)
    (hne : g ≠ []) (hdash : g.head? ≠ some '-') (heq : '=' ∉ g) :
    (∀ G, (∀ r ∈ cp.intLabels, g ∉ r) → (∀ r ∈ cp.strLabels, g ∉ r) →
      (∀ r ∈ cp.floatLabels, g ∉ r) → firstGroup cp.boolLabels g = some G →
      cp.parseFlags L ([prog, sub, "--".toList ++ g, t] ++ rest) =
        (setBoolArg cp G (decide (t ≠ "false".toList))).parseFlags L ([prog, sub] ++ rest) ∧
      ∀ a : Str, ∃ st,
        cp.parseFlags L [prog, sub, "--".toList ++ g, "--".toList ++ a ++ "=5".toList] =
          some st ∧
        (∀ y ∈ G, st.boolValues y = some true) ∧ st.intValues = cp.intValues) ∧
    (∀ G, (∀ r ∈ cp.intLabels, g ∉ r) → firstGroup cp.strLabels g = some G →
      cp.parseFlags L ([prog, sub, "--".toList ++ g, t] ++ rest) =
        (setStrArg cp G t).parseFlags L ([prog, sub] ++ rest) ∧
      ∀ a : Str, ∃ st,
        cp.parseFlags L [prog, sub, "--".toList ++ g, "--".toList ++ a ++ "=5".toList] =
          some st ∧
        (∀ y ∈ G, st.strValues y = some ("--".toList ++ a ++ "=5".toList)) ∧
        st.intValues = cp.intValues) := by
  constructor
  · intro G hint hstr hfloat hG
    have hb : ∀ v, bind L cp g v = setBoolArg cp G (decide (v ≠ "false".toList)) :=
      fun v => bind_bool L cp g v G hint hstr hfloat hG
    have hok : ∀ v, (tryToUseFlag L cp g v).2 = none := by
      intro v
      refine (tryToUseFlag_eq L cp g v).2.2
        ⟨ValueType.bool, G, decide (v ≠ "false".toList), ?_, rfl⟩
      simp [resolve, firstGroup_eq_none hint, firstGroup_eq_none hstr,
        firstGroup_eq_none hfloat, hG]
    have step : ∀ v r, parseLoop L (("--".toList ++ g) :: v :: r) cp =
        parseLoop L r (setBoolArg cp G (decide (v ≠ "false".toList))) := by
      intro v r
      rw [flagToken_two, parseLoop_bare_next L cp 2 (Or.inr rfl) g ⟨hdash, heq⟩ hne,
        if_pos (hok v), hb v]
    refine ⟨step t rest, ?_⟩
    intro a
    refine ⟨setBoolArg cp G true, ?_, ?_, ?_⟩
    · show parseLoop L [("--".toList ++ g), "--".toList ++ a ++ "=5".toList] cp = _
      rw [step, parseLoop]
      have : decide ("--".toList ++ a ++ "=5".toList ≠ "false".toList) = true := by
        simp
      rw [this]
    · intro y hy
      rw [setBoolArg_eq]
      simp [hy]
    · rw [setBoolArg_eq]
  · intro G hint hG
    have hres : resolve cp g = some (ValueType.str, G) := by
      simp [resolve, firstGroup_eq_none hint, hG]
    have hb : ∀ v, bind L cp g v = setStrArg cp G v := by
      intro v
      simp [bind, hres, coerce, setArg]
    have hok : ∀ v, (tryToUseFlag L cp g v).2 = none :=
      fun v => (tryToUseFlag_eq L cp g v).2.2 ⟨ValueType.str, G, v, hres, rfl⟩
    have step : ∀ v r, parseLoop L (("--".toList ++ g) :: v :: r) cp =
        parseLoop L r (setStrArg cp G v) := by
      intro v r
      rw [flagToken_two, parseLoop_bare_next L cp 2 (Or.inr rfl) g ⟨hdash, heq⟩ hne,
        if_pos (hok v), hb v]
    refine ⟨step t rest, ?_⟩
    intro a
    refine ⟨setStrArg cp G ("--".toList ++ a ++ "=5".toList), ?_, ?_, ?_⟩
    · show parseLoop L [("--".toList ++ g), "--".toList ++ a ++ "=5".toList] cp = _
      rw [step, parseLoop]
    · intro y hy
      rw [setStrArg_eq]
      simp [hy]
    · rw [setStrArg_eq]

/-- C22 amended, on the sample registry: `--g false --x=7` goes on with
`--x=7` after setting the boolean group {"g", "h"} to false, and `--c --a=5`
sets the string "c" to "--a=5" and leaves the integer values alone. -/
theorem flag_swallows_next_witness :
    (("g".toList ≠ [] ∧ "g".toList.head? ≠ some '-' ∧ '=' ∉ "g".toList) ∧
      ("c".toList ≠ [] ∧ "c".toList.head? ≠ some '-' ∧ '=' ∉ "c".toList) ∧
      (∀ r ∈ sampleCommandParser.intLabels, "g".toList ∉ r) ∧
      (∀ r ∈ sampleCommandParser.strLabels, "g".toList ∉ r) ∧
      (∀ r ∈ sampleCommandParser.floatLabels, "g".toList ∉ r) ∧
      firstGroup sampleCommandParser.boolLabels "g".toList = some ["g".toList, "h".toList] ∧
      (∀ r ∈ sampleCommandParser.intLabels, "c".toList ∉ r) ∧
      firstGroup sampleCommandParser.strLabels "c".toList = some ["c".toList]) ∧
    sampleCommandParser.parseFlags asciiStdlib
        (["cli".toList, "sub".toList, "--".toList ++ "g".toList, "false".toList] ++
          ["--x=7".toList]) =
      (setBoolArg sampleCommandParser ["g".toList, "h".toList]
        (decide ("false".toList ≠ "false".toList))).parseFlags asciiStdlib
        (["cli".toList, "sub".toList] ++ ["--x=7".toList]) ∧
    ∃ st, sampleCommandParser.parseFlags asciiStdlib
        ["cli".toList, "sub".toList, "--".toList ++ "c".toList,
          "--".toList ++ "a".toList ++ "=5".toList] = some st ∧
      (∀ y ∈ ["c".toList], st.strValues y = some ("--".toList ++ "a".toList ++ "=5".toList)) ∧
      st.intValues = sampleCommandParser.intValues :=
  ⟨by decide,
   ((flag_swallows_next asciiStdlib sampleCommandParser "cli".toList "sub".toList "g".toList
      "false".toList ["--x=7".toList] (by decide) (by decide) (by decide)).1
      ["g".toList, "h".toList] (by decide) (by decide) (by decide) (by decide)).1,
   ((flag_swallows_next asciiStdlib sampleCommandParser "cli".toList "sub".toList "c".toList
      "false".toList [] (by decide) (by decide) (by decide)).2
      ["c".toList] (by decide) (by decide)).2 "a".toList⟩

end Goldcmd
